import Mathlib

/-!
# singer-tap-riot: a verification development

A shallow embedding of the sync engine of `internal/tap` and of the protocol
types of `pkg/singer`.

* Go strings are Lean `String`s (the identities come from a JSON document, so
  they are valid UTF-8); `[]byte(s)` is the UTF-8 encoding, `range s` walks the
  code points.
* Go `int` and `int64` are `Int`, with an explicit wrap to 64 bits where the
  source can overflow.
* A Go map is `Option` of an association list: `none` is the nil map, whose
  reads succeed and whose writes panic.
* The remote client (`golio`, `net/http`) is a parameter of the embedding: a
  record of functions giving the answer of the remote source to each request.
  The clock is a parameter too: `now` is the reading of `time.Now()`, one
  calendar date for the run.
* Every remote call, pacing sleep, log line and emitted message is recorded,
  in program order, in a trace.
* A run-time panic is an explicit outcome (`none`, or the `panicked` flag of a
  run).
* The workers of a stream are goroutines that share the state and the output
  under one mutex; a worker is embedded as the sequential function of its
  goroutine body, and a whole stream as its workers run in group order.
-/

namespace TapRiot

/-! ## `crypto/md5`, `encoding/hex`, `strconv.ParseInt` -/

/-- The UTF-8 encoding of one code point, as byte values. -/
def utf8Bytes (c : Char) : List Nat :=
  let v := c.toNat
  if v < 0x80 then [v]
  else if v < 0x800 then [0xC0 + v / 64, 0x80 + v % 64]
  else if v < 0x10000 then [0xE0 + v / 4096, 0x80 + v / 64 % 64, 0x80 + v % 64]
  else [0xF0 + v / 262144, 0x80 + v / 4096 % 64, 0x80 + v / 64 % 64, 0x80 + v % 64]

/-- The conversion `[]byte(s)`. -/
def stringBytes (s : String) : List Nat :=
  s.data.flatMap utf8Bytes

/-- The per-round left-rotation amounts of MD5 (RFC 1321). -/
def md5Shifts : List Nat :=
  [7, 12, 17, 22, 7, 12, 17, 22, 7, 12, 17, 22, 7, 12, 17, 22,
   5, 9, 14, 20, 5, 9, 14, 20, 5, 9, 14, 20, 5, 9, 14, 20,
   4, 11, 16, 23, 4, 11, 16, 23, 4, 11, 16, 23, 4, 11, 16, 23,
   6, 10, 15, 21, 6, 10, 15, 21, 6, 10, 15, 21, 6, 10, 15, 21]

/-- The sine-derived round constants of MD5 (RFC 1321). -/
def md5Table : List Nat :=
  [0xd76aa478, 0xe8c7b756, 0x242070db, 0xc1bdceee, 0xf57c0faf, 0x4787c62a, 0xa8304613, 0xfd469501,
   0x698098d8, 0x8b44f7af, 0xffff5bb1, 0x895cd7be, 0x6b901122, 0xfd987193, 0xa679438e, 0x49b40821,
   0xf61e2562, 0xc040b340, 0x265e5a51, 0xe9b6c7aa, 0xd62f105d, 0x02441453, 0xd8a1e681, 0xe7d3fbc8,
   0x21e1cde6, 0xc33707d6, 0xf4d50d87, 0x455a14ed, 0xa9e3e905, 0xfcefa3f8, 0x676f02d9, 0x8d2a4c8a,
   0xfffa3942, 0x8771f681, 0x6d9d6122, 0xfde5380c, 0xa4beea44, 0x4bdecfa9, 0xf6bb4b60, 0xbebfbc70,
   0x289b7ec6, 0xeaa127fa, 0xd4ef3085, 0x04881d05, 0xd9d4d039, 0xe6db99e5, 0x1fa27cf8, 0xc4ac5665,
   0xf4292244, 0x432aff97, 0xab9423a7, 0xfc93a039, 0x655b59c3, 0x8f0ccc92, 0xffeff47d, 0x85845dd1,
   0x6fa87e4f, 0xfe2ce6e0, 0xa3014314, 0x4e0811a1, 0xf7537e82, 0xbd3af235, 0x2ad7d2bb, 0xeb86d391]

/-- The four 32-bit chaining words of MD5. -/
structure Md5State where
  a : Nat
  b : Nat
  c : Nat
  d : Nat
  deriving DecidableEq, Repr

/-- The initial chaining value. -/
def md5Init : Md5State :=
  { a := 0x67452301, b := 0xefcdab89, c := 0x98badcfe, d := 0x10325476 }

/-- Bitwise complement of a 32-bit word. -/
def not32 (x : Nat) : Nat := Nat.xor (x % 2 ^ 32) 0xffffffff

/-- Left rotation of a 32-bit word. -/
def rotl32 (x c : Nat) : Nat :=
  (Nat.lor (Nat.shiftLeft x c) (Nat.shiftRight x (32 - c))) % 2 ^ 32

/-- Little-endian 32-bit word number `g` of a 64-byte block. -/
def md5Word (block : List Nat) (g : Nat) : Nat :=
  block.getD (4 * g) 0 + 256 * block.getD (4 * g + 1) 0
    + 65536 * block.getD (4 * g + 2) 0 + 16777216 * block.getD (4 * g + 3) 0

/-- One of the 64 steps of the MD5 compression function. -/
def md5Step (block : List Nat) (s : Md5State) (i : Nat) : Md5State :=
  let fg : Nat × Nat :=
    if i < 16 then (Nat.lor (Nat.land s.b s.c) (Nat.land (not32 s.b) s.d), i)
    else if i < 32 then (Nat.lor (Nat.land s.d s.b) (Nat.land (not32 s.d) s.c), (5 * i + 1) % 16)
    else if i < 48 then (Nat.xor (Nat.xor s.b s.c) s.d, (3 * i + 5) % 16)
    else (Nat.xor s.c (Nat.lor s.b (not32 s.d)), (7 * i) % 16)
  let f := (fg.1 + s.a + md5Table.getD i 0 + md5Word block fg.2) % 2 ^ 32
  { a := s.d, b := (s.b + rotl32 f (md5Shifts.getD i 0)) % 2 ^ 32, c := s.b, d := s.c }

/-- The MD5 compression function on one 64-byte block. -/
def md5Block (s : Md5State) (block : List Nat) : Md5State :=
  let r := (List.range 64).foldl (md5Step block) s
  { a := (s.a + r.a) % 2 ^ 32, b := (s.b + r.b) % 2 ^ 32,
    c := (s.c + r.c) % 2 ^ 32, d := (s.d + r.d) % 2 ^ 32 }

/-- Little-endian bytes of a value, `n` of them. -/
def leBytes : Nat → Nat → List Nat
  | 0, _ => []
  | n + 1, x => x % 256 :: leBytes n (x / 256)

/-- MD5 padding: a `0x80` byte, zeros up to 56 modulo 64, the bit length on 8 bytes. -/
def md5Pad (msg : List Nat) : List Nat :=
  let len := msg.length
  let zeros := (119 - len % 64) % 64
  msg ++ 0x80 :: List.replicate zeros 0 ++ leBytes 8 ((8 * len) % 2 ^ 64)

/-- The compression function run over `n` consecutive blocks. -/
def md5Blocks : Nat → Md5State → List Nat → Md5State
  | 0, s, _ => s
  | n + 1, s, bytes => md5Blocks n (md5Block s (bytes.take 64)) (bytes.drop 64)

/-- The 16-byte digest `md5.New().Write(msg).Sum(nil)`. -/
def md5Sum (msg : List Nat) : List Nat :=
  let padded := md5Pad msg
  let s := md5Blocks (padded.length / 64) md5Init padded
  leBytes 4 s.a ++ leBytes 4 s.b ++ leBytes 4 s.c ++ leBytes 4 s.d

/-- The lower-case hexadecimal digit of a value below 16. -/
def hexDigit (k : Nat) : Char :=
  "0123456789abcdef".data.getD k '0'

/-- The function `hex.EncodeToString`. -/
def hexEncodeToString (bytes : List Nat) : String :=
  String.mk (bytes.flatMap fun b => [hexDigit (b / 16 % 16), hexDigit (b % 16)])

/-- The digit value of one byte in `strconv.ParseUint`, before the base check. -/
def digitVal (c : Char) : Option Nat :=
  let v := c.toNat
  if 48 ≤ v ∧ v ≤ 57 then some (v - 48)
  else if 97 ≤ v ∧ v ≤ 122 then some (v - 97 + 10)
  else if 65 ≤ v ∧ v ≤ 90 then some (v - 65 + 10)
  else none

/-- The digit loop of `strconv.ParseUint(s, 16, 64)`; `none` is an error
(syntax or range). -/
def parseUintLoop : List Char → Nat → Option Nat
  | [], n => some n
  | c :: cs, n =>
    match digitVal c with
    | none => none
    | some d =>
      if 16 ≤ d then none
      else if (2 ^ 64 - 1) / 16 + 1 ≤ n then none
      else if 2 ^ 64 - 1 < n * 16 + d then none
      else parseUintLoop cs (n * 16 + d)

/-- The function `strconv.ParseUint(s, 16, 64)`. -/
def parseUint16 (s : List Char) : Option Nat :=
  match s with
  | [] => none
  | _ => parseUintLoop s 0

/-- The function `strconv.ParseInt(s, 16, 64)`; `none` is `err != nil`. -/
def parseInt16 (s : String) : Option Int :=
  match s.data with
  | [] => none
  | c :: cs =>
    let neg := c = '-'
    let rest := if c = '+' ∨ c = '-' then cs else c :: cs
    match parseUint16 rest with
    | none => none
    | some un =>
      if ¬ neg ∧ 2 ^ 63 ≤ un then none
      else if neg ∧ 2 ^ 63 < un then none
      else some (if neg then -(un : Int) else (un : Int))

/-! ## The identity sharder (`tap.go`) -/

/-- Two's-complement wrap of an integer to `int64`. -/
def wrapInt64 (x : Int) : Int :=
  (x + 2 ^ 63) % 2 ^ 64 - 2 ^ 63

/-- The fallback checksum loop of `hashPlayerToServiceIndex`. -/
def fallbackChecksum (player : String) : Int :=
  player.data.foldl (fun h c => wrapInt64 (h * 31 + (c.toNat : Int))) 0

/-- The function `hashPlayerToServiceIndex`; `none` is a run-time panic
(slice bounds out of range, or integer division by zero). -/
def hashPlayerToServiceIndex (player : String) (numServices : Int) : Option Int :=
  let hash := hexEncodeToString (md5Sum (stringBytes player))
  if hash.data.length < 8 then none
  else
    let hashStr := String.mk (hash.data.take 8)
    let hashInt64 : Int :=
      match parseInt16 hashStr with
      | some v => v
      | none => fallbackChecksum player
    if numServices = 0 then none
    else some (Int.tmod hashInt64 numServices)

/-! ## Time (`time.Parse`, `Time.Format`, `Time.Date`) -/

/-- A wall-clock reading: the calendar date and the time of day in nanoseconds. -/
structure Time where
  year : Nat
  month : Nat
  day : Nat
  nsec : Nat
  deriving DecidableEq, Repr

/-- The test `'0' <= c && c <= '9'` on one byte. -/
def isDigit (c : Char) : Bool :=
  decide (48 ≤ c.toNat) && decide (c.toNat ≤ 57)

/-- The value `c - '0'` of a digit. -/
def digitOf (c : Char) : Nat := c.toNat - 48

/-- The character of a decimal digit. -/
def digitChar (d : Nat) : Char := Char.ofNat (48 + d % 10)

/-- The function `isLeap` of package `time`. -/
def isLeap (year : Nat) : Bool :=
  decide (year % 4 = 0) && (decide (year % 100 ≠ 0) || decide (year % 400 = 0))

/-- The function `daysIn` of package `time`. -/
def daysIn (month year : Nat) : Nat :=
  if month = 2 then (if isLeap year then 29 else 28)
  else if month = 4 ∨ month = 6 ∨ month = 9 ∨ month = 11 then 30
  else 31

/-- The function `startDateAsTime`, that is `time.Parse("2006-01-02", s)`: four
year digits, two month digits, two day digits, separated by `-`, nothing else,
month and day in range; `none` is `err != nil`. -/
def startDateAsTime (s : String) : Option Time :=
  match s.data with
  | [y1, y2, y3, y4, s1, m1, m2, s2, d1, d2] =>
    if isDigit y1 && isDigit y2 && isDigit y3 && isDigit y4 && decide (s1 = '-')
        && isDigit m1 && isDigit m2 && decide (s2 = '-') && isDigit d1 && isDigit d2 then
      let year := digitOf y1 * 1000 + digitOf y2 * 100 + digitOf y3 * 10 + digitOf y4
      let month := digitOf m1 * 10 + digitOf m2
      let day := digitOf d1 * 10 + digitOf d2
      if month = 0 ∨ 12 < month then none
      else if day < 1 ∨ daysIn month year < day then none
      else some { year := year, month := month, day := day, nsec := 0 }
    else none
  | _ => none

/-- The decimal digits of a number, most significant first, by the
divide-by-ten loop of `appendInt`; the fuel bounds the number of digits. -/
def decimalDigits : Nat → Nat → List Char → List Char
  | 0, _, acc => acc
  | fuel + 1, u, acc =>
    if u < 10 then digitChar u :: acc
    else decimalDigits fuel (u / 10) (digitChar u :: acc)

/-- The function `appendInt` of package `time` for a non-negative value: the
decimal digits, zero-padded on the left to `width`. -/
def appendInt (x width : Nat) : List Char :=
  if width = 2 ∧ x < 100 then [digitChar (x / 10), digitChar x]
  else if width = 4 ∧ x < 10000 then
    [digitChar (x / 1000), digitChar (x / 100), digitChar (x / 10), digitChar x]
  else
    let ds := decimalDigits (x + 1) x []
    List.replicate (width - ds.length) '0' ++ ds

/-- The call `t.Format("2006-01-02")`. -/
def formatDate (t : Time) : String :=
  String.mk (appendInt t.year 4 ++ '-' :: appendInt t.month 2 ++ '-' :: appendInt t.day 2)

/-- The function `isToday`, with the clock reading `now`. -/
def isToday (now t : Time) : Bool :=
  decide (t.year = now.year) && decide (t.month = now.month) && decide (t.day = now.day)

/-! ## Records, requests and the remote client -/

/-- The type `account.Account` of the client library. -/
structure Account where
  Puuid : String
  GameName : String
  TagLine : String
  deriving DecidableEq, Repr

/-- The fields of `lol.LeagueItem` that the tap reads. -/
structure LeagueItem where
  QueueType : String
  Tier : String
  Rank : String
  LeaguePoints : Int
  deriving DecidableEq, Repr

/-- The type `Elo`. -/
structure Elo where
  Puuid : String
  Date : String
  LeaguePoints : Int
  Tier : String
  Rank : String
  deriving DecidableEq, Repr

/-- The metadata of `lol.Match`. -/
structure MatchMetadata where
  MatchID : String
  deriving DecidableEq, Repr

/-- The type `lol.Match`: its metadata and the rest of the document. -/
structure Match where
  Metadata : MatchMetadata
  Info : String
  deriving DecidableEq, Repr

/-- The type `MatchWithID`. -/
structure MatchWithID where
  Match : Match
  MatchID : String
  deriving DecidableEq, Repr

/-- The type `MatchTimeline`; frames and events are kept as documents. -/
structure MatchTimeline where
  Frames : List String
  Events : List String
  MatchId : String
  deriving DecidableEq, Repr

/-- One value of the channel returned by `Match.ListStream`. -/
structure MatchStreamValue where
  MatchID : String
  Error : Option String
  deriving DecidableEq, Repr

/-- The response of `http.Client.Do`: the status and the result of reading the body. -/
structure HttpResponse where
  StatusCode : Int
  Body : Except String String

/-- A request sent to the remote source. -/
inductive Request where
  | GetByRiotID (gameName tagLine : String)
  | ListStream (puuid : String) (queue : Int) (startTime : Time)
  | MatchGet (matchId : String)
  | ListByPuuid (puuid : String)
  | TimelineGet (url token : String)
  deriving DecidableEq, Repr

/-- The remote client of one credential (`golio.Client` and `net/http`): the
answer of the remote source to each request. `ListStream` is the finite
sequence of values received from the channel until it is closed;
`NewRequest` is the error of `http.NewRequest`, if any; `decodeTimeline` is
`json.Unmarshal` of a timeline body followed by the assembly of frames and
events. -/
structure Client where
  GetByRiotID : String → String → Except String Account
  ListStream : String → Int → Time → List MatchStreamValue
  MatchGet : String → Except String Match
  ListByPuuid : String → Except String (List LeagueItem)
  NewRequest : String → Option String
  Do : String → String → Except String HttpResponse
  decodeTimeline : String → Except String (List String × List String)

/-- The type `RiotService`: a client bound to one API key. -/
structure RiotService where
  client : Client
  apiKey : String

/-- The type `PlayerGroup`: the players assigned to one service. -/
structure PlayerGroup where
  Players : List String
  Service : RiotService

/-- The second loop of `distributePlayersToServices`: each player is appended
to the group its hash selects; `none` is a run-time panic (index out of range,
or a panic of the hash). -/
def distributeLoop (numServices : Nat) : List String → List PlayerGroup → Option (List PlayerGroup)
  | [], groups => some groups
  | player :: rest, groups =>
    match hashPlayerToServiceIndex player (numServices : Int) with
    | none => none
    | some serviceIndex =>
      if serviceIndex < 0 then none
      else
        match groups[serviceIndex.toNat]? with
        | none => none
        | some g =>
          distributeLoop numServices rest
            (groups.set serviceIndex.toNat { g with Players := g.Players ++ [player] })

/-- The method `distributePlayersToServices` of a pool with the given services. -/
def distributePlayersToServices (services : List RiotService) (players : List String) :
    Option (List PlayerGroup) :=
  distributeLoop services.length players
    (services.map fun s => { Players := [], Service := s })

/-! ## The credential lane (`riot_service.go`) -/

/-- The payload of a `RECORD` message. -/
inductive RecordData where
  | account (a : Account)
  | elo (e : Elo)
  | matchWithID (m : MatchWithID)
  | timeline (t : MatchTimeline)
  deriving DecidableEq, Repr

/-- A Go map with string keys: `none` is the nil map, `some l` a non-nil map
with the entries of `l`. -/
abbrev GoMap (V : Type) := Option (List (String × V))

/-- The type of `State.Value`. -/
abbrev StateValue := GoMap (GoMap String)

/-- What a worker does, in program order: remote calls, pacing sleeps, log
lines (the text handed to `Tap.Log` and `Tap.LogError`) and the messages
written to the output. -/
inductive Event where
  | call (r : Request)
  | sleep (d : Nat)
  | log (msg : String)
  | logError (msg : String)
  | schema (stream : String) (keyProperties : List String)
  | record (stream : String) (data : RecordData)
  | state (value : StateValue)
  deriving DecidableEq, Repr

def requestsPerWindow : Nat := 100

def windowSeconds : Nat := 120

/-- The constant `sleepDuration`, in nanoseconds: `windowSeconds / requestsPerWindow * 1000 + 200`
milliseconds, the quotient taken exactly as in the constant expression of the source. -/
def sleepDuration : Nat :=
  (windowSeconds * 1000 / requestsPerWindow + 200) * 1000000

/-- The call `strings.Split(s, "#")` (with `sep` the separator), on code points. -/
def splitOn (sep : Char) : List Char → List (List Char)
  | [] => [[]]
  | c :: cs =>
    if c = sep then [] :: splitOn sep cs
    else
      match splitOn sep cs with
      | [] => [[c]]
      | part :: parts => (c :: part) :: parts

/-- The call `strings.Split(player, "#")`. -/
def splitHash (player : String) : List String :=
  (splitOn '#' player.data).map String.mk

/-- The method `RiotService.getAccount`: its result and what it did. -/
def getAccount (r : RiotService) (player : String) : Except String Account × List Event :=
  let parts := splitHash player
  if parts.length ≠ 2 then (.error ("Invalid player id: " ++ player), [])
  else
    let name := parts.getD 0 ""
    let tag := parts.getD 1 ""
    match r.client.GetByRiotID name tag with
    | .error e => (.error ("Failed to get account: " ++ e), [.call (.GetByRiotID name tag)])
    | .ok acc => (.ok acc, [.call (.GetByRiotID name tag), .sleep sleepDuration])

/-- The method `RiotService.getMatchIdsByPlayer`. -/
def getMatchIdsByPlayer (r : RiotService) (player : String) (fromTime : Time) (queueId : Int) :
    Except String (List String) × List Event :=
  match getAccount r player with
  | (.error e, ev) => (.error e, ev)
  | (.ok acc, ev) =>
    (.ok ((r.client.ListStream acc.Puuid queueId fromTime).map fun m => m.MatchID),
      ev ++ [.call (.ListStream acc.Puuid queueId fromTime), .sleep sleepDuration])

/-- The method `RiotService.getMatchDetails`. -/
def getMatchDetails (r : RiotService) (matchId : String) : Except String Match × List Event :=
  match r.client.MatchGet matchId with
  | .error e => (.error e, [.call (.MatchGet matchId)])
  | .ok m => (.ok m, [.call (.MatchGet matchId), .sleep sleepDuration])

/-- The zero value of `Elo`. -/
def zeroElo : Elo :=
  { Puuid := "", Date := "", LeaguePoints := 0, Tier := "", Rank := "" }

/-- The method `RiotService.getElo`, with the clock reading `now`. -/
def getElo (r : RiotService) (now : Time) (player : String) : Except String Elo × List Event :=
  match getAccount r player with
  | (.error e, ev) => (.error e, ev)
  | (.ok acc, ev) =>
    let ev1 := ev ++ [.call (.ListByPuuid acc.Puuid), .sleep sleepDuration]
    match r.client.ListByPuuid acc.Puuid with
    | .error e => (.error ("Failed to get league: " ++ e), ev1)
    | .ok res =>
      (.ok (res.foldl (fun elo league =>
          if league.QueueType = "RANKED_SOLO_5x5" then
            { Puuid := acc.Puuid, Date := formatDate now, LeaguePoints := league.LeaguePoints,
              Tier := league.Tier, Rank := league.Rank }
          else elo) zeroElo), ev1)

/-- The method `RiotService.getMatchTimeline`. -/
def getMatchTimeline (r : RiotService) (matchId : String) :
    Except String MatchTimeline × List Event :=
  let url := "https://europe.api.riotgames.com/lol/match/v5/matches/" ++ matchId ++ "/timeline"
  match r.client.NewRequest url with
  | some e => (.error ("failed to create request: " ++ e), [])
  | none =>
    let ev := [Event.call (.TimelineGet url r.apiKey), .sleep sleepDuration]
    match r.client.Do url r.apiKey with
    | .error e => (.error ("failed to make request: " ++ e), ev)
    | .ok resp =>
      if resp.StatusCode ≠ 200 then
        (.error ("API request failed with status " ++ toString resp.StatusCode), ev)
      else
        match resp.Body with
        | .error e => (.error ("failed to read response body: " ++ e), ev)
        | .ok body =>
          match r.client.decodeTimeline body with
          | .error e => (.error ("failed to unmarshal timeline response: " ++ e), ev)
          | .ok fe => (.ok { Frames := fe.1, Events := fe.2, MatchId := matchId }, ev)

/-! ## The watermark store (`singer.State`) -/

/-- Reading key `k` in the entries of a map. -/
def entriesGet {V : Type} : List (String × V) → String → Option V
  | [], _ => none
  | (k', v) :: l, k => if k' = k then some v else entriesGet l k

/-- Writing key `k` in the entries of a map. -/
def entriesSet {V : Type} : List (String × V) → String → V → List (String × V)
  | [], k, v => [(k, v)]
  | (k', v') :: l, k, v => if k' = k then (k, v) :: l else (k', v') :: entriesSet l k v

/-- The read `m[k]` with its presence flag; a nil map has no entry. -/
def GoMap.get {V : Type} (m : GoMap V) (k : String) : Option V :=
  match m with
  | none => none
  | some l => entriesGet l k

/-- The write `m[k] = v`; `none` is the panic "assignment to entry in nil map". -/
def GoMap.set {V : Type} (m : GoMap V) (k : String) (v : V) : Option (GoMap V) :=
  match m with
  | none => none
  | some l => some (some (entriesSet l k v))

/-- The type `singer.State`. -/
structure State where
  Value : StateValue
  deriving DecidableEq, Repr

/-- The type `Config`. -/
structure Config where
  APIKeys : List String
  Server : String
  Players : List String
  StartDate : String
  QueueId : Int
  deriving DecidableEq, Repr

def Matches : String := "matches"

def MatchTimelines : String := "match_timelines"

def Elos : String := "elos"

def Accounts : String := "accounts"

/-- The read `currentState.Value[stream][player]` with its presence flag: a
missing stream yields the nil map, whose read finds nothing. -/
def lookupWatermark (value : StateValue) (stream player : String) : Option String :=
  GoMap.get ((GoMap.get value stream).getD none) player

/-- The watermark advance at the end of an identity:
`if Value[stream] == nil { Value[stream] = make(map[string]string) }` and then
`Value[stream][player] = date`; `none` is a panic. -/
def advanceWatermark (value : StateValue) (stream player date : String) : Option StateValue :=
  let value1 : Option StateValue :=
    match GoMap.get value stream with
    | some (some _) => some value
    | _ => GoMap.set value stream (some [])
  match value1 with
  | none => none
  | some v1 =>
    match GoMap.set ((GoMap.get v1 stream).getD none) player date with
    | none => none
    | some inner => GoMap.set v1 stream inner

/-! ## The stream workers (`tap.go`) -/

/-- The outcome of a piece of a worker: the state it leaves, what it did, and
whether it ended in a panic (which ends the process). -/
structure Run where
  state : State
  trace : List Event
  panicked : Bool
  deriving DecidableEq, Repr

/-- Sequencing: the continuation runs on the state left, unless a panic ended the run. -/
def Run.seq (r : Run) (next : State → Run) : Run :=
  if r.panicked then r
  else
    let r' := next r.state
    { state := r'.state, trace := r.trace ++ r'.trace, panicked := r'.panicked }

/-- The loop `for playerIdx, player := range players` of a worker, from index
`i`: the iterations run one after the other, each on the state left by the
one before. -/
def playerLoop (body : Nat → State → String → Run) : Nat → List String → State → Run
  | _, [], s => ⟨s, [], false⟩
  | i, player :: rest, s => (body i s player).seq (playerLoop body (i + 1) rest)

/-- The date `time.Now().Format("2006-01-02")`. -/
def today (now : Time) : String := formatDate now

/-- The body of the goroutine of `syncAccountsConcurrent` for its players. -/
def accountsWorker (service : RiotService) : List String → List Event
  | [] => []
  | player :: rest =>
    (match getAccount service player with
      | (.error _, ev) =>
        ev ++ [.logError ("Failed to get account for player: " ++ player ++ " - skipping")]
      | (.ok acc, ev) => ev ++ [.record Accounts (.account acc)])
    ++ accountsWorker service rest

/-- One iteration of the player loop of `syncElosConcurrent`. -/
def elosPlayer (service : RiotService) (c : Config) (now : Time) (s : State)
    (player : String) : Run :=
  let fromDate := (lookupWatermark s.Value Elos player).getD c.StartDate
  match startDateAsTime fromDate with
  | none =>
    ⟨s, [.logError ("Invalid start date: " ++ fromDate ++ " for player: " ++ player
      ++ " - skipping")], false⟩
  | some fromTime =>
    if isToday now fromTime then
      ⟨s, [.log ("Already processed today for player " ++ player ++ ", skipping")], false⟩
    else
      match getElo service now player with
      | (.error _, ev) =>
        ⟨s, ev ++ [.logError ("Failed to get elo for player: " ++ player ++ " - skipping")], false⟩
      | (.ok elo, ev) =>
        match advanceWatermark s.Value Elos player (today now) with
        | none => ⟨s, ev ++ [.record Elos (.elo elo)], true⟩
        | some v => ⟨⟨v⟩, ev ++ [.record Elos (.elo elo), .state v], false⟩

/-- The body of the goroutine of `syncElosConcurrent` for its players. -/
def elosWorker (service : RiotService) (c : Config) (now : Time) (players : List String)
    (s : State) : Run :=
  playerLoop (fun _ st player => elosPlayer service c now st player) 0 players s

/-- The loop over match ids of `syncMatchesConcurrent`, from index `i`. -/
def matchDetailsLoop (service : RiotService) (player : String) (total : Nat) :
    Nat → List String → List Event
  | _, [] => []
  | i, id :: ids =>
    (match getMatchDetails service id with
      | (.error e, ev) =>
        ev ++ [.logError ("Failed to get match details for match id: " ++ id ++ " - skipping " ++ e)]
      | (.ok m, ev) =>
        ev ++ [.record Matches (.matchWithID { Match := m, MatchID := m.Metadata.MatchID })]
          ++ (if (i + 1) % 50 = 0 then
                [.log ("Progress: " ++ toString (i + 1) ++ "/" ++ toString total
                  ++ " matches processed for player " ++ player)]
              else []))
    ++ matchDetailsLoop service player total (i + 1) ids

/-- The loop over match ids of `syncMatchTimelinesConcurrent`, from index `i`. -/
def matchTimelinesLoop (service : RiotService) (player : String) (total : Nat) :
    Nat → List String → List Event
  | _, [] => []
  | i, id :: ids =>
    (match getMatchTimeline service id with
      | (.error e, ev) =>
        ev ++ [.logError ("Failed to get match details for match id: " ++ id
          ++ " - skipping : " ++ e)]
      | (.ok tl, ev) =>
        ev ++ [.record MatchTimelines (.timeline tl)]
          ++ (if (i + 1) % 50 = 0 then
                [.log ("Progress: " ++ toString (i + 1) ++ "/" ++ toString total
                  ++ " matches processed for player " ++ player)]
              else []))
    ++ matchTimelinesLoop service player total (i + 1) ids

/-- The first log line of an identity in the matches and timelines workers. -/
def startingLog (gIdx playerIdx total : Nat) (player : String) : Event :=
  .log ("Group " ++ toString (gIdx + 1) ++ ": Starting player " ++ toString (playerIdx + 1)
    ++ "/" ++ toString total ++ ": " ++ player)

/-- One iteration of the player loop of `syncMatchesConcurrent`. -/
def matchesPlayer (service : RiotService) (c : Config) (now : Time) (gIdx total playerIdx : Nat)
    (s : State) (player : String) : Run :=
  let fromDate := (lookupWatermark s.Value Matches player).getD c.StartDate
  match startDateAsTime fromDate with
  | none =>
    ⟨s, [startingLog gIdx playerIdx total player,
      .logError ("Invalid start date: " ++ fromDate ++ " for player: " ++ player
        ++ " - skipping")], false⟩
  | some fromTime =>
    let pre := [startingLog gIdx playerIdx total player,
      .log ("Processing matches from " ++ fromDate ++ " for player " ++ player)]
    match getMatchIdsByPlayer service player fromTime c.QueueId with
    | (.error _, ev) =>
      ⟨s, pre ++ ev ++ [.logError ("Failed to get match ids for player: " ++ player
        ++ " - skipping")], false⟩
    | (.ok ids, ev) =>
      let body := pre ++ ev
        ++ [.log ("Found " ++ toString ids.length ++ " matches for player " ++ player)]
        ++ matchDetailsLoop service player ids.length 0 ids
      match advanceWatermark s.Value Matches player (today now) with
      | none => ⟨s, body, true⟩
      | some v => ⟨⟨v⟩, body ++ [.state v], false⟩

/-- The body of the goroutine of `syncMatchesConcurrent` for its players. -/
def matchesWorker (service : RiotService) (c : Config) (now : Time) (gIdx : Nat)
    (players : List String) (s : State) : Run :=
  playerLoop (fun i st player => matchesPlayer service c now gIdx players.length i st player)
    0 players s

/-- One iteration of the player loop of `syncMatchTimelinesConcurrent`. -/
def timelinesPlayer (service : RiotService) (c : Config) (now : Time) (gIdx total playerIdx : Nat)
    (s : State) (player : String) : Run :=
  let fromDate := (lookupWatermark s.Value MatchTimelines player).getD c.StartDate
  match startDateAsTime fromDate with
  | none =>
    ⟨s, [startingLog gIdx playerIdx total player,
      .logError ("Invalid start date: " ++ fromDate ++ " for player: " ++ player
        ++ " - skipping")], false⟩
  | some fromTime =>
    let pre := [startingLog gIdx playerIdx total player]
    match getMatchIdsByPlayer service player fromTime c.QueueId with
    | (.error _, ev) =>
      ⟨s, pre ++ ev ++ [.logError ("Failed to get match ids for player: " ++ player
        ++ " - skipping")], false⟩
    | (.ok ids, ev) =>
      let body := pre ++ ev
        ++ [.log ("Found " ++ toString ids.length ++ " matches for player " ++ player)]
        ++ matchTimelinesLoop service player ids.length 0 ids
      match advanceWatermark s.Value MatchTimelines player (today now) with
      | none => ⟨s, body, true⟩
      | some v => ⟨⟨v⟩, body ++ [.state v], false⟩

/-- The body of the goroutine of `syncMatchTimelinesConcurrent` for its players. -/
def timelinesWorker (service : RiotService) (c : Config) (now : Time) (gIdx : Nat)
    (players : List String) (s : State) : Run :=
  playerLoop (fun i st player => timelinesPlayer service c now gIdx players.length i st player)
    0 players s

/-- The workers of one stream over the groups, from group index `i`, empty
groups skipped. The goroutines are run one after the other in group order:
one of the schedules the mutex admits, and the only one when a single group
is non-empty. -/
def runWorkers (worker : Nat → PlayerGroup → State → Run) :
    Nat → List PlayerGroup → State → Run
  | _, [], s => ⟨s, [], false⟩
  | i, g :: gs, s =>
    if g.Players.length = 0 then runWorkers worker (i + 1) gs s
    else (worker i g s).seq (runWorkers worker (i + 1) gs)

/-- The function `syncAccountsConcurrent`. -/
def syncAccountsConcurrent (groups : List PlayerGroup) (s : State) : Run :=
  (Run.mk s [.schema Accounts ["puuid"]] false).seq fun s0 =>
    (runWorkers (fun _ g st => ⟨st, accountsWorker g.Service g.Players, false⟩) 0 groups s0).seq
      fun s1 => ⟨s1, [.state s1.Value], false⟩

/-- The function `syncElosConcurrent`. -/
def syncElosConcurrent (groups : List PlayerGroup) (s : State) (c : Config) (now : Time) : Run :=
  (Run.mk s [.schema Elos ["puuid", "date"]] false).seq
    (runWorkers (fun _ g st => elosWorker g.Service c now g.Players st) 0 groups)

/-- The function `syncMatchesConcurrent`. -/
def syncMatchesConcurrent (groups : List PlayerGroup) (s : State) (c : Config) (now : Time) :
    Run :=
  (Run.mk s [.schema Matches ["matchId"]] false).seq
    (runWorkers (fun i g st => matchesWorker g.Service c now i g.Players st) 0 groups)

/-- The function `syncMatchTimelinesConcurrent`. -/
def syncMatchTimelinesConcurrent (groups : List PlayerGroup) (s : State) (c : Config)
    (now : Time) : Run :=
  (Run.mk s [.schema MatchTimelines ["matchId"]] false).seq
    (runWorkers (fun i g st => timelinesWorker g.Service c now i g.Players st) 0 groups)

/-! ## Observations on a trace -/

/-- The messages a worker writes to the output: `RECORD` and `STATE`. -/
def Event.isOutput : Event → Bool
  | .record _ _ => true
  | .state _ => true
  | _ => false

def Event.isState : Event → Bool
  | .state _ => true
  | _ => false

def Event.isRecord : Event → Bool
  | .record _ _ => true
  | _ => false

def Event.isCall : Event → Bool
  | .call _ => true
  | _ => false

def Event.isSleep : Event → Bool
  | .sleep _ => true
  | _ => false

/-- The output messages of a trace, in order. -/
def outputs (trace : List Event) : List Event := trace.filter Event.isOutput

/-- Every remote call of the trace is directly followed by one pacing sleep
of `sleepDuration`. -/
def paced : List Event → Bool
  | [] => true
  | .call _ :: .sleep d :: rest => decide (d = sleepDuration) && paced rest
  | .call _ :: _ => false
  | _ :: rest => paced rest

/-- The records the matches pipeline owes for a list of match ids, in the
words of the specification: one `RECORD` for each id whose detail fetch
succeeds, none for an id whose fetch fails, in the order of the ids. -/
def matchRecords (service : RiotService) (ids : List String) : List Event :=
  ids.filterMap fun id =>
    match service.client.MatchGet id with
    | .ok m => some (.record Matches (.matchWithID { Match := m, MatchID := m.Metadata.MatchID }))
    | .error _ => none

/-- The event is a request for a list of match ids. -/
def Event.isListStream : Event → Bool
  | .call (.ListStream _ _ _) => true
  | _ => false

/-- The players of `players` that the hash sends to lane `i` of `n`. -/
def shardOf (n i : Nat) (players : List String) : List String :=
  players.filter fun p => decide (hashPlayerToServiceIndex p (n : Int) = some (i : Int))

/-- Two runs leave the same state, agree on having panicked, and wrote the
same `RECORD` and `STATE` messages in the same order. -/
def Run.sameOutput (a b : Run) : Prop :=
  a.state = b.state ∧ a.panicked = b.panicked ∧ outputs a.trace = outputs b.trace

/-- The processing of an identity by the matches worker takes one of its two
skip branches: its start date does not parse, or `getMatchIdsByPlayer`
returns an error, which it does exactly when the account lookup fails (as for
a malformed identity). A failure of the listing itself is not among them:
`getMatchIdsByPlayer` never reads the `Error` of a stream value. -/
def matchesFailsEarly (service : RiotService) (c : Config) (s : State) (player : String) : Bool :=
  match startDateAsTime ((lookupWatermark s.Value Matches player).getD c.StartDate) with
  | none => true
  | some t =>
    match (getMatchIdsByPlayer service player t c.QueueId).1 with
    | .error _ => true
    | .ok _ => false

/-- The same for the timelines worker. -/
def timelinesFailsEarly (service : RiotService) (c : Config) (s : State) (player : String) :
    Bool :=
  match startDateAsTime ((lookupWatermark s.Value MatchTimelines player).getD c.StartDate) with
  | none => true
  | some t =>
    match (getMatchIdsByPlayer service player t c.QueueId).1 with
    | .error _ => true
    | .ok _ => false

/-- The processing of an identity by the ranking worker fails before the
ranking is obtained: its start date does not parse, or `getElo` returns an
error (as it does for a malformed identity). -/
def elosFailsEarly (service : RiotService) (c : Config) (now : Time) (s : State)
    (player : String) : Bool :=
  match startDateAsTime ((lookupWatermark s.Value Elos player).getD c.StartDate) with
  | none => true
  | some _ =>
    match (getElo service now player).1 with
    | .error _ => true
    | .ok _ => false

/-- The identity reaches the watermark advance of the matches worker, and the
advance does not panic. -/
def matchesCompletes (service : RiotService) (c : Config) (s : State) (player : String) : Bool :=
  !matchesFailsEarly service c s player && s.Value.isSome

/-- The identity reaches the watermark advance of the timelines worker, and
the advance does not panic. -/
def timelinesCompletes (service : RiotService) (c : Config) (s : State) (player : String) :
    Bool :=
  !timelinesFailsEarly service c s player && s.Value.isSome

/-- The identity reaches the watermark advance of the ranking worker (it is
not skipped as already synced today), and the advance does not panic. -/
def elosCompletes (service : RiotService) (c : Config) (now : Time) (s : State)
    (player : String) : Bool :=
  match startDateAsTime ((lookupWatermark s.Value Elos player).getD c.StartDate) with
  | none => false
  | some t =>
    !isToday now t &&
      (match (getElo service now player).1 with
        | .error _ => false
        | .ok _ => true) && s.Value.isSome

/-- The number of identities of a player loop that complete, each judged on
the state its iteration starts from; `obs` gives the state an iteration leaves
and whether it panicked (which ends the loop). -/
def completions (obs : State → String → State × Bool × List Event)
    (completes : State → String → Bool) : List String → State → Nat
  | [], _ => 0
  | player :: rest, s =>
    (if completes s player then 1 else 0) +
      (if (obs s player).2.1 then 0 else completions obs completes rest (obs s player).1)

/-- The records the timelines pipeline owes for a list of match ids: one
`RECORD` for each id whose timeline fetch succeeds, in the order of the ids. -/
def timelineRecords (service : RiotService) (ids : List String) : List Event :=
  ids.filterMap fun id =>
    match (getMatchTimeline service id).1 with
    | .ok tl => some (.record MatchTimelines (.timeline tl))
    | .error _ => none

/-- What one iteration of the matches worker leaves to observe: the state,
whether it panicked, and its output messages. -/
def matchesObs (service : RiotService) (c : Config) (now : Time) (s : State) (player : String) :
    State × Bool × List Event :=
  match startDateAsTime ((lookupWatermark s.Value Matches player).getD c.StartDate) with
  | none => (s, false, [])
  | some t =>
    match (getMatchIdsByPlayer service player t c.QueueId).1 with
    | .error _ => (s, false, [])
    | .ok ids =>
      match advanceWatermark s.Value Matches player (today now) with
      | none => (s, true, matchRecords service ids)
      | some v => (⟨v⟩, false, matchRecords service ids ++ [.state v])

/-- What one iteration of the timelines worker leaves to observe. -/
def timelinesObs (service : RiotService) (c : Config) (now : Time) (s : State)
    (player : String) : State × Bool × List Event :=
  match startDateAsTime ((lookupWatermark s.Value MatchTimelines player).getD c.StartDate) with
  | none => (s, false, [])
  | some t =>
    match (getMatchIdsByPlayer service player t c.QueueId).1 with
    | .error _ => (s, false, [])
    | .ok ids =>
      match advanceWatermark s.Value MatchTimelines player (today now) with
      | none => (s, true, timelineRecords service ids)
      | some v => (⟨v⟩, false, timelineRecords service ids ++ [.state v])

/-- The number of `STATE` messages of a trace. -/
def stateCount (trace : List Event) : Nat := (trace.filter Event.isState).length

/-- What one iteration of the ranking worker leaves to observe. -/
def elosObs (service : RiotService) (c : Config) (now : Time) (s : State) (player : String) :
    State × Bool × List Event :=
  match startDateAsTime ((lookupWatermark s.Value Elos player).getD c.StartDate) with
  | none => (s, false, [])
  | some t =>
    if isToday now t then (s, false, [])
    else
      match (getElo service now player).1 with
      | .error _ => (s, false, [])
      | .ok elo =>
        match advanceWatermark s.Value Elos player (today now) with
        | none => (s, true, [.record Elos (.elo elo)])
        | some v => (⟨v⟩, false, [.record Elos (.elo elo), .state v])

/-- The records the accounts pipeline owes for a list of players: one
`RECORD` for each player whose account lookup succeeds, in order. -/
def accountRecords (service : RiotService) (players : List String) : List Event :=
  players.filterMap fun p =>
    match (getAccount service p).1 with
    | .ok acc => some (.record Accounts (.account acc))
    | .error _ => none

/-- The shape of the iterations of a player loop: an identity that completes
ends its iteration, without a panic, on one `STATE` message (the only one of
the iteration) carrying the state it leaves, in which the watermark of the
identity for `stream` is today's date; an identity that does not complete
writes no `STATE`. -/
def StepShape (stream : String) (now : Time) (body : Nat → State → String → Run)
    (completes : State → String → Bool) : Prop :=
  ∀ i s p,
    (completes s p = true → ∃ seg v, body i s p = ⟨⟨v⟩, seg ++ [.state v], false⟩ ∧
      stateCount seg = 0 ∧ lookupWatermark v stream p = some (today now)) ∧
    (completes s p = false → stateCount (body i s p).trace = 0)

/-- The event is a remote call or a pacing sleep. -/
def Event.isLane (e : Event) : Bool := e.isCall || e.isSleep

/-! ## Sample remote sources -/

/-- A remote source that answers every request: three matches per player and
one solo-queue ranking. -/
def demoClient : Client where
  GetByRiotID name tag := .ok { Puuid := "puuid-" ++ name, GameName := name, TagLine := tag }
  ListStream _ _ _ := [⟨"KR_1", none⟩, ⟨"KR_2", none⟩, ⟨"KR_3", none⟩]
  MatchGet id := .ok { Metadata := { MatchID := id }, Info := "info" }
  ListByPuuid _ := .ok [{ QueueType := "RANKED_SOLO_5x5", Tier := "CHALLENGER", Rank := "I",
                          LeaguePoints := 1200 }]
  NewRequest _ := none
  Do _ _ := .ok { StatusCode := 200, Body := .ok "body" }
  decodeTimeline _ := .ok (["frame"], ["event"])

/-- A remote source that fails every request. -/
def downClient : Client where
  GetByRiotID _ _ := .error "503"
  ListStream _ _ _ := []
  MatchGet _ := .error "503"
  ListByPuuid _ := .error "503"
  NewRequest _ := none
  Do _ _ := .error "503"
  decodeTimeline _ := .error "503"

/-- A remote source like `demoClient` whose players have no solo-queue
ranking, and whose second match cannot be fetched. -/
def unrankedClient : Client where
  GetByRiotID name tag := .ok { Puuid := "puuid-" ++ name, GameName := name, TagLine := tag }
  ListStream _ _ _ := [⟨"KR_1", none⟩, ⟨"KR_2", none⟩, ⟨"KR_3", none⟩]
  MatchGet id := if id = "KR_2" then .error "404" else .ok { Metadata := { MatchID := id }, Info := "info" }
  ListByPuuid _ := .ok [{ QueueType := "RANKED_FLEX_SR", Tier := "GOLD", Rank := "II",
                          LeaguePoints := 40 }]
  NewRequest _ := none
  Do _ _ := .ok { StatusCode := 200, Body := .ok "body" }
  decodeTimeline _ := .ok (["frame"], ["event"])

/-- A remote source whose id listing fails for the player `Faker`: the
channel of `ListStream` delivers one value, which carries the error and no
match id. The listing of every other player delivers one match id. -/
def listFailClient : Client where
  GetByRiotID name tag := .ok { Puuid := "puuid-" ++ name, GameName := name, TagLine := tag }
  ListStream puuid _ _ :=
    if puuid = "puuid-Faker" then [⟨"", some "429 Too Many Requests"⟩] else [⟨"KR_1", none⟩]
  MatchGet id := if id = "" then .error "404" else .ok { Metadata := { MatchID := id }, Info := "info" }
  ListByPuuid _ := .ok [{ QueueType := "RANKED_SOLO_5x5", Tier := "CHALLENGER", Rank := "I",
                          LeaguePoints := 1200 }]
  NewRequest _ := none
  Do _ _ := .ok { StatusCode := 200, Body := .ok "body" }
  decodeTimeline _ := .ok (["frame"], ["event"])

def listFailService : RiotService := { client := listFailClient, apiKey := "RGAPI-4" }

def demoService : RiotService := { client := demoClient, apiKey := "RGAPI-1" }

def downService : RiotService := { client := downClient, apiKey := "RGAPI-2" }

def unrankedService : RiotService := { client := unrankedClient, apiKey := "RGAPI-3" }

/-- A configuration with one credential and the start date of the scenario. -/
def demoConfig : Config :=
  { APIKeys := ["RGAPI-1"], Server := "kr", Players := ["Faker#KR1"], StartDate := "2024-01-01",
    QueueId := 420 }

/-- A clock reading on 2024-03-05. -/
def demoNow : Time := { year := 2024, month := 3, day := 5, nsec := 43200000000000 }

/-! ## The catalog and the orchestrator (`singer.go`, `schemas.go`, `tap.go`) -/

/-- A value of a metadata map (`interface{}`): a boolean, a string, a list
of strings, or anything else. -/
inductive MetaValue where
  | bool (b : Bool)
  | str (s : String)
  | strs (l : List String)
  | other (doc : String)
  deriving DecidableEq, Repr

/-- The type `singer.StreamMetadata`. -/
structure StreamMetadata where
  Breadcrumb : List String
  Metadata : GoMap MetaValue
  deriving DecidableEq, Repr

/-- The type `singer.Stream`; the reflected schema is kept as a document. -/
structure Stream where
  TapStreamID : String
  Stream : String
  Schema : String
  Metadata : List StreamMetadata
  deriving DecidableEq, Repr

/-- The type `singer.Catalog`. -/
structure Catalog where
  Streams : List Stream
  deriving DecidableEq, Repr

/-- The test of the inner loop of `GetSelectedStreams` on one metadata entry:
the breadcrumb is empty and `Metadata["selected"]` is the boolean `true`. -/
def selectsRoot (md : StreamMetadata) : Bool :=
  decide (md.Breadcrumb.length = 0) &&
    (match md.Metadata.get "selected" with
      | some (.bool sel) => sel
      | _ => false)

/-- The function `singer.GetSelectedStreams`. -/
def GetSelectedStreams (catalog : Catalog) : List String :=
  let selected := catalog.Streams.flatMap fun stream =>
    (stream.Metadata.filter selectsRoot).map fun _ => stream.Stream
  if selected.length = 0 then catalog.Streams.map fun stream => stream.Stream
  else selected

/-- The metadata list shared by the four `create...Stream` functions. -/
def rootMetadata (keyProperties : List String) : List StreamMetadata :=
  [{ Breadcrumb := [],
     Metadata := some [("inclusion", .str "available"), ("key-properties", .strs keyProperties)] }]

def createMatchesStream : Stream :=
  { TapStreamID := Matches, Stream := Matches, Schema := "MatchWithID",
    Metadata := rootMetadata ["matchId"] }

def createMatchTimelineStream : Stream :=
  { TapStreamID := MatchTimelines, Stream := MatchTimelines, Schema := "MatchTimeline",
    Metadata := rootMetadata ["matchId"] }

def createEloStream : Stream :=
  { TapStreamID := Elos, Stream := Elos, Schema := "Elo", Metadata := rootMetadata ["puuid", "date"] }

def createAccountsStream : Stream :=
  { TapStreamID := Accounts, Stream := Accounts, Schema := "Account",
    Metadata := rootMetadata ["puuid"] }

/-- The function `CreateCatalog`. -/
def CreateCatalog : Catalog :=
  { Streams := [createMatchesStream, createMatchTimelineStream, createEloStream,
      createAccountsStream] }

/-- The function `createRiotServicePool`: one service per API key, its client
made by `golio.NewClient` (the parameter `newClient`) for the key and the
configured server. -/
def createRiotServicePool (newClient : String → String → Client) (c : Config) :
    List RiotService :=
  c.APIKeys.map fun apiKey => { client := newClient apiKey c.Server, apiKey := apiKey }

/-- One case of the `switch` of `RunSync`: the log line and the sync function
of a stream; `none` is the `default` case. -/
def syncStream (groups : List PlayerGroup) (c : Config) (now : Time) (stream : String)
    (s : State) : Option Run :=
  if stream = Matches then
    some ((Run.mk s [.log "Starting sync of matches"] false).seq fun st =>
      syncMatchesConcurrent groups st c now)
  else if stream = MatchTimelines then
    some ((Run.mk s [.log "Starting sync of match timelines"] false).seq fun st =>
      syncMatchTimelinesConcurrent groups st c now)
  else if stream = Elos then
    some ((Run.mk s [.log "Starting sync of elos"] false).seq fun st =>
      syncElosConcurrent groups st c now)
  else if stream = Accounts then
    some ((Run.mk s [.log "Starting sync of accounts"] false).seq fun st =>
      syncAccountsConcurrent groups st)
  else none

/-- The loop of `RunSync` over the selected streams: what the run did and the
error returned (`none` is `nil`). A panic ends the run. -/
def runSelected (groups : List PlayerGroup) (c : Config) (now : Time) :
    List String → State → Run × Option String
  | [], s => (⟨s, [], false⟩, none)
  | stream :: rest, s =>
    match syncStream groups c now stream s with
    | none => (⟨s, [], false⟩, some ("Unknown stream: " ++ stream))
    | some r =>
      if r.panicked then (r, none)
      else
        let next := runSelected groups c now rest r.state
        (⟨next.1.state, r.trace ++ next.1.trace, next.1.panicked⟩, next.2)

/-- The function `RunSync`; `cat = none` is the nil catalog. A panic of the
sharding ends the run before anything is done. -/
def RunSync (newClient : String → String → Client) (now : Time) (c : Config)
    (cat : Option Catalog) (s : State) : Run × Option String :=
  match distributePlayersToServices (createRiotServicePool newClient c) c.Players with
  | none => (⟨s, [], true⟩, none)
  | some playerGroups =>
    let selectedStreams :=
      match cat with
      | none => [Matches, MatchTimelines, Elos, Accounts]
      | some cat => GetSelectedStreams cat
    runSelected playerGroups c now selectedStreams s

/-- The number of root metadata entries of a stream that select it. -/
def rootSelections (stream : Stream) : Nat := stream.Metadata.countP selectsRoot

/-- A catalog whose only stream carries two root metadata entries, both with
`selected = true`. -/
def twiceSelectedCatalog : Catalog :=
  { Streams := [{ TapStreamID := "matches", Stream := "matches", Schema := "MatchWithID",
                  Metadata := [{ Breadcrumb := [], Metadata := some [("selected", .bool true)] },
                               { Breadcrumb := [], Metadata := some [("selected", .bool true)] }] }] }

/-- A catalog that selects the streams elos and accounts and not matches. -/
def elosAccountsCatalog : Catalog :=
  { Streams := [{ TapStreamID := "matches", Stream := "matches", Schema := "MatchWithID",
                  Metadata := [{ Breadcrumb := [], Metadata := some [("selected", .bool false)] }] },
                { TapStreamID := "elos", Stream := "elos", Schema := "Elo",
                  Metadata := [{ Breadcrumb := ["properties", "date"],
                                 Metadata := some [("selected", .bool true)] },
                               { Breadcrumb := [], Metadata := some [("selected", .bool true)] }] },
                { TapStreamID := "accounts", Stream := "accounts", Schema := "Account",
                  Metadata := [{ Breadcrumb := [], Metadata := some [("selected", .bool true)] }] }] }

/-- The stream names of the `SCHEMA` messages of a trace, in order. -/
def schemaStreams (trace : List Event) : List String :=
  trace.filterMap fun e =>
    match e with
    | .schema stream _ => some stream
    | _ => none

/-! ## JSON documents (`encoding/json`), `State.Write`, `LoadState`, `LoadConfig` -/

/-- A JSON document. `num` is an integer literal, `frac` any other number
literal. The serialisation of a document to text and the parsing of that text
are the library's and are inverse to each other; the embedding works on
documents. -/
inductive Json where
  | null
  | bool (b : Bool)
  | num (n : Int)
  | frac (text : String)
  | str (s : String)
  | arr (items : List Json)
  | obj (fields : List (String × Json))

/-- Lexicographic order on lists of code points. -/
def codesLe : List Nat → List Nat → Bool
  | [], _ => true
  | _ :: _, [] => false
  | a :: as, b :: bs => if a < b then true else if b < a then false else codesLe as bs

/-- The order in which `encoding/json` writes the keys of a map: the order of
the strings (byte-wise, which on UTF-8 is the order of the code points). -/
def keyLe (a b : String) : Bool :=
  codesLe (a.data.map Char.toNat) (b.data.map Char.toNat)

/-- The entries of a Go map as the entries list represents it: for a key
listed more than once, the first listing is the one a read finds. -/
def dedupKeys {V : Type} : List (String × V) → List (String × V)
  | [] => []
  | (k, v) :: l => (k, v) :: (dedupKeys l).filter fun e => decide (e.1 ≠ k)

/-- The entries of a map in the order `encoding/json` writes them. -/
def sortedEntries {V : Type} (l : List (String × V)) : List (String × V) :=
  (dedupKeys l).insertionSort fun a b => keyLe a.1 b.1 = true

/-- The document of a `map[string]string`: `null` for the nil map. -/
def marshalInner : GoMap String → Json
  | none => .null
  | some m => .obj ((sortedEntries m).map fun e => (e.1, .str e.2))

/-- The document of a `map[string]map[string]string`. -/
def marshalValue : StateValue → Json
  | none => .null
  | some l => .obj ((sortedEntries l).map fun e => (e.1, marshalInner e.2))

/-- The method `State.Write`: the document of the message, the map with the
keys `type` and `value`. -/
def State.Write (s : State) : Json :=
  .obj [("type", .str "STATE"), ("value", marshalValue s.Value)]

/-- The folding of one code point in the match of an object key against a
struct field name. The field names of the tap are ASCII, and the only
non-ASCII code points that fold to an ASCII letter are U+017F and U+212A. -/
def foldChar (c : Char) : Nat :=
  let v := c.toNat
  if 97 ≤ v ∧ v ≤ 122 then v - 32
  else if v = 0x17F then 83
  else if v = 0x212A then 75
  else v

/-- An object key matches a struct field name, case-insensitively. -/
def keyMatches (key field : String) : Bool :=
  decide (key.data.map foldChar = field.data.map foldChar)

/-- Decoding into a `string`: `null` leaves the value as it is. -/
def decodeString (j : Json) (cur : String) : Except String String :=
  match j with
  | .str s => .ok s
  | .null => .ok cur
  | _ => .error "json: cannot unmarshal into Go value of type string"

/-- Decoding the entries of an object into map entries, each element decoded
from its zero value; the first error is the error. -/
def decodeEntries {V : Type} (decodeElem : Json → Except String V) :
    List (String × Json) → Except String (List (String × V))
  | [] => .ok []
  | (k, j) :: rest =>
    match decodeElem j with
    | .error e => .error e
    | .ok v =>
      match decodeEntries decodeElem rest with
      | .error e => .error e
      | .ok es => .ok ((k, v) :: es)

/-- Writing decoded entries into a map, in order. -/
def setAll {V : Type} (entries : List (String × V)) (acc : List (String × V)) :
    List (String × V) :=
  entries.foldl (fun m e => entriesSet m e.1 e.2) acc

/-- Decoding into a `map[string]string`: `null` sets the nil map, an object
writes its entries into the map (made if nil). -/
def decodeStringMap (j : Json) (cur : GoMap String) : Except String (GoMap String) :=
  match j with
  | .null => .ok none
  | .obj fields =>
    match decodeEntries (fun jv => decodeString jv "") fields with
    | .error e => .error e
    | .ok entries => .ok (some (setAll entries (cur.getD [])))
  | _ => .error "json: cannot unmarshal into Go value of type map[string]string"

/-- Decoding into a `map[string]map[string]string`. -/
def decodeValue (j : Json) (cur : StateValue) : Except String StateValue :=
  match j with
  | .null => .ok none
  | .obj fields =>
    match decodeEntries (fun jv => decodeStringMap jv none) fields with
    | .error e => .error e
    | .ok entries => .ok (some (setAll entries (cur.getD [])))
  | _ => .error "json: cannot unmarshal into Go value of type map[string]map[string]string"

/-- Decoding the fields of an object into a `State`: the keys that match
`value` are decoded into `Value`, the others are skipped. -/
def stateFields : List (String × Json) → StateValue → Except String StateValue
  | [], cur => .ok cur
  | (k, jv) :: rest, cur =>
    if keyMatches k "value" then
      match decodeValue jv cur with
      | .error e => .error e
      | .ok v => stateFields rest v
    else stateFields rest cur

/-- The call `Decode(&state)` on a document, from the zero `State`; an error
is `err != nil`. -/
def decodeState (j : Json) : Except String State :=
  match j with
  | .null => .ok ⟨none⟩
  | .obj fields =>
    match stateFields fields none with
    | .error e => .error e
    | .ok v => .ok ⟨v⟩
  | _ => .error "json: cannot unmarshal into Go value of type singer.State"

/-- What a path holds: nothing that can be opened, text that is not JSON, or
a JSON document. -/
inductive FileContent where
  | missing
  | malformed
  | document (j : Json)

/-- The function `singer.LoadState`. -/
def LoadState (file : FileContent) : Except String State :=
  match file with
  | .missing => .error "open: no such file or directory"
  | .malformed => .error "invalid character"
  | .document j => decodeState j

/-- Decoding into a `[]string`. -/
def decodeStringList (j : Json) : Except String (List String) :=
  match j with
  | .null => .ok []
  | .arr items =>
    match decodeEntries (fun jv => decodeString jv "") (items.map fun i => ("", i)) with
    | .error e => .error e
    | .ok entries => .ok (entries.map fun e => e.2)
  | _ => .error "json: cannot unmarshal into Go value of type []string"

/-- Decoding into an `int` (64 bits): `null` leaves the value as it is. -/
def decodeInt (j : Json) (cur : Int) : Except String Int :=
  match j with
  | .num n =>
    if -(2 ^ 63) ≤ n ∧ n < 2 ^ 63 then .ok n
    else .error "json: cannot unmarshal number into Go value of type int"
  | .null => .ok cur
  | _ => .error "json: cannot unmarshal into Go value of type int"

/-- Decoding the fields of an object into a `Config`, by the `json` tags of
the struct; keys that match no field are skipped. -/
def configFields : List (String × Json) → Config → Except String Config
  | [], cur => .ok cur
  | (k, jv) :: rest, cur =>
    if keyMatches k "api_keys" then
      match decodeStringList jv with
      | .error e => .error e
      | .ok v => configFields rest { cur with APIKeys := v }
    else if keyMatches k "server" then
      match decodeString jv cur.Server with
      | .error e => .error e
      | .ok v => configFields rest { cur with Server := v }
    else if keyMatches k "players" then
      match decodeStringList jv with
      | .error e => .error e
      | .ok v => configFields rest { cur with Players := v }
    else if keyMatches k "start_date" then
      match decodeString jv cur.StartDate with
      | .error e => .error e
      | .ok v => configFields rest { cur with StartDate := v }
    else if keyMatches k "queue_id" then
      match decodeInt jv cur.QueueId with
      | .error e => .error e
      | .ok v => configFields rest { cur with QueueId := v }
    else configFields rest cur

/-- The zero value of `Config`. -/
def zeroConfig : Config :=
  { APIKeys := [], Server := "", Players := [], StartDate := "", QueueId := 0 }

/-- The function `LoadConfig`; an error is `err != nil`. -/
def LoadConfig (file : FileContent) : Except String Config :=
  match file with
  | .missing => .error "failed to open config file: open: no such file or directory"
  | .malformed => .error "failed to decode config: invalid character"
  | .document .null => .ok zeroConfig
  | .document (.obj fields) =>
    match configFields fields zeroConfig with
    | .error e => .error ("failed to decode config: " ++ e)
    | .ok c => .ok c
  | .document _ =>
    .error "failed to decode config: json: cannot unmarshal into Go value of type tap.Config"

/-- Two `map[string]string` values are the same map: both nil or both not,
with the same entry under every key. -/
def sameInner (a b : GoMap String) : Prop :=
  (a = none ↔ b = none) ∧ ∀ k, a.get k = b.get k

/-- Two `State.Value` maps are the same map: both nil or both not, the same
keys, and under each key the same map. -/
def sameValue (a b : StateValue) : Prop :=
  (a = none ↔ b = none) ∧
    ∀ k, match a.get k, b.get k with
      | none, none => True
      | some x, some y => sameInner x y
      | _, _ => False

/-- The map read back from the document of a `map[string]string`. -/
def roundInner (m : GoMap String) : GoMap String :=
  match m with
  | none => none
  | some es => some (setAll (sortedEntries es) [])

/-- The map read back from the document of a `State.Value`. -/
def roundValue (v : StateValue) : StateValue :=
  match v with
  | none => none
  | some l => some (setAll ((sortedEntries l).map fun e => (e.1, roundInner e.2)) [])

/-- A configuration document with credentials and players and no start date. -/
def noStartDateDocument : Json :=
  .obj [("api_keys", .arr [.str "RGAPI-1"]), ("server", .str "kr"),
        ("players", .arr [.str "Faker#KR1"])]

/-- The configuration that `noStartDateDocument` decodes to. -/
def noStartDateConfig : Config :=
  { APIKeys := ["RGAPI-1"], Server := "kr", Players := ["Faker#KR1"], StartDate := "",
    QueueId := 0 }

/-! ## Facts about the hash -/

theorem leBytes_four (x : Nat) :
    leBytes 4 x = [x % 256, x / 256 % 256, x / 256 / 256 % 256, x / 256 / 256 / 256 % 256] := by
  simp [leBytes]

theorem digitVal_hexDigit (k : Nat) (hk : k < 16) : digitVal (hexDigit k) = some k := by
  interval_cases k <;> decide

theorem hexDigit_ne_sign (k : Nat) (hk : k < 16) : hexDigit k ≠ '+' ∧ hexDigit k ≠ '-' := by
  interval_cases k <;> decide

theorem parseUintLoop_hex (ks : List Nat) :
    ∀ n : Nat, (∀ k ∈ ks, k < 16) → (n + 1) * 16 ^ ks.length ≤ 2 ^ 64 →
      ∃ v, parseUintLoop (ks.map hexDigit) n = some v ∧ v < (n + 1) * 16 ^ ks.length := by
  induction ks with
  | nil => intro n _ _; exact ⟨n, rfl, by simp⟩
  | cons k ks ih =>
    intro n hk hn
    have hk16 : k < 16 := hk k (by simp)
    have hpos : 0 < 16 ^ ks.length := by positivity
    have hn1 : (n + 1) * 16 * 16 ^ ks.length ≤ 2 ^ 64 := by
      simpa [pow_succ, Nat.mul_assoc, Nat.mul_comm, Nat.mul_left_comm] using hn
    have hn2 : (n + 1) * 16 ≤ 2 ^ 64 := by
      calc (n + 1) * 16 = (n + 1) * 16 * 1 := by ring
        _ ≤ (n + 1) * 16 * 16 ^ ks.length := Nat.mul_le_mul_left _ hpos
        _ ≤ 2 ^ 64 := hn1
    have hstep : (n * 16 + k + 1) * 16 ^ ks.length ≤ (n + 1) * 16 * 16 ^ ks.length :=
      Nat.mul_le_mul_right _ (by omega)
    obtain ⟨v, hv, hlt⟩ := ih (n * 16 + k) (fun j hj => hk j (by simp [hj])) (le_trans hstep hn1)
    refine ⟨v, ?_, ?_⟩
    · simp only [List.map_cons, parseUintLoop, digitVal_hexDigit k hk16]
      have h1 : ¬ 16 ≤ k := by omega
      have h2 : ¬ (2 ^ 64 - 1) / 16 + 1 ≤ n := by norm_num; omega
      have h3 : ¬ 2 ^ 64 - 1 < n * 16 + k := by norm_num; omega
      simp only [h1, h2, h3, if_false]
      exact hv
    · calc v < (n * 16 + k + 1) * 16 ^ ks.length := hlt
        _ ≤ (n + 1) * 16 * 16 ^ ks.length := hstep
        _ = (n + 1) * 16 ^ (ks.length + 1) := by rw [pow_succ]; ring

theorem parseInt16_hex (ks : List Nat) (hk : ∀ k ∈ ks, k < 16) (hlen : ks.length = 8) :
    ∃ v : Nat, parseInt16 (String.mk (ks.map hexDigit)) = some (v : Int) := by
  obtain ⟨v, hv, hlt⟩ := parseUintLoop_hex ks 0 hk (by rw [hlen]; norm_num)
  rw [hlen] at hlt
  match ks, hk, hlen, hv with
  | k :: ks, hk, _, hv =>
    have h16 : k < 16 := hk k (by simp)
    refine ⟨v, ?_⟩
    have hu : parseUint16 (hexDigit k :: ks.map hexDigit) = some v := by
      simpa [parseUint16] using hv
    have hv63 : v < 9223372036854775808 := lt_of_lt_of_le hlt (by norm_num)
    simp only [parseInt16, List.map_cons, (hexDigit_ne_sign k h16).1,
      (hexDigit_ne_sign k h16).2, or_self, if_false, hu]
    simp [hv63]

/-- The first eight characters of the hex form of a digest are hex digits. -/
theorem hash_prefix (msg : List Nat) :
    ∃ ks : List Nat, (∀ k ∈ ks, k < 16) ∧ ks.length = 8 ∧
      (hexEncodeToString (md5Sum msg)).data.take 8 = ks.map hexDigit ∧
      8 ≤ (hexEncodeToString (md5Sum msg)).data.length := by
  generalize hs : md5Blocks ((md5Pad msg).length / 64) md5Init (md5Pad msg) = s
  have hsum : md5Sum msg = leBytes 4 s.a ++ leBytes 4 s.b ++ leBytes 4 s.c ++ leBytes 4 s.d := by
    simp [md5Sum, hs]
  refine ⟨[s.a % 256 / 16 % 16, s.a % 256 % 16, s.a / 256 % 256 / 16 % 16, s.a / 256 % 256 % 16,
    s.a / 256 / 256 % 256 / 16 % 16, s.a / 256 / 256 % 256 % 16,
    s.a / 256 / 256 / 256 % 256 / 16 % 16, s.a / 256 / 256 / 256 % 256 % 16], ?_, rfl, ?_, ?_⟩
  · intro k hk
    simp only [List.mem_cons, List.mem_singleton, List.not_mem_nil, or_false] at hk
    rcases hk with h | h | h | h | h | h | h | h <;> subst h <;> omega
  · rw [hsum, leBytes_four]
    simp [hexEncodeToString]
  · rw [hsum, leBytes_four]
    simp [hexEncodeToString]

/-- The hash index is the remainder of a non-negative number. -/
theorem hashPlayerToServiceIndex_eq (player : String) (n : Int) (hn : n ≠ 0) :
    ∃ v : Nat, hashPlayerToServiceIndex player n = some (Int.tmod (v : Int) n) := by
  obtain ⟨ks, hk, hlen, htake, hge⟩ := hash_prefix (stringBytes player)
  obtain ⟨v, hv⟩ := parseInt16_hex ks hk hlen
  refine ⟨v, ?_⟩
  have hlt : ¬ (hexEncodeToString (md5Sum (stringBytes player))).data.length < 8 := by omega
  simp only [hashPlayerToServiceIndex, hlt, if_false, htake, hv, hn]

theorem hashPlayerToServiceIndex_bound (player : String) (n : Int) (hn : 1 ≤ n) :
    ∃ i : Int, hashPlayerToServiceIndex player n = some i ∧ 0 ≤ i ∧ i < n := by
  obtain ⟨v, hv⟩ := hashPlayerToServiceIndex_eq player n (by omega)
  exact ⟨_, hv, Int.tmod_nonneg _ (Int.ofNat_nonneg v), Int.tmod_lt_of_pos _ (by omega)⟩

/-! ## Facts about the sharder -/

theorem distributeLoop_spec (n : Nat) (hn : 1 ≤ n) (players : List String) :
    ∀ groups : List PlayerGroup, groups.length = n →
      ∃ gs, distributeLoop n players groups = some gs ∧ gs.length = n ∧
        ∀ (i : Nat) (g0 : PlayerGroup), groups[i]? = some g0 →
          gs[i]? = some (PlayerGroup.mk (g0.Players ++ shardOf n i players) g0.Service) := by
  induction players with
  | nil =>
    intro groups hlen
    exact ⟨groups, rfl, hlen, fun i g0 h => by simp [shardOf, h]⟩
  | cons p ps ih =>
    intro groups hlen
    obtain ⟨k, hk, hk0, hkn⟩ := hashPlayerToServiceIndex_bound p (n : Int) (by omega)
    have hlt : k.toNat < groups.length := by omega
    have hget : groups[k.toNat]? = some groups[k.toNat] := List.getElem?_eq_getElem hlt
    obtain ⟨gs, hgs, hgl, hspec⟩ := ih
      (groups.set k.toNat
        { groups[k.toNat] with Players := groups[k.toNat].Players ++ [p] })
      (by simp [hlen])
    refine ⟨gs, ?_, hgl, ?_⟩
    · simp only [distributeLoop, hk, hget]
      have : ¬ k < 0 := by omega
      simp only [this, if_false]
      exact hgs
    · intro i g0 hi
      by_cases hik : k.toNat = i
      · subst hik
        have hg0 : g0 = groups[k.toNat] := by
          rw [hget] at hi; exact (Option.some.inj hi).symm
        have h1 := hspec k.toNat _ (by rw [List.getElem?_set_self hlt])
        have hkk : ((k.toNat : Nat) : Int) = k := Int.toNat_of_nonneg hk0
        rw [h1, hg0]
        simp [shardOf, List.filter_cons, hk, hkk]
      · have h1 := hspec i g0 (by rw [List.getElem?_set_ne hik]; exact hi)
        have hne : ¬ k = (i : Int) := by omega
        rw [h1]
        simp [shardOf, List.filter_cons, hk, hne]

/-- **C1.** For every identity string and every lane count `n ≥ 1` the hash
returns (no panic) an index `i` with `0 ≤ i < n`, and so the group lookup in
`distributePlayersToServices` is never out of range: with `n` services, the
distribution of any list of players returns its groups. -/
theorem hashPlayerToServiceIndex_in_range (identity : String) (n : Int) (hn : 1 ≤ n) :
    (∃ i : Int, hashPlayerToServiceIndex identity n = some i ∧ 0 ≤ i ∧ i < n) ∧
    (∀ (services : List RiotService) (players : List String), (services.length : Int) = n →
      (distributePlayersToServices services players).isSome = true) := by
  refine ⟨hashPlayerToServiceIndex_bound identity n hn, ?_⟩
  intro services players hlen
  obtain ⟨gs, hgs, _, _⟩ := distributeLoop_spec services.length (by omega) players
    (services.map fun s => { Players := [], Service := s }) (by simp)
  simp [distributePlayersToServices, hgs]

set_option maxRecDepth 100000 in
theorem hashPlayerToServiceIndex_in_range_witness :
    hashPlayerToServiceIndex "Faker#KR1" 3 = some 0 ∧
    ((∃ i : Int, hashPlayerToServiceIndex "Faker#KR1" 3 = some i ∧ 0 ≤ i ∧ i < 3) ∧
    (∀ (services : List RiotService) (players : List String), (services.length : Int) = 3 →
      (distributePlayersToServices services players).isSome = true)) :=
  ⟨by decide, hashPlayerToServiceIndex_in_range "Faker#KR1" 3 (by decide)⟩

/-- **C2.** With `n ≥ 1` services, `distributePlayersToServices` returns
exactly `n` groups; group `i` is bound to service `i` and holds exactly the
input players whose hash index is `i`, in input order; every input player is
in one group and in no other, as often as in the input. (The result is a
function of the services and players alone.) -/
theorem distributePlayersToServices_partition (services : List RiotService)
    (players : List String) (hn : 1 ≤ services.length) :
    ∃ groups, distributePlayersToServices services players = some groups ∧
      groups.length = services.length ∧
      (∀ (i : Nat) (s : RiotService), services[i]? = some s →
        groups[i]? = some (PlayerGroup.mk (shardOf services.length i players) s)) ∧
      (∀ p, p ∈ players → ∃ (i : Nat) (g : PlayerGroup), groups[i]? = some g ∧ p ∈ g.Players ∧
        g.Players.count p = players.count p ∧
        ∀ (j : Nat) (g' : PlayerGroup), groups[j]? = some g' → p ∈ g'.Players → j = i) := by
  obtain ⟨gs, hgs, hgl, hspec⟩ := distributeLoop_spec services.length hn players
    (services.map fun s => { Players := [], Service := s }) (by simp)
  have hgrp : ∀ (i : Nat) (s : RiotService), services[i]? = some s →
      gs[i]? = some (PlayerGroup.mk (shardOf services.length i players) s) := by
    intro i s hi
    have := hspec i (PlayerGroup.mk [] s) (by simp [hi])
    simpa using this
  refine ⟨gs, hgs, hgl, hgrp, ?_⟩
  intro p hp
  obtain ⟨k, hk, hk0, hkn⟩ :=
    hashPlayerToServiceIndex_bound p (services.length : Int) (by omega)
  have hlt : k.toNat < services.length := by omega
  have hkk : ((k.toNat : Nat) : Int) = k := Int.toNat_of_nonneg hk0
  refine ⟨k.toNat, _, hgrp k.toNat _ (List.getElem?_eq_getElem hlt), ?_, ?_, ?_⟩
  · simp [shardOf, List.mem_filter, hp, hk, hkk]
  · simp only [shardOf]
    rw [List.count_filter]
    simp [hk, hkk]
  · intro j g' hj hmem
    have hjlt : j < services.length := by
      have : j < gs.length := by
        by_contra hcon
        rw [List.getElem?_eq_none (by omega)] at hj
        exact Option.noConfusion hj
      omega
    have h2 := hgrp j _ (List.getElem?_eq_getElem hjlt)
    rw [hj] at h2
    have hg' := Option.some.inj h2
    rw [hg'] at hmem
    simp only [shardOf, List.mem_filter, decide_eq_true_eq] at hmem
    have := hmem.2
    rw [hk] at this
    have := Option.some.inj this
    omega

set_option maxRecDepth 100000 in
theorem distributePlayersToServices_partition_witness :
    (distributePlayersToServices [demoService, downService]
        ["Faker#KR1", "NoHashtag", "Caps#EUW"]).map (fun gs => gs.map fun g => g.Players)
      = some [["Faker#KR1", "Caps#EUW"], ["NoHashtag"]] ∧
    ∃ groups, distributePlayersToServices [demoService, downService]
        ["Faker#KR1", "NoHashtag", "Caps#EUW"] = some groups ∧
      groups.length = [demoService, downService].length ∧
      (∀ (i : Nat) (s : RiotService), [demoService, downService][i]? = some s →
        groups[i]? = some (PlayerGroup.mk
          (shardOf [demoService, downService].length i ["Faker#KR1", "NoHashtag", "Caps#EUW"]) s)) ∧
      (∀ p, p ∈ ["Faker#KR1", "NoHashtag", "Caps#EUW"] →
        ∃ (i : Nat) (g : PlayerGroup), groups[i]? = some g ∧ p ∈ g.Players ∧
        g.Players.count p = ["Faker#KR1", "NoHashtag", "Caps#EUW"].count p ∧
        ∀ (j : Nat) (g' : PlayerGroup), groups[j]? = some g' → p ∈ g'.Players → j = i) :=
  ⟨by decide, distributePlayersToServices_partition [demoService, downService]
    ["Faker#KR1", "NoHashtag", "Caps#EUW"] (by decide)⟩

/-! ## Facts about the credential lane -/

theorem splitOn_length (sep : Char) (l : List Char) :
    (splitOn sep l).length = l.count sep + 1 := by
  induction l with
  | nil => simp [splitOn]
  | cons c cs ih =>
    by_cases h : c = sep
    · subst h
      simp [splitOn, ih]
    · have hc : (c == sep) = false := by simpa using h
      simp only [splitOn, h, if_false, List.count_cons, hc]
      cases hsp : splitOn sep cs with
      | nil => rw [hsp] at ih; simp at ih
      | cons part parts => rw [hsp] at ih; simpa using ih

theorem splitHash_length (player : String) :
    (splitHash player).length = player.data.count '#' + 1 := by
  simp [splitHash, splitOn_length]

theorem failed_ne_invalid (e p : String) :
    "Failed to get account: " ++ e ≠ "Invalid player id: " ++ p := by
  intro h
  have h1 := congrArg String.data h
  simp [String.data_append] at h1

/-- A failed account lookup is not followed by a pacing sleep: the trace is the
call alone. -/
theorem getAccount_failed_call (r : RiotService) (player e : String)
    (hlen : (splitHash player).length = 2)
    (hfail : r.client.GetByRiotID ((splitHash player).getD 0 "") ((splitHash player).getD 1 "")
      = .error e) :
    getAccount r player = (.error ("Failed to get account: " ++ e),
      [.call (.GetByRiotID ((splitHash player).getD 0 "") ((splitHash player).getD 1 ""))]) := by
  simp only [getAccount, hlen, ne_eq, not_true_eq_false, if_false, hfail]

/-- A failed match fetch is not followed by a pacing sleep. -/
theorem getMatchDetails_failed_call (r : RiotService) (matchId e : String)
    (hfail : r.client.MatchGet matchId = .error e) :
    getMatchDetails r matchId = (.error e, [.call (.MatchGet matchId)]) := by
  simp only [getMatchDetails, hfail]

/-- **C3.** `getAccount` returns the invalid-identity error exactly when
splitting the player on `#` does not give two parts, that is when the string
does not contain exactly one `#`; in that case it has made no remote call and
no pacing sleep (it has done nothing at all). -/
theorem getAccount_invalid_identity (r : RiotService) (player : String) :
    ((getAccount r player).1 = .error ("Invalid player id: " ++ player)
        ↔ (splitHash player).length ≠ 2) ∧
    ((splitHash player).length ≠ 2 ↔ player.data.count '#' ≠ 1) ∧
    ((splitHash player).length ≠ 2 → (getAccount r player).2 = []) := by
  refine ⟨?_, ?_, ?_⟩
  · constructor
    · intro h hlen
      simp only [getAccount, hlen, ne_eq, not_true_eq_false, if_false] at h
      split at h
      · injection h with h'
        exact failed_ne_invalid _ _ h'
      · exact Except.noConfusion h
    · intro hlen
      simp [getAccount, hlen]
  · rw [splitHash_length]; omega
  · intro hlen
    simp [getAccount, hlen]

/-- **C4.** Evaluation at a failing remote call: `getAccount` and
`getMatchDetails` return straight after a remote call that failed, without
the pacing sleep, whereas `getMatchTimeline` (like `getElo` for its ranking
call) sleeps after its remote call also when the call failed. -/
theorem failed_call_not_paced :
    (getAccount downService "Faker#KR1").2 = [.call (.GetByRiotID "Faker" "KR1")] ∧
    paced (getAccount downService "Faker#KR1").2 = false ∧
    (getMatchDetails downService "KR_1").2 = [.call (.MatchGet "KR_1")] ∧
    paced (getMatchDetails downService "KR_1").2 = false ∧
    (getElo downService demoNow "Faker#KR1").2 = [.call (.GetByRiotID "Faker" "KR1")] ∧
    (getMatchTimeline downService "KR_1").2 =
      [.call (.TimelineGet "https://europe.api.riotgames.com/lol/match/v5/matches/KR_1/timeline"
        "RGAPI-2"), .sleep 1400000000] ∧
    paced (getMatchTimeline downService "KR_1").2 = true := by
  decide

/-! ## Facts about the watermark store -/

theorem entriesGet_set_self {V : Type} (l : List (String × V)) (k : String) (v : V) :
    entriesGet (entriesSet l k v) k = some v := by
  induction l with
  | nil => simp [entriesSet, entriesGet]
  | cons e l ih =>
    obtain ⟨k', v'⟩ := e
    by_cases h : k' = k
    · simp [entriesSet, entriesGet, h]
    · simp [entriesSet, entriesGet, h, ih]

theorem entriesGet_set_ne {V : Type} (l : List (String × V)) (k k2 : String) (v : V)
    (hne : k2 ≠ k) : entriesGet (entriesSet l k v) k2 = entriesGet l k2 := by
  induction l with
  | nil =>
    have : ¬ k = k2 := fun h => hne h.symm
    simp [entriesSet, entriesGet, this]
  | cons e l ih =>
    obtain ⟨k', v'⟩ := e
    by_cases h : k' = k
    · subst h
      have : ¬ k' = k2 := fun h => hne h.symm
      simp [entriesSet, entriesGet, this]
    · by_cases h2 : k' = k2
      · subst h2
        simp [entriesSet, entriesGet, h]
      · simp [entriesSet, entriesGet, h, h2, ih]

/-- The advance panics on a state whose top-level map is nil. -/
theorem advanceWatermark_nil (stream player date : String) :
    advanceWatermark none stream player date = none := by
  simp [advanceWatermark, GoMap.get, GoMap.set]

/-- On a non-nil top-level map the advance succeeds, makes the lookup of the
pair return the date and leaves every other pair as it was. -/
theorem advanceWatermark_some (l : List (String × GoMap String)) (stream player date : String) :
    ∃ l2, advanceWatermark (some l) stream player date = some (some l2) ∧
      lookupWatermark (some l2) stream player = some date ∧
      ∀ st pl, (st ≠ stream ∨ pl ≠ player) →
        lookupWatermark (some l2) st pl = lookupWatermark (some l) st pl := by
  have key : ∀ (l1 : List (String × GoMap String)) (m : List (String × String)),
      entriesGet l1 stream = some (some m) →
      (∀ st pl, (st ≠ stream ∨ pl ≠ player) →
        lookupWatermark (some l1) st pl = lookupWatermark (some l) st pl) →
      ∃ l2, (match GoMap.set ((GoMap.get (some l1) stream).getD none) player date with
          | none => none
          | some inner => GoMap.set (some l1) stream inner) = some (some l2) ∧
        lookupWatermark (some l2) stream player = some date ∧
        ∀ st pl, (st ≠ stream ∨ pl ≠ player) →
          lookupWatermark (some l2) st pl = lookupWatermark (some l) st pl := by
    intro l1 m hm hframe
    refine ⟨entriesSet l1 stream (some (entriesSet m player date)), ?_, ?_, ?_⟩
    · simp [GoMap.get, GoMap.set, hm]
    · simp [lookupWatermark, GoMap.get, entriesGet_set_self]
    · intro st pl hne
      rw [← hframe st pl hne]
      by_cases hst : st = stream
      · subst hst
        have hpl : pl ≠ player := by
          rcases hne with h | h
          · exact absurd rfl h
          · exact h
        simp [lookupWatermark, GoMap.get, entriesGet_set_self, hm,
          entriesGet_set_ne m player pl date hpl]
      · simp [lookupWatermark, GoMap.get, entriesGet_set_ne l1 stream st _ hst]
  unfold advanceWatermark
  cases hget : entriesGet l stream with
  | none =>
    simp only [GoMap.get, hget, GoMap.set]
    refine key (entriesSet l stream (some [])) [] (entriesGet_set_self _ _ _) ?_
    intro st pl hne
    by_cases hst : st = stream
    · subst hst
      simp [lookupWatermark, GoMap.get, entriesGet_set_self, hget, entriesGet]
    · simp [lookupWatermark, GoMap.get, entriesGet_set_ne l stream st _ hst]
  | some inner =>
    cases inner with
    | none =>
      simp only [GoMap.get, hget, GoMap.set]
      refine key (entriesSet l stream (some [])) [] (entriesGet_set_self _ _ _) ?_
      intro st pl hne
      by_cases hst : st = stream
      · subst hst
        simp [lookupWatermark, GoMap.get, entriesGet_set_self, hget, entriesGet]
      · simp [lookupWatermark, GoMap.get, entriesGet_set_ne l stream st _ hst]
    | some m =>
      have := key l m hget (fun _ _ _ => rfl)
      simpa only [GoMap.get, hget] using this

/-! ## Facts about the traces of the lane operations -/

theorem outputs_append (a b : List Event) : outputs (a ++ b) = outputs a ++ outputs b := by
  simp [outputs]

theorem getAccount_trace (r : RiotService) (p : String) :
    (getAccount r p).2 = [] ∨ ∃ n t, (getAccount r p).2 = [.call (.GetByRiotID n t)] ∨
      (getAccount r p).2 = [.call (.GetByRiotID n t), .sleep sleepDuration] := by
  by_cases hlen : (splitHash p).length = 2
  · refine Or.inr ⟨(splitHash p).getD 0 "", (splitHash p).getD 1 "", ?_⟩
    cases hget : r.client.GetByRiotID ((splitHash p).getD 0 "") ((splitHash p).getD 1 "") with
    | error e =>
      left; simp only [getAccount, hlen, ne_eq, not_true_eq_false, if_false, hget]
    | ok acc =>
      right; simp only [getAccount, hlen, ne_eq, not_true_eq_false, if_false, hget]
  · left; simp [getAccount, hlen]

theorem getAccount_filter (r : RiotService) (p : String) (f : Event → Bool)
    (hcall : ∀ n t, f (.call (.GetByRiotID n t)) = false) (hsleep : ∀ d, f (.sleep d) = false) :
    (getAccount r p).2.filter f = [] := by
  rcases getAccount_trace r p with h | ⟨n, t, h | h⟩ <;> rw [h] <;> simp [hcall, hsleep]

theorem getMatchIdsByPlayer_outputs (r : RiotService) (p : String) (t : Time) (q : Int) :
    outputs (getMatchIdsByPlayer r p t q).2 = [] := by
  unfold getMatchIdsByPlayer
  have h := getAccount_filter r p Event.isOutput (fun _ _ => rfl) (fun _ => rfl)
  split
  · next e ev heq =>
    have : ev = (getAccount r p).2 := by rw [heq]
    rw [outputs, this, h]
  · next acc ev heq =>
    have : ev = (getAccount r p).2 := by rw [heq]
    rw [outputs_append, outputs, this, h]
    rfl

/-- A successful listing has sent exactly one request for the id list, with
the start time and the queue it was given. -/
theorem getMatchIdsByPlayer_request (r : RiotService) (p : String) (t : Time) (q : Int)
    (ids : List String) (ev : List Event) (h : getMatchIdsByPlayer r p t q = (.ok ids, ev)) :
    ∃ puuid, ev.filter Event.isListStream = [.call (.ListStream puuid q t)] ∧
      ids = (r.client.ListStream puuid q t).map fun m => m.MatchID := by
  unfold getMatchIdsByPlayer at h
  have hf := getAccount_filter r p Event.isListStream (fun _ _ => rfl) (fun _ => rfl)
  split at h
  · exact absurd (congrArg Prod.fst h) (by simp)
  · next acc ev0 heq =>
    have hev0 : ev0 = (getAccount r p).2 := by rw [heq]
    have h1 := congrArg Prod.fst h
    have h2 := congrArg Prod.snd h
    simp only at h1 h2
    refine ⟨acc.Puuid, ?_, ?_⟩
    · rw [← h2, List.filter_append, hev0, hf]
      rfl
    · injection h1 with h1
      exact h1.symm

theorem getMatchDetails_trace (r : RiotService) (id : String) :
    (getMatchDetails r id).2 = [.call (.MatchGet id)] ∨
      (getMatchDetails r id).2 = [.call (.MatchGet id), .sleep sleepDuration] := by
  unfold getMatchDetails
  split
  · exact Or.inl rfl
  · exact Or.inr rfl

theorem matchDetailsLoop_outputs (service : RiotService) (player : String) (total : Nat)
    (ids : List String) :
    ∀ i, outputs (matchDetailsLoop service player total i ids) = matchRecords service ids := by
  induction ids with
  | nil => intro i; rfl
  | cons id ids ih =>
    intro i
    simp only [matchDetailsLoop, outputs_append, ih, matchRecords, List.filterMap_cons]
    unfold getMatchDetails
    cases hm : service.client.MatchGet id with
    | error e => simp [outputs, Event.isOutput]
    | ok m =>
      by_cases h50 : (i + 1) % 50 = 0 <;> simp [outputs, Event.isOutput, h50]

theorem matchDetailsLoop_noList (service : RiotService) (player : String) (total : Nat)
    (ids : List String) :
    ∀ i, (matchDetailsLoop service player total i ids).filter Event.isListStream = [] := by
  induction ids with
  | nil => intro i; rfl
  | cons id ids ih =>
    intro i
    simp only [matchDetailsLoop, List.filter_append, ih]
    unfold getMatchDetails
    cases hm : service.client.MatchGet id with
    | error e => simp [Event.isListStream]
    | ok m =>
      by_cases h50 : (i + 1) % 50 = 0 <;> simp [Event.isListStream, h50]

/-- The matches pipeline on one identity whose start date parses and whose
listing succeeds, on a state with a non-nil top-level map: the one request
for the id list carries the parsed date; the output is the owed records in
id order followed by one `STATE` message; the watermark of the identity is
today, the other watermarks are unchanged. -/
theorem matchesPlayer_complete (service : RiotService) (c : Config) (now : Time)
    (gIdx total i : Nat) (l : List (String × GoMap String)) (player : String)
    (fromTime : Time) (ids : List String) (ev : List Event)
    (hparse : startDateAsTime ((lookupWatermark (some l) Matches player).getD c.StartDate)
      = some fromTime)
    (hlist : getMatchIdsByPlayer service player fromTime c.QueueId = (.ok ids, ev)) :
    ∃ l2 puuid,
      (matchesPlayer service c now gIdx total i ⟨some l⟩ player).state = ⟨some l2⟩ ∧
      (matchesPlayer service c now gIdx total i ⟨some l⟩ player).panicked = false ∧
      (matchesPlayer service c now gIdx total i ⟨some l⟩ player).trace.filter Event.isListStream
        = [.call (.ListStream puuid c.QueueId fromTime)] ∧
      outputs (matchesPlayer service c now gIdx total i ⟨some l⟩ player).trace
        = matchRecords service ids ++ [.state (some l2)] ∧
      lookupWatermark (some l2) Matches player = some (today now) ∧
      ∀ st pl, (st ≠ Matches ∨ pl ≠ player) →
        lookupWatermark (some l2) st pl = lookupWatermark (some l) st pl := by
  obtain ⟨l2, hadv, hlook, hframe⟩ := advanceWatermark_some l Matches player (today now)
  obtain ⟨puuid, hreq, _⟩ := getMatchIdsByPlayer_request service player fromTime c.QueueId ids ev hlist
  have hout : outputs ev = [] := by
    have := getMatchIdsByPlayer_outputs service player fromTime c.QueueId
    rw [hlist] at this
    exact this
  refine ⟨l2, puuid, ?_, ?_, ?_, ?_, hlook, hframe⟩
  · simp only [matchesPlayer, hparse, hlist, hadv]
  · simp only [matchesPlayer, hparse, hlist, hadv]
  · simp only [matchesPlayer, hparse, hlist, hadv, List.filter_append, hreq,
      matchDetailsLoop_noList]
    simp [startingLog, Event.isListStream]
  · simp only [matchesPlayer, hparse, hlist, hadv, outputs_append, hout,
      matchDetailsLoop_outputs]
    simp [outputs, startingLog, Event.isOutput]

/-! ## Facts about dates -/

theorem digitChar_facts (d : Nat) :
    isDigit (digitChar d) = true ∧ digitOf (digitChar d) = d % 10 ∧ digitChar d ≠ '-' := by
  have hk : d % 10 < 10 := Nat.mod_lt _ (by decide)
  unfold digitChar
  generalize d % 10 = k at hk
  interval_cases k <;> decide

theorem decimalDigits_length_ge (fuel : Nat) :
    ∀ u acc, acc.length ≤ (decimalDigits fuel u acc).length := by
  induction fuel with
  | zero => intro u acc; simp [decimalDigits]
  | succ fuel ih =>
    intro u acc
    simp only [decimalDigits]
    split
    · simp
    · exact le_trans (by simp) (ih (u / 10) (digitChar u :: acc))

theorem decimalDigits_length (k : Nat) :
    ∀ fuel u acc, 10 ^ k ≤ u → u < fuel →
      acc.length + k + 1 ≤ (decimalDigits fuel u acc).length := by
  induction k with
  | zero =>
    intro fuel u acc _ hfuel
    match fuel, hfuel with
    | fuel + 1, _ =>
      simp only [decimalDigits]
      split
      · simp
      · have := decimalDigits_length_ge fuel (u / 10) (digitChar u :: acc)
        simp at this
        omega
  | succ k ih =>
    intro fuel u acc hu hfuel
    match fuel, hfuel with
    | fuel + 1, hfuel =>
      have h10 : 10 ≤ u := le_trans (by
        calc 10 = 10 ^ 1 := by norm_num
          _ ≤ 10 ^ (k + 1) := Nat.pow_le_pow_right (by norm_num) (by omega)) hu
      have hnot : ¬ u < 10 := by omega
      simp only [decimalDigits, hnot, if_false]
      have hdiv : 10 ^ k ≤ u / 10 := by
        rw [Nat.le_div_iff_mul_le (by norm_num)]
        rw [pow_succ] at hu
        exact hu
      have := ih fuel (u / 10) (digitChar u :: acc) hdiv (by omega)
      simp at this
      omega

theorem appendInt_length_ge (x w : Nat) : w ≤ (appendInt x w).length := by
  unfold appendInt
  split
  · next h => simp [h.1]
  · split
    · next h => simp [h.1]
    · simp; omega

theorem appendInt_two_wide (x : Nat) (hx : 100 ≤ x) : 3 ≤ (appendInt x 2).length := by
  have h1 : ¬ (2 = 2 ∧ x < 100) := by omega
  have h2 : ¬ (2 = 4 ∧ x < 10000) := by omega
  have := decimalDigits_length 2 (x + 1) x [] (by norm_num; exact hx) (by omega)
  unfold appendInt
  rw [if_neg h1, if_neg h2]
  simp only [List.length_append, List.length_replicate]
  simp at this
  omega

theorem appendInt_four_wide (x : Nat) (hx : 10000 ≤ x) : 5 ≤ (appendInt x 4).length := by
  have h1 : ¬ (4 = 4 ∧ x < 10000) := by omega
  have h2 : ¬ (4 = 2 ∧ x < 100) := by omega
  have := decimalDigits_length 4 (x + 1) x [] (by norm_num; exact hx) (by omega)
  unfold appendInt
  rw [if_neg h1, if_neg h2]
  simp only [List.length_append, List.length_replicate]
  simp at this
  omega

theorem startDateAsTime_length (s : String) (t : Time) (h : startDateAsTime s = some t) :
    s.data.length = 10 := by
  unfold startDateAsTime at h
  split at h
  · next heq => rw [heq]; rfl
  · exact Option.noConfusion h

/-- A date that the clock formats and the parser accepts is today's date. -/
theorem startDateAsTime_formatDate (now t : Time)
    (h : startDateAsTime (formatDate now) = some t) : isToday now t = true := by
  have hlen := startDateAsTime_length _ _ h
  have hy4 := appendInt_length_ge now.year 4
  have hm2 := appendInt_length_ge now.month 2
  have hd2 := appendInt_length_ge now.day 2
  simp only [formatDate, List.length_append, List.length_cons] at hlen
  have hy : now.year < 10000 := by
    by_contra hc
    have := appendInt_four_wide now.year (by omega)
    omega
  have hm : now.month < 100 := by
    by_contra hc
    have := appendInt_two_wide now.month (by omega)
    omega
  have hd : now.day < 100 := by
    by_contra hc
    have := appendInt_two_wide now.day (by omega)
    omega
  have hfmt : (formatDate now).data =
      [digitChar (now.year / 1000), digitChar (now.year / 100), digitChar (now.year / 10),
        digitChar now.year, '-', digitChar (now.month / 10), digitChar now.month, '-',
        digitChar (now.day / 10), digitChar now.day] := by
    simp [formatDate, appendInt, hy, hm, hd]
  unfold startDateAsTime at h
  rw [hfmt] at h
  simp only [digitChar_facts, decide_True, Bool.and_self, if_true] at h
  split at h
  · exact Option.noConfusion h
  · split at h
    · exact Option.noConfusion h
    · injection h with h
      subst h
      simp only [isToday, Bool.and_eq_true, decide_eq_true_eq]
      refine ⟨⟨?_, ?_⟩, ?_⟩ <;> omega

/-! ## The matches pipeline -/

/-- **C5.** Evaluation on a state whose top-level map is nil (a state file
without a `value` entry), start date `2024-01-01`: the pipeline requests the
id list with the parsed start date, the listing succeeds, and the watermark
advance panics; no watermark is set and no `STATE` is written. On the empty
non-nil map the same identity ends with its watermark at today's date. -/
theorem matches_watermark_panics_on_nil_map :
    (matchesPlayer demoService demoConfig demoNow 0 1 0 ⟨none⟩ "Faker#KR1").trace.filter
        Event.isListStream
      = [.call (.ListStream "puuid-Faker" 420 { year := 2024, month := 1, day := 1, nsec := 0 })] ∧
    (matchesPlayer demoService demoConfig demoNow 0 1 0 ⟨none⟩ "Faker#KR1").panicked = true ∧
    (matchesPlayer demoService demoConfig demoNow 0 1 0 ⟨none⟩ "Faker#KR1").state = ⟨none⟩ ∧
    lookupWatermark (matchesPlayer demoService demoConfig demoNow 0 1 0 ⟨none⟩ "Faker#KR1").state.Value
      Matches "Faker#KR1" = none ∧
    (matchesPlayer demoService demoConfig demoNow 0 1 0 ⟨none⟩ "Faker#KR1").trace.filter
        Event.isState = [] ∧
    (matchesPlayer demoService demoConfig demoNow 0 1 0 ⟨some []⟩ "Faker#KR1").state
      = ⟨some [("matches", some [("Faker#KR1", "2024-03-05")])]⟩ := by
  decide

/-- **C6.** Evaluation of `syncMatchesConcurrent` with one credential, the
identity `Faker#KR1` and three match ids, all fetched. On a state whose
top-level map is nil the three records are written and the run then panics
in the watermark advance: no `STATE` follows them. On the empty non-nil map
the output is the three records, then the `STATE` with the watermark at
today's date. -/
theorem matches_state_missing_on_nil_map :
    outputs (syncMatchesConcurrent [⟨["Faker#KR1"], demoService⟩] ⟨none⟩ demoConfig demoNow).trace
      = [.record "matches" (.matchWithID ⟨⟨⟨"KR_1"⟩, "info"⟩, "KR_1"⟩),
         .record "matches" (.matchWithID ⟨⟨⟨"KR_2"⟩, "info"⟩, "KR_2"⟩),
         .record "matches" (.matchWithID ⟨⟨⟨"KR_3"⟩, "info"⟩, "KR_3"⟩)] ∧
    (syncMatchesConcurrent [⟨["Faker#KR1"], demoService⟩] ⟨none⟩ demoConfig demoNow).panicked
      = true ∧
    outputs (syncMatchesConcurrent [⟨["Faker#KR1"], demoService⟩] ⟨some []⟩ demoConfig
        demoNow).trace
      = [.record "matches" (.matchWithID ⟨⟨⟨"KR_1"⟩, "info"⟩, "KR_1"⟩),
         .record "matches" (.matchWithID ⟨⟨⟨"KR_2"⟩, "info"⟩, "KR_2"⟩),
         .record "matches" (.matchWithID ⟨⟨⟨"KR_3"⟩, "info"⟩, "KR_3"⟩),
         .state (some [("matches", some [("Faker#KR1", "2024-03-05")])])] := by
  decide

/-! ## The ranking pipeline -/

/-- **C7.** An identity whose Elos watermark is today's date is skipped: the
iteration writes one log line and nothing else (no remote call, no sleep, no
record, no `STATE`), and the state is unchanged. -/
theorem elos_skip_when_watermark_is_today (service : RiotService) (c : Config) (now : Time)
    (s : State) (player : String)
    (hw : lookupWatermark s.Value Elos player = some (today now)) :
    (elosPlayer service c now s player).state = s ∧
    (elosPlayer service c now s player).panicked = false ∧
    (∃ m, (elosPlayer service c now s player).trace = [.log m] ∨
      (elosPlayer service c now s player).trace = [.logError m]) ∧
    (elosPlayer service c now s player).trace.filter Event.isCall = [] ∧
    (elosPlayer service c now s player).trace.filter Event.isRecord = [] ∧
    (elosPlayer service c now s player).trace.filter Event.isState = [] := by
  have hfrom : (lookupWatermark s.Value Elos player).getD c.StartDate = formatDate now := by
    rw [hw]; rfl
  cases hp : startDateAsTime (formatDate now) with
  | none => simp [elosPlayer, hfrom, hp, Event.isCall, Event.isRecord, Event.isState]
  | some t =>
    have ht := startDateAsTime_formatDate now t hp
    simp [elosPlayer, hfrom, hp, ht, Event.isCall, Event.isRecord, Event.isState]

theorem elos_skip_when_watermark_is_today_witness :
    lookupWatermark (some [("elos", some [("Faker#KR1", "2024-03-05")])]) Elos "Faker#KR1"
      = some (today demoNow) ∧
    (elosPlayer demoService demoConfig demoNow
        ⟨some [("elos", some [("Faker#KR1", "2024-03-05")])]⟩ "Faker#KR1").trace
      = [.log "Already processed today for player Faker#KR1, skipping"] ∧
    ((elosPlayer demoService demoConfig demoNow
        ⟨some [("elos", some [("Faker#KR1", "2024-03-05")])]⟩ "Faker#KR1").state
      = ⟨some [("elos", some [("Faker#KR1", "2024-03-05")])]⟩ ∧
    (elosPlayer demoService demoConfig demoNow
        ⟨some [("elos", some [("Faker#KR1", "2024-03-05")])]⟩ "Faker#KR1").panicked = false ∧
    (∃ m, (elosPlayer demoService demoConfig demoNow
        ⟨some [("elos", some [("Faker#KR1", "2024-03-05")])]⟩ "Faker#KR1").trace = [.log m] ∨
      (elosPlayer demoService demoConfig demoNow
        ⟨some [("elos", some [("Faker#KR1", "2024-03-05")])]⟩ "Faker#KR1").trace = [.logError m]) ∧
    (elosPlayer demoService demoConfig demoNow
        ⟨some [("elos", some [("Faker#KR1", "2024-03-05")])]⟩ "Faker#KR1").trace.filter
        Event.isCall = [] ∧
    (elosPlayer demoService demoConfig demoNow
        ⟨some [("elos", some [("Faker#KR1", "2024-03-05")])]⟩ "Faker#KR1").trace.filter
        Event.isRecord = [] ∧
    (elosPlayer demoService demoConfig demoNow
        ⟨some [("elos", some [("Faker#KR1", "2024-03-05")])]⟩ "Faker#KR1").trace.filter
        Event.isState = []) :=
  ⟨by decide, by decide,
    elos_skip_when_watermark_is_today demoService demoConfig demoNow
      ⟨some [("elos", some [("Faker#KR1", "2024-03-05")])]⟩ "Faker#KR1" (by decide)⟩

/-- **C9.** Evaluation for an identity without a solo-queue ranking (the
source returns only a flex-queue entry), the account and ranking lookups
succeeding and no watermark yet: the record written is the zero `Elo`, whose
date and puuid are empty, although the resolved puuid is `puuid-Faker` and
today is 2024-03-05; the watermark is advanced to today all the same. With a
solo-queue entry the record carries the puuid and today's date. -/
theorem elos_record_empty_without_solo_entry :
    outputs (elosPlayer unrankedService demoConfig demoNow ⟨some []⟩ "Faker#KR1").trace
      = [.record "elos" (.elo ⟨"", "", 0, "", ""⟩),
         .state (some [("elos", some [("Faker#KR1", "2024-03-05")])])] ∧
    (getAccount unrankedService "Faker#KR1").2
      = [.call (.GetByRiotID "Faker" "KR1"), .sleep 1400000000] ∧
    outputs (elosPlayer demoService demoConfig demoNow ⟨some []⟩ "Faker#KR1").trace
      = [.record "elos" (.elo ⟨"puuid-Faker", "2024-03-05", 1200, "CHALLENGER", "I"⟩),
         .state (some [("elos", some [("Faker#KR1", "2024-03-05")])])] := by
  decide

/-! ## Facts about the player loop -/

theorem Run.seq_pure (s : State) (f : State → Run) : (Run.mk s [] false).seq f = f s := by
  simp [Run.seq]

theorem Run.seq_assoc (a : Run) (f g : State → Run) :
    (a.seq f).seq g = a.seq fun s => (f s).seq g := by
  obtain ⟨st, tr, pn⟩ := a
  cases pn with
  | true => simp [Run.seq]
  | false =>
    cases hf : (f st).panicked with
    | true => simp [Run.seq, hf]
    | false => simp [Run.seq, hf]

theorem Run.sameOutput_refl (a : Run) : a.sameOutput a := ⟨rfl, rfl, rfl⟩

theorem Run.sameOutput_trans {a b c : Run} (h1 : a.sameOutput b) (h2 : b.sameOutput c) :
    a.sameOutput c :=
  ⟨h1.1.trans h2.1, h1.2.1.trans h2.2.1, h1.2.2.trans h2.2.2⟩

theorem Run.seq_sameOutput {a b : Run} {f g : State → Run} (hab : a.sameOutput b)
    (hfg : (f a.state).sameOutput (g a.state)) : (a.seq f).sameOutput (b.seq g) := by
  obtain ⟨hs, hp, ho⟩ := hab
  unfold Run.seq
  by_cases ha : a.panicked = true
  · have hb : b.panicked = true := by rw [← hp]; exact ha
    simp only [ha, hb, if_true]
    exact ⟨hs, hp, ho⟩
  · have hb : ¬ b.panicked = true := by rw [← hp]; exact ha
    simp only [ha, hb, if_false]
    obtain ⟨h1, h2, h3⟩ := hfg
    rw [← hs]
    refine ⟨h1, h2, ?_⟩
    show outputs (a.trace ++ (f a.state).trace) = outputs (b.trace ++ (g a.state).trace)
    rw [outputs_append, outputs_append, ho, h3]

/-- An iteration that changes nothing and writes nothing can be left out. -/
theorem Run.seq_skip (a : Run) (f : State → Run) (hs : a.panicked = false)
    (ho : outputs a.trace = []) : (a.seq f).sameOutput (f a.state) := by
  unfold Run.seq
  simp only [hs]
  exact ⟨rfl, rfl, by simp [outputs_append, ho]⟩

theorem playerLoop_append (body : Nat → State → String → Run) (pre post : List String) :
    ∀ i s, playerLoop body i (pre ++ post) s
      = (playerLoop body i pre s).seq (playerLoop body (i + pre.length) post) := by
  induction pre with
  | nil => intro i s; simp [playerLoop, Run.seq_pure]
  | cons p pre ih =>
    intro i s
    have hidx : i + (p :: pre).length = i + 1 + pre.length := by simp; omega
    rw [hidx]
    show (body i s p).seq (playerLoop body (i + 1) (pre ++ post)) = _
    have hfun : playerLoop body (i + 1) (pre ++ post)
        = fun st => (playerLoop body (i + 1) pre st).seq
            (playerLoop body (i + 1 + pre.length) post) := by
      funext st
      exact ih (i + 1) st
    rw [hfun]
    simp only [playerLoop, Run.seq_assoc]

theorem playerLoop_congr (body1 body2 : Nat → State → String → Run)
    (h : ∀ i j s p, (body1 i s p).sameOutput (body2 j s p)) (l : List String) :
    ∀ i j s, (playerLoop body1 i l s).sameOutput (playerLoop body2 j l s) := by
  induction l with
  | nil => intro i j s; exact Run.sameOutput_refl _
  | cons p l ih =>
    intro i j s
    simp only [playerLoop]
    exact Run.seq_sameOutput (h i j s p) (ih (i + 1) (j + 1) _)

/-- Isolation of an iteration without effect: if the iteration of `p` on the
state reached after `pre` changes nothing and writes nothing, the loop over
`pre ++ p :: post` and the loop over `pre ++ post` have the same output. -/
theorem playerLoop_isolated (body1 body2 : Nat → State → String → Run)
    (h : ∀ i j s p, (body1 i s p).sameOutput (body2 j s p))
    (pre post : List String) (p : String) (s : State)
    (hp : ∀ i, (body1 i (playerLoop body1 0 pre s).state p).state
        = (playerLoop body1 0 pre s).state ∧
      (body1 i (playerLoop body1 0 pre s).state p).panicked = false ∧
      outputs (body1 i (playerLoop body1 0 pre s).state p).trace = []) :
    (playerLoop body1 0 (pre ++ p :: post) s).sameOutput (playerLoop body2 0 (pre ++ post) s) := by
  rw [playerLoop_append, playerLoop_append]
  refine Run.seq_sameOutput (playerLoop_congr body1 body2 h pre 0 0 s) ?_
  obtain ⟨h1, h2, h3⟩ := hp (0 + pre.length)
  have hskip := Run.seq_skip (body1 (0 + pre.length) (playerLoop body1 0 pre s).state p)
    (playerLoop body1 (0 + pre.length + 1) post) h2 h3
  rw [h1] at hskip
  exact Run.sameOutput_trans hskip (playerLoop_congr body1 body2 h post _ _ _)

/-! ## The lane operations only call and sleep -/

theorem filter_lane_nil (tr : List Event) (h : ∀ e ∈ tr, e.isLane = true) (f : Event → Bool)
    (hf : ∀ e, e.isLane = true → f e = false) : tr.filter f = [] := by
  rw [List.filter_eq_nil_iff]
  intro e he
  simp [hf e (h e he)]

theorem getAccount_lane (r : RiotService) (p : String) :
    ∀ e ∈ (getAccount r p).2, e.isLane = true := by
  rcases getAccount_trace r p with h | ⟨n, t, h | h⟩ <;> rw [h] <;>
    simp [Event.isLane, Event.isCall, Event.isSleep]

theorem getMatchIdsByPlayer_lane (r : RiotService) (p : String) (t : Time) (q : Int) :
    ∀ e ∈ (getMatchIdsByPlayer r p t q).2, e.isLane = true := by
  have h := getAccount_lane r p
  unfold getMatchIdsByPlayer
  split
  · next e ev heq =>
    have : ev = (getAccount r p).2 := by rw [heq]
    rw [this]; exact h
  · next acc ev heq =>
    have : ev = (getAccount r p).2 := by rw [heq]
    rw [this]
    intro e he
    simp only [List.mem_append, List.mem_cons, List.mem_singleton, List.not_mem_nil,
      or_false] at he
    rcases he with he | he | he
    · exact h e he
    · rw [he]; rfl
    · rw [he]; rfl

theorem getElo_lane (r : RiotService) (now : Time) (p : String) :
    ∀ e ∈ (getElo r now p).2, e.isLane = true := by
  have h := getAccount_lane r p
  unfold getElo
  split
  · next e ev heq =>
    have : ev = (getAccount r p).2 := by rw [heq]
    rw [this]; exact h
  · next acc ev heq =>
    have hev : ev = (getAccount r p).2 := by rw [heq]
    have hall : ∀ e ∈ ev ++ [Event.call (.ListByPuuid acc.Puuid), .sleep sleepDuration],
        e.isLane = true := by
      intro e he
      simp only [List.mem_append, List.mem_cons, List.mem_singleton, List.not_mem_nil,
        or_false] at he
      rcases he with he | he | he
      · exact h e (hev ▸ he)
      · rw [he]; rfl
      · rw [he]; rfl
    split <;> exact hall

theorem getMatchDetails_lane (r : RiotService) (id : String) :
    ∀ e ∈ (getMatchDetails r id).2, e.isLane = true := by
  rcases getMatchDetails_trace r id with h | h <;> rw [h] <;>
    simp [Event.isLane, Event.isCall, Event.isSleep]

theorem getMatchTimeline_lane (r : RiotService) (id : String) :
    ∀ e ∈ (getMatchTimeline r id).2, e.isLane = true := by
  unfold getMatchTimeline
  simp only
  repeat' split
  all_goals simp [Event.isLane, Event.isCall, Event.isSleep]

/-! ## What one iteration leaves to observe -/

theorem outputs_lane (tr : List Event) (h : ∀ e ∈ tr, e.isLane = true) : outputs tr = [] := by
  refine filter_lane_nil tr h Event.isOutput ?_
  intro e he
  cases e <;> simp_all [Event.isLane, Event.isCall, Event.isSleep, Event.isOutput]

theorem matchTimelinesLoop_outputs (service : RiotService) (player : String) (total : Nat)
    (ids : List String) :
    ∀ i, outputs (matchTimelinesLoop service player total i ids) = timelineRecords service ids := by
  induction ids with
  | nil => intro i; rfl
  | cons id ids ih =>
    intro i
    have hl := outputs_lane _ (getMatchTimeline_lane service id)
    simp only [matchTimelinesLoop, outputs_append, ih, timelineRecords, List.filterMap_cons]
    rcases hg : getMatchTimeline service id with ⟨res, ev⟩
    rw [hg] at hl
    replace hl : outputs ev = [] := hl
    cases res with
    | error e => simp [outputs_append, hl]; simp [outputs, Event.isOutput]
    | ok tl =>
      by_cases h50 : (i + 1) % 50 = 0 <;>
        simp [outputs_append, hl, h50] <;> simp [outputs, Event.isOutput]

theorem matchesPlayer_obs (service : RiotService) (c : Config) (now : Time) (gIdx total i : Nat)
    (s : State) (p : String) :
    ((matchesPlayer service c now gIdx total i s p).state,
      (matchesPlayer service c now gIdx total i s p).panicked,
      outputs (matchesPlayer service c now gIdx total i s p).trace)
      = matchesObs service c now s p := by
  cases hparse : startDateAsTime ((lookupWatermark s.Value Matches p).getD c.StartDate) with
  | none =>
    simp only [matchesPlayer, matchesObs, hparse]
    simp [outputs, startingLog, Event.isOutput]
  | some t =>
    have hl := outputs_lane _ (getMatchIdsByPlayer_lane service p t c.QueueId)
    rcases hg : getMatchIdsByPlayer service p t c.QueueId with ⟨res, ev⟩
    rw [hg] at hl
    replace hl : outputs ev = [] := hl
    cases res with
    | error e =>
      simp only [matchesPlayer, matchesObs, hparse, hg, outputs_append, hl]
      simp [outputs, startingLog, Event.isOutput]
    | ok ids =>
      cases hadv : advanceWatermark s.Value Matches p (today now) with
      | none =>
        simp only [matchesPlayer, matchesObs, hparse, hg, hadv, outputs_append, hl, matchDetailsLoop_outputs]
        simp [outputs, startingLog, Event.isOutput]
      | some v =>
        simp only [matchesPlayer, matchesObs, hparse, hg, hadv, outputs_append, hl, matchDetailsLoop_outputs]
        simp [outputs, startingLog, Event.isOutput]

theorem timelinesPlayer_obs (service : RiotService) (c : Config) (now : Time)
    (gIdx total i : Nat) (s : State) (p : String) :
    ((timelinesPlayer service c now gIdx total i s p).state,
      (timelinesPlayer service c now gIdx total i s p).panicked,
      outputs (timelinesPlayer service c now gIdx total i s p).trace)
      = timelinesObs service c now s p := by
  cases hparse : startDateAsTime ((lookupWatermark s.Value MatchTimelines p).getD c.StartDate) with
  | none =>
    simp only [timelinesPlayer, timelinesObs, hparse]
    simp [outputs, startingLog, Event.isOutput]
  | some t =>
    have hl := outputs_lane _ (getMatchIdsByPlayer_lane service p t c.QueueId)
    rcases hg : getMatchIdsByPlayer service p t c.QueueId with ⟨res, ev⟩
    rw [hg] at hl
    replace hl : outputs ev = [] := hl
    cases res with
    | error e =>
      simp only [timelinesPlayer, timelinesObs, hparse, hg, outputs_append, hl]
      simp [outputs, startingLog, Event.isOutput]
    | ok ids =>
      cases hadv : advanceWatermark s.Value MatchTimelines p (today now) with
      | none =>
        simp only [timelinesPlayer, timelinesObs, hparse, hg, hadv, outputs_append, hl, matchTimelinesLoop_outputs]
        simp [outputs, startingLog, Event.isOutput]
      | some v =>
        simp only [timelinesPlayer, timelinesObs, hparse, hg, hadv, outputs_append, hl, matchTimelinesLoop_outputs]
        simp [outputs, startingLog, Event.isOutput]

theorem elosPlayer_obs (service : RiotService) (c : Config) (now : Time) (s : State)
    (p : String) :
    ((elosPlayer service c now s p).state, (elosPlayer service c now s p).panicked,
      outputs (elosPlayer service c now s p).trace) = elosObs service c now s p := by
  cases hparse : startDateAsTime ((lookupWatermark s.Value Elos p).getD c.StartDate) with
  | none =>
    simp only [elosPlayer, elosObs, hparse]
    simp [outputs, Event.isOutput]
  | some t =>
    by_cases htoday : isToday now t = true
    · simp only [elosPlayer, elosObs, hparse, htoday, if_true]
      simp [outputs, Event.isOutput]
    · have hl := outputs_lane _ (getElo_lane service now p)
      rcases hg : getElo service now p with ⟨res, ev⟩
      rw [hg] at hl
      replace hl : outputs ev = [] := hl
      cases res with
      | error e =>
        simp only [elosPlayer, elosObs, hparse, htoday, if_false, Bool.false_eq_true, hg, outputs_append, hl]
        simp [outputs, Event.isOutput]
      | ok elo =>
        cases hadv : advanceWatermark s.Value Elos p (today now) with
        | none =>
          simp only [elosPlayer, elosObs, hparse, htoday, if_false, Bool.false_eq_true, hg, hadv, outputs_append, hl]
          simp [outputs, Event.isOutput]
        | some v =>
          simp only [elosPlayer, elosObs, hparse, htoday, if_false, Bool.false_eq_true, hg, hadv, outputs_append, hl]
          simp [outputs, Event.isOutput]

theorem accountsWorker_outputs (service : RiotService) (players : List String) :
    outputs (accountsWorker service players) = accountRecords service players := by
  induction players with
  | nil => rfl
  | cons p ps ih =>
    have hl := outputs_lane _ (getAccount_lane service p)
    simp only [accountsWorker, outputs_append, ih, accountRecords, List.filterMap_cons]
    rcases hg : getAccount service p with ⟨res, ev⟩
    rw [hg] at hl
    replace hl : outputs ev = [] := hl
    cases res with
    | error e => simp [outputs_append, hl]; simp [outputs, Event.isOutput]
    | ok acc => simp [outputs_append, hl]; simp [outputs, Event.isOutput]

/-- A malformed identity makes every lane operation that resolves it fail. -/
theorem malformed_identity_fails (r : RiotService) (now : Time) (p : String) (t : Time) (q : Int)
    (h : (splitHash p).length ≠ 2) :
    (∃ e, (getAccount r p).1 = .error e) ∧ (∃ e, (getMatchIdsByPlayer r p t q).1 = .error e) ∧
      (∃ e, (getElo r now p).1 = .error e) := by
  have ha : getAccount r p = (.error ("Invalid player id: " ++ p), []) := by
    simp [getAccount, h]
  refine ⟨⟨_, by rw [ha]⟩, ⟨"Invalid player id: " ++ p, ?_⟩, ⟨"Invalid player id: " ++ p, ?_⟩⟩
  · simp only [getMatchIdsByPlayer, ha]
  · simp only [getElo, ha]

/-! ## Isolation of a failing identity -/

theorem sameOutput_of_obs {a b : Run} {o : State × Bool × List Event}
    (ha : (a.state, a.panicked, outputs a.trace) = o)
    (hb : (b.state, b.panicked, outputs b.trace) = o) : a.sameOutput b := by
  rw [← hb] at ha
  simp only [Prod.mk.injEq] at ha
  exact ha

theorem playerLoop_isolated_obs (obs : State → String → State × Bool × List Event)
    (body0 body1 body2 : Nat → State → String → Run)
    (h0 : ∀ i s p, ((body0 i s p).state, (body0 i s p).panicked, outputs (body0 i s p).trace)
      = obs s p)
    (h1 : ∀ i s p, ((body1 i s p).state, (body1 i s p).panicked, outputs (body1 i s p).trace)
      = obs s p)
    (h2 : ∀ i s p, ((body2 i s p).state, (body2 i s p).panicked, outputs (body2 i s p).trace)
      = obs s p)
    (pre post : List String) (p : String) (s : State)
    (hfail : obs (playerLoop body0 0 pre s).state p = ((playerLoop body0 0 pre s).state, false, [])) :
    (playerLoop body1 0 (pre ++ p :: post) s).sameOutput (playerLoop body2 0 (pre ++ post) s) := by
  have hst : (playerLoop body0 0 pre s).state = (playerLoop body1 0 pre s).state :=
    (playerLoop_congr body0 body1 (fun i j s p => sameOutput_of_obs (h0 i s p) (h1 j s p))
      pre 0 0 s).1
  rw [hst] at hfail
  refine playerLoop_isolated body1 body2
    (fun i j s p => sameOutput_of_obs (h1 i s p) (h2 j s p)) pre post p s ?_
  intro i
  have := h1 i (playerLoop body1 0 pre s).state p
  rw [hfail] at this
  simp only [Prod.mk.injEq] at this
  exact this

theorem matchesObs_fails (service : RiotService) (c : Config) (now : Time) (s : State)
    (p : String) (h : matchesFailsEarly service c s p = true) :
    matchesObs service c now s p = (s, false, []) := by
  cases hparse : startDateAsTime ((lookupWatermark s.Value Matches p).getD c.StartDate) with
  | none => simp only [matchesObs, hparse]
  | some t =>
    simp only [matchesFailsEarly, hparse] at h
    cases hres : (getMatchIdsByPlayer service p t c.QueueId).1 with
    | error e => simp only [matchesObs, hparse, hres]
    | ok ids => rw [hres] at h; exact absurd h (by simp)

theorem timelinesObs_fails (service : RiotService) (c : Config) (now : Time) (s : State)
    (p : String) (h : timelinesFailsEarly service c s p = true) :
    timelinesObs service c now s p = (s, false, []) := by
  cases hparse : startDateAsTime ((lookupWatermark s.Value MatchTimelines p).getD c.StartDate) with
  | none => simp only [timelinesObs, hparse]
  | some t =>
    simp only [timelinesFailsEarly, hparse] at h
    cases hres : (getMatchIdsByPlayer service p t c.QueueId).1 with
    | error e => simp only [timelinesObs, hparse, hres]
    | ok ids => rw [hres] at h; exact absurd h (by simp)

theorem elosObs_fails (service : RiotService) (c : Config) (now : Time) (s : State)
    (p : String) (h : elosFailsEarly service c now s p = true) :
    elosObs service c now s p = (s, false, []) := by
  cases hparse : startDateAsTime ((lookupWatermark s.Value Elos p).getD c.StartDate) with
  | none => simp only [elosObs, hparse]
  | some t =>
    simp only [elosFailsEarly, hparse] at h
    cases hres : (getElo service now p).1 with
    | error e => simp only [elosObs, hparse, hres]; split <;> rfl
    | ok elo => rw [hres] at h; exact absurd h (by simp)

/-- Isolation of an identity that a worker skips: an identity whose start
date does not parse, or whose account lookup fails (as for a malformed
identity such as `NoHashtag`), or whose ranking lookup fails, writes no
`RECORD` and no `STATE` and leaves the state, hence its watermark, unchanged;
and the worker of its shard leaves the same state and writes the same
`RECORD` and `STATE` messages, in the same order, as on the shard without that
identity. This holds for the matches, ranking and timelines workers, and for
the records of the accounts worker. An identity whose id listing fails is not
skipped and is not covered. -/
theorem failing_identity_is_isolated (service : RiotService) (c : Config) (now : Time)
    (gIdx : Nat) (pre post : List String) (p : String) (s : State) :
    (matchesFailsEarly service c (matchesWorker service c now gIdx pre s).state p = true →
      (∀ g t i,
        (matchesPlayer service c now g t i (matchesWorker service c now gIdx pre s).state p).state
          = (matchesWorker service c now gIdx pre s).state ∧
        (matchesPlayer service c now g t i (matchesWorker service c now gIdx pre s).state p).panicked
          = false ∧
        outputs (matchesPlayer service c now g t i
          (matchesWorker service c now gIdx pre s).state p).trace = []) ∧
      (matchesWorker service c now gIdx (pre ++ p :: post) s).sameOutput
        (matchesWorker service c now gIdx (pre ++ post) s)) ∧
    (elosFailsEarly service c now (elosWorker service c now pre s).state p = true →
      ((elosPlayer service c now (elosWorker service c now pre s).state p).state
          = (elosWorker service c now pre s).state ∧
        (elosPlayer service c now (elosWorker service c now pre s).state p).panicked = false ∧
        outputs (elosPlayer service c now (elosWorker service c now pre s).state p).trace = []) ∧
      (elosWorker service c now (pre ++ p :: post) s).sameOutput
        (elosWorker service c now (pre ++ post) s)) ∧
    (timelinesFailsEarly service c (timelinesWorker service c now gIdx pre s).state p = true →
      (∀ g t i,
        (timelinesPlayer service c now g t i
          (timelinesWorker service c now gIdx pre s).state p).state
          = (timelinesWorker service c now gIdx pre s).state ∧
        (timelinesPlayer service c now g t i
          (timelinesWorker service c now gIdx pre s).state p).panicked = false ∧
        outputs (timelinesPlayer service c now g t i
          (timelinesWorker service c now gIdx pre s).state p).trace = []) ∧
      (timelinesWorker service c now gIdx (pre ++ p :: post) s).sameOutput
        (timelinesWorker service c now gIdx (pre ++ post) s)) ∧
    ((splitHash p).length ≠ 2 →
      (∀ st, matchesFailsEarly service c st p = true ∧ elosFailsEarly service c now st p = true ∧
        timelinesFailsEarly service c st p = true) ∧
      outputs (accountsWorker service (pre ++ p :: post))
        = outputs (accountsWorker service (pre ++ post))) := by
  refine ⟨?_, ?_, ?_, ?_⟩
  · intro hfail
    have hobs := matchesObs_fails service c now _ p hfail
    refine ⟨fun g t i => ?_, ?_⟩
    · have := matchesPlayer_obs service c now g t i (matchesWorker service c now gIdx pre s).state p
      rw [hobs] at this
      simp only [Prod.mk.injEq] at this
      exact this
    exact playerLoop_isolated_obs (matchesObs service c now) _ _ _
      (fun i s p => matchesPlayer_obs service c now gIdx _ i s p)
      (fun i s p => matchesPlayer_obs service c now gIdx _ i s p)
      (fun i s p => matchesPlayer_obs service c now gIdx _ i s p) pre post p s hobs
  · intro hfail
    have hobs := elosObs_fails service c now _ p hfail
    refine ⟨?_, ?_⟩
    · have := elosPlayer_obs service c now (elosWorker service c now pre s).state p
      rw [hobs] at this
      simp only [Prod.mk.injEq] at this
      exact this
    · exact playerLoop_isolated_obs (elosObs service c now) _ _ _
        (fun _ s p => elosPlayer_obs service c now s p)
        (fun _ s p => elosPlayer_obs service c now s p)
        (fun _ s p => elosPlayer_obs service c now s p) pre post p s hobs
  · intro hfail
    have hobs := timelinesObs_fails service c now _ p hfail
    refine ⟨fun g t i => ?_, ?_⟩
    · have := timelinesPlayer_obs service c now g t i
        (timelinesWorker service c now gIdx pre s).state p
      rw [hobs] at this
      simp only [Prod.mk.injEq] at this
      exact this
    exact playerLoop_isolated_obs (timelinesObs service c now) _ _ _
      (fun i s p => timelinesPlayer_obs service c now gIdx _ i s p)
      (fun i s p => timelinesPlayer_obs service c now gIdx _ i s p)
      (fun i s p => timelinesPlayer_obs service c now gIdx _ i s p) pre post p s hobs
  · intro hmal
    refine ⟨fun st => ⟨?_, ?_, ?_⟩, ?_⟩
    · unfold matchesFailsEarly
      split
      · rfl
      · next t _ =>
        obtain ⟨e, he⟩ := (malformed_identity_fails service now p t c.QueueId hmal).2.1
        simp only [he]
    · unfold elosFailsEarly
      split
      · rfl
      · obtain ⟨e, he⟩ := (malformed_identity_fails service now p now c.QueueId hmal).2.2
        simp only [he]
    · unfold timelinesFailsEarly
      split
      · rfl
      · next t _ =>
        obtain ⟨e, he⟩ := (malformed_identity_fails service now p t c.QueueId hmal).2.1
        simp only [he]
    · obtain ⟨e, he⟩ := (malformed_identity_fails service now p now c.QueueId hmal).1
      simp only [accountsWorker_outputs, accountRecords, List.filterMap_append,
        List.filterMap_cons, he]

set_option maxRecDepth 100000 in
theorem failing_identity_is_isolated_witness :
    matchesFailsEarly demoService demoConfig
      (matchesWorker demoService demoConfig demoNow 0 ["Chovy#KR1"] ⟨some []⟩).state "NoHashtag"
      = true ∧
    outputs (matchesPlayer demoService demoConfig demoNow 0 3 1
      (matchesWorker demoService demoConfig demoNow 0 ["Chovy#KR1"] ⟨some []⟩).state
      "NoHashtag").trace = [] ∧
    (matchesWorker demoService demoConfig demoNow 0 (["Chovy#KR1"] ++ "NoHashtag" :: ["Faker#KR1"])
        ⟨some []⟩).state
      = ⟨some [("matches", some [("Chovy#KR1", "2024-03-05"), ("Faker#KR1", "2024-03-05")])]⟩ ∧
    (matchesWorker demoService demoConfig demoNow 0 (["Chovy#KR1"] ++ "NoHashtag" :: ["Faker#KR1"])
        ⟨some []⟩).sameOutput
      (matchesWorker demoService demoConfig demoNow 0 (["Chovy#KR1"] ++ ["Faker#KR1"]) ⟨some []⟩) :=
  ⟨by decide, by decide, by decide,
    ((failing_identity_is_isolated demoService demoConfig demoNow 0 ["Chovy#KR1"] ["Faker#KR1"]
      "NoHashtag" ⟨some []⟩).1 (by decide)).2⟩

/-! ## `STATE` messages and completed identities -/

theorem stateCount_append (a b : List Event) :
    stateCount (a ++ b) = stateCount a + stateCount b := by
  simp [stateCount]

theorem stateCount_outputs (tr : List Event) : stateCount (outputs tr) = stateCount tr := by
  unfold stateCount outputs
  congr 1
  rw [List.filter_filter]
  congr 1
  funext e
  cases e <;> rfl

theorem stateCount_records (l : List Event) (h : ∀ e ∈ l, e.isRecord = true) :
    stateCount l = 0 := by
  unfold stateCount
  rw [List.length_eq_zero, List.filter_eq_nil_iff]
  intro e he
  have := h e he
  cases e <;> simp_all [Event.isRecord, Event.isState]

theorem matchRecords_stateCount (service : RiotService) (ids : List String) :
    stateCount (matchRecords service ids) = 0 := by
  apply stateCount_records
  intro e he
  simp only [matchRecords, List.mem_filterMap] at he
  obtain ⟨id, _, hid⟩ := he
  split at hid
  · injection hid with hid; rw [← hid]; rfl
  · exact Option.noConfusion hid

theorem timelineRecords_stateCount (service : RiotService) (ids : List String) :
    stateCount (timelineRecords service ids) = 0 := by
  apply stateCount_records
  intro e he
  simp only [timelineRecords, List.mem_filterMap] at he
  obtain ⟨id, _, hid⟩ := he
  split at hid
  · injection hid with hid; rw [← hid]; rfl
  · exact Option.noConfusion hid

theorem accountRecords_stateCount (service : RiotService) (players : List String) :
    stateCount (accountRecords service players) = 0 := by
  apply stateCount_records
  intro e he
  simp only [accountRecords, List.mem_filterMap] at he
  obtain ⟨id, _, hid⟩ := he
  split at hid
  · injection hid with hid; rw [← hid]; rfl
  · exact Option.noConfusion hid

/-- In a loop whose iterations have the shape `StepShape`, the number of
`STATE` messages is the number of identities that complete. -/
theorem playerLoop_stateCount (stream : String) (now : Time)
    (body : Nat → State → String → Run) (obs : State → String → State × Bool × List Event)
    (comp : State → String → Bool) (hshape : StepShape stream now body comp)
    (hobs : ∀ i s p, ((body i s p).state, (body i s p).panicked, outputs (body i s p).trace)
      = obs s p) (l : List String) :
    ∀ i s, stateCount (playerLoop body i l s).trace = completions obs comp l s := by
  induction l with
  | nil => intro i s; rfl
  | cons p l ih =>
    intro i s
    have ho := hobs i s p
    have hst : (obs s p).1 = (body i s p).state := by rw [← ho]
    have hpn : (obs s p).2.1 = (body i s p).panicked := by rw [← ho]
    simp only [playerLoop, completions, hst, hpn]
    cases hc : comp s p with
    | true =>
      obtain ⟨seg, v, hb, hseg, _⟩ := (hshape i s p).1 hc
      rw [hb]
      have h1 : stateCount [Event.state v] = 1 := rfl
      simp only [Run.seq, Bool.false_eq_true, if_false, if_true, stateCount_append, hseg, h1, ih]
    | false =>
      have h0 := (hshape i s p).2 hc
      cases hp : (body i s p).panicked with
      | true => simp [Run.seq, hp, h0]
      | false => simp [Run.seq, hp, h0, stateCount_append, ih]

/-- In a loop whose iterations have the shape `StepShape`, an identity that
completes is followed by its `STATE` message before anything of the next
identity. -/
theorem playerLoop_order (stream : String) (now : Time)
    (body0 body1 body2 : Nat → State → String → Run)
    (obs : State → String → State × Bool × List Event) (comp : State → String → Bool)
    (hshape : StepShape stream now body1 comp)
    (h0 : ∀ i s p, ((body0 i s p).state, (body0 i s p).panicked, outputs (body0 i s p).trace)
      = obs s p)
    (h1 : ∀ i s p, ((body1 i s p).state, (body1 i s p).panicked, outputs (body1 i s p).trace)
      = obs s p)
    (h2 : ∀ i s p, ((body2 i s p).state, (body2 i s p).panicked, outputs (body2 i s p).trace)
      = obs s p)
    (pre rest : List String) (p : String) (s : State)
    (hnp : (playerLoop body0 0 pre s).panicked = false)
    (hc : comp (playerLoop body0 0 pre s).state p = true) :
    ∃ (before seg : List Event) (v : StateValue) (tail : Run),
      (playerLoop body1 0 (pre ++ p :: rest) s).trace = before ++ seg ++ .state v :: tail.trace ∧
      outputs before = outputs (playerLoop body0 0 pre s).trace ∧
      stateCount seg = 0 ∧ lookupWatermark v stream p = some (today now) ∧
      tail.sameOutput (playerLoop body2 0 rest ⟨v⟩) := by
  obtain ⟨hst, hpn, hout⟩ :=
    playerLoop_congr body0 body1 (fun i j s p => sameOutput_of_obs (h0 i s p) (h1 j s p)) pre 0 0 s
  rw [hst] at hc
  rw [hpn] at hnp
  obtain ⟨seg, v, hb, hseg, hw⟩ := (hshape (0 + pre.length) _ p).1 hc
  refine ⟨(playerLoop body1 0 pre s).trace, seg, v,
    playerLoop body1 (0 + pre.length + 1) rest ⟨v⟩, ?_, hout.symm, hseg, hw, ?_⟩
  · rw [playerLoop_append]
    simp only [Run.seq, hnp, playerLoop, hb, Bool.false_eq_true, if_false]
    simp
  · exact playerLoop_congr body1 body2 (fun i j s p => sameOutput_of_obs (h1 i s p) (h2 j s p))
      rest _ _ _

theorem matches_shape (service : RiotService) (c : Config) (now : Time) (gIdx total : Nat) :
    StepShape Matches now (fun i st p => matchesPlayer service c now gIdx total i st p)
      (matchesCompletes service c) := by
  intro i s p
  have hobs := matchesPlayer_obs service c now gIdx total i s p
  have hcount : stateCount (matchesPlayer service c now gIdx total i s p).trace
      = stateCount (matchesObs service c now s p).2.2 := by
    rw [← hobs, stateCount_outputs]
  obtain ⟨val⟩ := s
  cases hparse : startDateAsTime ((lookupWatermark val Matches p).getD c.StartDate) with
  | none =>
    refine ⟨fun hc => ?_, fun _ => ?_⟩
    · simp [matchesCompletes, matchesFailsEarly, hparse] at hc
    · rw [hcount]; simp only [matchesObs, hparse]; rfl
  | some t =>
    rcases hg : getMatchIdsByPlayer service p t c.QueueId with ⟨res, ev⟩
    cases res with
    | error e =>
      refine ⟨fun hc => ?_, fun _ => ?_⟩
      · simp [matchesCompletes, matchesFailsEarly, hparse, hg] at hc
      · rw [hcount]; simp only [matchesObs, hparse, hg]; rfl
    | ok ids =>
      cases val with
      | none =>
        refine ⟨fun hc => ?_, fun _ => ?_⟩
        · simp [matchesCompletes] at hc
        · rw [hcount]
          simp only [matchesObs, hparse, hg, advanceWatermark_nil]
          exact matchRecords_stateCount service ids
      | some l =>
        obtain ⟨l2, hadv, hlook, _⟩ := advanceWatermark_some l Matches p (today now)
        refine ⟨fun _ => ?_, fun hc => ?_⟩
        · have hex : ∃ seg, matchesPlayer service c now gIdx total i ⟨some l⟩ p
              = ⟨⟨some l2⟩, seg ++ [.state (some l2)], false⟩ := by
            simp only [matchesPlayer, hparse, hg, hadv]
            exact ⟨_, rfl⟩
          obtain ⟨seg, hseg⟩ := hex
          refine ⟨seg, some l2, hseg, ?_, hlook⟩
          have h1 := hcount
          have h2 : stateCount [Event.state (some l2)] = 1 := rfl
          rw [hseg] at h1
          simp only [matchesObs, hparse, hg, hadv, stateCount_append, matchRecords_stateCount, h2] at h1
          omega
        · simp [matchesCompletes, matchesFailsEarly, hparse, hg] at hc

theorem timelines_shape (service : RiotService) (c : Config) (now : Time) (gIdx total : Nat) :
    StepShape MatchTimelines now (fun i st p => timelinesPlayer service c now gIdx total i st p)
      (timelinesCompletes service c) := by
  intro i s p
  have hobs := timelinesPlayer_obs service c now gIdx total i s p
  have hcount : stateCount (timelinesPlayer service c now gIdx total i s p).trace
      = stateCount (timelinesObs service c now s p).2.2 := by
    rw [← hobs, stateCount_outputs]
  obtain ⟨val⟩ := s
  cases hparse : startDateAsTime ((lookupWatermark val MatchTimelines p).getD c.StartDate) with
  | none =>
    refine ⟨fun hc => ?_, fun _ => ?_⟩
    · simp [timelinesCompletes, timelinesFailsEarly, hparse] at hc
    · rw [hcount]; simp only [timelinesObs, hparse]; rfl
  | some t =>
    rcases hg : getMatchIdsByPlayer service p t c.QueueId with ⟨res, ev⟩
    cases res with
    | error e =>
      refine ⟨fun hc => ?_, fun _ => ?_⟩
      · simp [timelinesCompletes, timelinesFailsEarly, hparse, hg] at hc
      · rw [hcount]; simp only [timelinesObs, hparse, hg]; rfl
    | ok ids =>
      cases val with
      | none =>
        refine ⟨fun hc => ?_, fun _ => ?_⟩
        · simp [timelinesCompletes] at hc
        · rw [hcount]
          simp only [timelinesObs, hparse, hg, advanceWatermark_nil]
          exact timelineRecords_stateCount service ids
      | some l =>
        obtain ⟨l2, hadv, hlook, _⟩ := advanceWatermark_some l MatchTimelines p (today now)
        refine ⟨fun _ => ?_, fun hc => ?_⟩
        · have hex : ∃ seg, timelinesPlayer service c now gIdx total i ⟨some l⟩ p
              = ⟨⟨some l2⟩, seg ++ [.state (some l2)], false⟩ := by
            simp only [timelinesPlayer, hparse, hg, hadv]
            exact ⟨_, rfl⟩
          obtain ⟨seg, hseg⟩ := hex
          refine ⟨seg, some l2, hseg, ?_, hlook⟩
          have h1 := hcount
          have h2 : stateCount [Event.state (some l2)] = 1 := rfl
          rw [hseg] at h1
          simp only [timelinesObs, hparse, hg, hadv, stateCount_append, timelineRecords_stateCount, h2] at h1
          omega
        · simp [timelinesCompletes, timelinesFailsEarly, hparse, hg] at hc

theorem elos_shape (service : RiotService) (c : Config) (now : Time) :
    StepShape Elos now (fun _ st p => elosPlayer service c now st p)
      (elosCompletes service c now) := by
  intro i s p
  have hobs := elosPlayer_obs service c now s p
  have hcount : stateCount (elosPlayer service c now s p).trace
      = stateCount (elosObs service c now s p).2.2 := by
    rw [← hobs, stateCount_outputs]
  obtain ⟨val⟩ := s
  cases hparse : startDateAsTime ((lookupWatermark val Elos p).getD c.StartDate) with
  | none =>
    refine ⟨fun hc => ?_, fun _ => ?_⟩
    · simp [elosCompletes, hparse] at hc
    · rw [hcount]; simp only [elosObs, hparse]; rfl
  | some t =>
    by_cases htoday : isToday now t = true
    · refine ⟨fun hc => ?_, fun _ => ?_⟩
      · simp [elosCompletes, hparse, htoday] at hc
      · rw [hcount]; simp only [elosObs, hparse, htoday, if_true]; rfl
    · rcases hg : getElo service now p with ⟨res, ev⟩
      cases res with
      | error e =>
        refine ⟨fun hc => ?_, fun _ => ?_⟩
        · simp [elosCompletes, hparse, hg] at hc
        · rw [hcount]
          simp only [elosObs, hparse, htoday, if_false, Bool.false_eq_true, hg]; rfl
      | ok elo =>
        cases val with
        | none =>
          refine ⟨fun hc => ?_, fun _ => ?_⟩
          · simp [elosCompletes, hparse] at hc
          · rw [hcount]
            simp only [elosObs, hparse, htoday, if_false, Bool.false_eq_true, hg,
              advanceWatermark_nil]
            rfl
        | some l =>
          obtain ⟨l2, hadv, hlook, _⟩ := advanceWatermark_some l Elos p (today now)
          refine ⟨fun _ => ?_, fun hc => ?_⟩
          · refine ⟨ev ++ [.record Elos (.elo elo)], some l2, ?_, ?_, hlook⟩
            · simp only [elosPlayer, hparse, htoday, if_false, Bool.false_eq_true, hg, hadv]
              simp
            · have h1 := hcount
              simp only [elosPlayer, elosObs, hparse, htoday, if_false, Bool.false_eq_true, hg,
                hadv, stateCount_append] at h1
              have h2 : stateCount [Event.record Elos (.elo elo), Event.state (some l2)] = 1 := rfl
              have h3 : stateCount [Event.record Elos (.elo elo)] = 0 := rfl
              rw [stateCount_append, h3]
              omega
          · simp [elosCompletes, hparse, htoday, hg] at hc

theorem runWorkers_accounts (groups : List PlayerGroup) :
    ∀ i s, ∃ tr, runWorkers (fun _ g st => ⟨st, accountsWorker g.Service g.Players, false⟩)
        i groups s = ⟨s, tr, false⟩ ∧ stateCount tr = 0 := by
  induction groups with
  | nil => intro i s; exact ⟨[], rfl, rfl⟩
  | cons g gs ih =>
    intro i s
    obtain ⟨tr, htr, h0⟩ := ih (i + 1) s
    by_cases hg : g.Players.length = 0
    · exact ⟨tr, by simp only [runWorkers, hg, if_true, htr], h0⟩
    · refine ⟨accountsWorker g.Service g.Players ++ tr, ?_, ?_⟩
      · simp only [runWorkers, hg, if_false, Run.seq, Bool.false_eq_true, htr]
      · rw [stateCount_append, h0, ← stateCount_outputs, accountsWorker_outputs,
          accountRecords_stateCount]

/-- **C10, as the code has it.** In the matches, ranking and timelines
workers, the number of `STATE` messages a worker writes is the number of its
identities that reach the watermark advance without a panic; and each such
identity, wherever it stands in its shard, ends on one `STATE` message, which
carries its watermark at today's date and precedes everything of the
identities after it. The accounts pipeline writes no `STATE` inside its
workers: its one `STATE` message is the last thing it does, after all of
them. -/
theorem state_follows_each_completed_identity (service : RiotService) (c : Config) (now : Time)
    (gIdx : Nat) (pre rest : List String) (p : String) (s : State) :
    ((∀ players, stateCount (matchesWorker service c now gIdx players s).trace
        = completions (matchesObs service c now) (matchesCompletes service c) players s) ∧
      ((matchesWorker service c now gIdx pre s).panicked = false →
        matchesCompletes service c (matchesWorker service c now gIdx pre s).state p = true →
        ∃ (before seg : List Event) (v : StateValue) (tail : Run),
          (matchesWorker service c now gIdx (pre ++ p :: rest) s).trace
            = before ++ seg ++ .state v :: tail.trace ∧
          outputs before = outputs (matchesWorker service c now gIdx pre s).trace ∧
          stateCount seg = 0 ∧ lookupWatermark v Matches p = some (today now) ∧
          tail.sameOutput (matchesWorker service c now gIdx rest ⟨v⟩))) ∧
    ((∀ players, stateCount (elosWorker service c now players s).trace
        = completions (elosObs service c now) (elosCompletes service c now) players s) ∧
      ((elosWorker service c now pre s).panicked = false →
        elosCompletes service c now (elosWorker service c now pre s).state p = true →
        ∃ (before seg : List Event) (v : StateValue) (tail : Run),
          (elosWorker service c now (pre ++ p :: rest) s).trace
            = before ++ seg ++ .state v :: tail.trace ∧
          outputs before = outputs (elosWorker service c now pre s).trace ∧
          stateCount seg = 0 ∧ lookupWatermark v Elos p = some (today now) ∧
          tail.sameOutput (elosWorker service c now rest ⟨v⟩))) ∧
    ((∀ players, stateCount (timelinesWorker service c now gIdx players s).trace
        = completions (timelinesObs service c now) (timelinesCompletes service c) players s) ∧
      ((timelinesWorker service c now gIdx pre s).panicked = false →
        timelinesCompletes service c (timelinesWorker service c now gIdx pre s).state p = true →
        ∃ (before seg : List Event) (v : StateValue) (tail : Run),
          (timelinesWorker service c now gIdx (pre ++ p :: rest) s).trace
            = before ++ seg ++ .state v :: tail.trace ∧
          outputs before = outputs (timelinesWorker service c now gIdx pre s).trace ∧
          stateCount seg = 0 ∧ lookupWatermark v MatchTimelines p = some (today now) ∧
          tail.sameOutput (timelinesWorker service c now gIdx rest ⟨v⟩))) ∧
    (∀ groups, ∃ tr, (syncAccountsConcurrent groups s).trace = tr ++ [.state s.Value] ∧
      stateCount tr = 0) := by
  refine ⟨⟨?_, ?_⟩, ⟨?_, ?_⟩, ⟨?_, ?_⟩, ?_⟩
  · intro players
    exact playerLoop_stateCount Matches now _ _ _ (matches_shape service c now gIdx _)
      (fun i s p => matchesPlayer_obs service c now gIdx _ i s p) players 0 s
  · intro hnp hc
    exact playerLoop_order Matches now _ _ _ (matchesObs service c now) _
      (matches_shape service c now gIdx _)
      (fun i s p => matchesPlayer_obs service c now gIdx _ i s p)
      (fun i s p => matchesPlayer_obs service c now gIdx _ i s p)
      (fun i s p => matchesPlayer_obs service c now gIdx _ i s p) pre rest p s hnp hc
  · intro players
    exact playerLoop_stateCount Elos now _ _ _ (elos_shape service c now)
      (fun _ s p => elosPlayer_obs service c now s p) players 0 s
  · intro hnp hc
    exact playerLoop_order Elos now _ _ _ (elosObs service c now) _
      (elos_shape service c now)
      (fun _ s p => elosPlayer_obs service c now s p)
      (fun _ s p => elosPlayer_obs service c now s p)
      (fun _ s p => elosPlayer_obs service c now s p) pre rest p s hnp hc
  · intro players
    exact playerLoop_stateCount MatchTimelines now _ _ _ (timelines_shape service c now gIdx _)
      (fun i s p => timelinesPlayer_obs service c now gIdx _ i s p) players 0 s
  · intro hnp hc
    exact playerLoop_order MatchTimelines now _ _ _ (timelinesObs service c now) _
      (timelines_shape service c now gIdx _)
      (fun i s p => timelinesPlayer_obs service c now gIdx _ i s p)
      (fun i s p => timelinesPlayer_obs service c now gIdx _ i s p)
      (fun i s p => timelinesPlayer_obs service c now gIdx _ i s p) pre rest p s hnp hc
  · intro groups
    obtain ⟨tr, htr, h0⟩ := runWorkers_accounts groups 0 s
    refine ⟨.schema Accounts ["puuid"] :: tr, ?_, ?_⟩
    · simp [syncAccountsConcurrent, Run.seq, htr]
    · have : stateCount (Event.schema Accounts ["puuid"] :: tr)
          = stateCount [Event.schema Accounts ["puuid"]] + stateCount tr :=
        stateCount_append [_] tr
      rw [this, h0]
      rfl

set_option maxRecDepth 100000 in
theorem state_follows_each_completed_identity_witness :
    (matchesWorker demoService demoConfig demoNow 0 ["Chovy#KR1"] ⟨some []⟩).panicked = false ∧
    matchesCompletes demoService demoConfig
      (matchesWorker demoService demoConfig demoNow 0 ["Chovy#KR1"] ⟨some []⟩).state "Faker#KR1"
      = true ∧
    stateCount (matchesWorker demoService demoConfig demoNow 0
      ["Chovy#KR1", "Faker#KR1", "NoHashtag"] ⟨some []⟩).trace = 2 ∧
    ∃ (before seg : List Event) (v : StateValue) (tail : Run),
      (matchesWorker demoService demoConfig demoNow 0 (["Chovy#KR1"] ++ "Faker#KR1" :: ["NoHashtag"])
          ⟨some []⟩).trace
        = before ++ seg ++ .state v :: tail.trace ∧
      outputs before
        = outputs (matchesWorker demoService demoConfig demoNow 0 ["Chovy#KR1"] ⟨some []⟩).trace ∧
      stateCount seg = 0 ∧ lookupWatermark v Matches "Faker#KR1" = some (today demoNow) ∧
      tail.sameOutput (matchesWorker demoService demoConfig demoNow 0 ["NoHashtag"] ⟨v⟩) :=
  ⟨by decide, by decide, by decide,
    (state_follows_each_completed_identity demoService demoConfig demoNow 0 ["Chovy#KR1"]
      ["NoHashtag"] "Faker#KR1" ⟨some []⟩).1.2 (by decide) (by decide)⟩

/-- **C10, as stated, fails on the accounts pipeline.** One shard with the
identities `Faker#KR1` and `Chovy#KR1`, both resolved: the record of the
first is followed by the lookup of the second with no `STATE` in between,
and the run writes one `STATE` message for two completed identities. -/
theorem accounts_state_only_at_end :
    (syncAccountsConcurrent [⟨["Faker#KR1", "Chovy#KR1"], demoService⟩] ⟨some []⟩).trace
      = [.schema "accounts" ["puuid"],
         .call (.GetByRiotID "Faker" "KR1"), .sleep 1400000000,
         .record "accounts" (.account ⟨"puuid-Faker", "Faker", "KR1"⟩),
         .call (.GetByRiotID "Chovy" "KR1"), .sleep 1400000000,
         .record "accounts" (.account ⟨"puuid-Chovy", "Chovy", "KR1"⟩),
         .state (some [])] ∧
    ((syncAccountsConcurrent [⟨["Faker#KR1", "Chovy#KR1"], demoService⟩] ⟨some []⟩).trace.filter
      Event.isRecord).length = 2 ∧
    ¬ (2 ≤ stateCount
      (syncAccountsConcurrent [⟨["Faker#KR1", "Chovy#KR1"], demoService⟩] ⟨some []⟩).trace) := by
  decide

/-! ## The watermark advance -/

/-- A pair that has a watermark has a non-nil per-stream map. -/
theorem stream_map_of_lookup (v : StateValue) (stream player date : String)
    (h : lookupWatermark v stream player = some date) :
    ∃ m, GoMap.get v stream = some (some m) := by
  unfold lookupWatermark at h
  cases hg : GoMap.get v stream with
  | none => rw [hg] at h; exact Option.noConfusion h
  | some inner =>
    cases inner with
    | none => rw [hg] at h; exact Option.noConfusion h
    | some m => exact ⟨m, rfl⟩

/-- The state an identity of the matches worker leaves when it completes is
the result of the watermark advance. -/
theorem matchesPlayer_advances (service : RiotService) (c : Config) (now : Time)
    (gIdx total i : Nat) (value : StateValue) (p : String)
    (hc : matchesCompletes service c ⟨value⟩ p = true) :
    advanceWatermark value Matches p (today now)
      = some (matchesPlayer service c now gIdx total i ⟨value⟩ p).state.Value := by
  cases hparse : startDateAsTime ((lookupWatermark value Matches p).getD c.StartDate) with
  | none => simp [matchesCompletes, matchesFailsEarly, hparse] at hc
  | some t =>
    rcases hg : getMatchIdsByPlayer service p t c.QueueId with ⟨res, ev⟩
    cases res with
    | error e => simp [matchesCompletes, matchesFailsEarly, hparse, hg] at hc
    | ok ids =>
      cases value with
      | none => simp [matchesCompletes] at hc
      | some l =>
        obtain ⟨l2, hadv, _, _⟩ := advanceWatermark_some l Matches p (today now)
        simp only [matchesPlayer, hparse, hg, hadv]

/-- The same for the timelines worker. -/
theorem timelinesPlayer_advances (service : RiotService) (c : Config) (now : Time)
    (gIdx total i : Nat) (value : StateValue) (p : String)
    (hc : timelinesCompletes service c ⟨value⟩ p = true) :
    advanceWatermark value MatchTimelines p (today now)
      = some (timelinesPlayer service c now gIdx total i ⟨value⟩ p).state.Value := by
  cases hparse : startDateAsTime ((lookupWatermark value MatchTimelines p).getD c.StartDate) with
  | none => simp [timelinesCompletes, timelinesFailsEarly, hparse] at hc
  | some t =>
    rcases hg : getMatchIdsByPlayer service p t c.QueueId with ⟨res, ev⟩
    cases res with
    | error e => simp [timelinesCompletes, timelinesFailsEarly, hparse, hg] at hc
    | ok ids =>
      cases value with
      | none => simp [timelinesCompletes] at hc
      | some l =>
        obtain ⟨l2, hadv, _, _⟩ := advanceWatermark_some l MatchTimelines p (today now)
        simp only [timelinesPlayer, hparse, hg, hadv]

/-- The same for the ranking worker. -/
theorem elosPlayer_advances (service : RiotService) (c : Config) (now : Time)
    (value : StateValue) (p : String)
    (hc : elosCompletes service c now ⟨value⟩ p = true) :
    advanceWatermark value Elos p (today now)
      = some (elosPlayer service c now ⟨value⟩ p).state.Value := by
  cases hparse : startDateAsTime ((lookupWatermark value Elos p).getD c.StartDate) with
  | none => simp [elosCompletes, hparse] at hc
  | some t =>
    by_cases htoday : isToday now t = true
    · simp [elosCompletes, hparse, htoday] at hc
    · rcases hg : getElo service now p with ⟨res, ev⟩
      cases res with
      | error e => simp [elosCompletes, hparse, hg] at hc
      | ok elo =>
        cases value with
        | none => simp [elosCompletes, hparse] at hc
        | some l =>
          obtain ⟨l2, hadv, _, _⟩ := advanceWatermark_some l Elos p (today now)
          simp only [elosPlayer, hparse, htoday, if_false, Bool.false_eq_true, hg, hadv]

/-- **C14.** On a state whose top-level map is non-nil, for each of the
streams elos, matches and match_timelines and every identity, the watermark
advance succeeds (no panic) and leaves a non-nil top-level map in which the
per-stream map exists (it is created when the state had none), the lookup of
the pair returns today's date, and the lookup of every other pair is what it
was. The advance is the one the workers perform: the state an identity
leaves when it completes is the result of this advance. -/
theorem watermark_advance_on_non_nil_state (value : StateValue) (stream player : String)
    (now : Time) (hnn : value ≠ none)
    (_hstream : stream = Elos ∨ stream = Matches ∨ stream = MatchTimelines) :
    (∃ v2, advanceWatermark value stream player (today now) = some v2 ∧ v2 ≠ none ∧
      (∃ m, GoMap.get v2 stream = some (some m)) ∧
      lookupWatermark v2 stream player = some (today now) ∧
      ∀ st pl, (st ≠ stream ∨ pl ≠ player) →
        lookupWatermark v2 st pl = lookupWatermark value st pl) ∧
    (∀ service c gIdx total i, matchesCompletes service c ⟨value⟩ player = true →
      advanceWatermark value Matches player (today now)
        = some (matchesPlayer service c now gIdx total i ⟨value⟩ player).state.Value) ∧
    (∀ service c, elosCompletes service c now ⟨value⟩ player = true →
      advanceWatermark value Elos player (today now)
        = some (elosPlayer service c now ⟨value⟩ player).state.Value) ∧
    (∀ service c gIdx total i, timelinesCompletes service c ⟨value⟩ player = true →
      advanceWatermark value MatchTimelines player (today now)
        = some (timelinesPlayer service c now gIdx total i ⟨value⟩ player).state.Value) := by
  refine ⟨?_, fun service c gIdx total i hc => matchesPlayer_advances service c now gIdx total i
    value player hc, fun service c hc => elosPlayer_advances service c now value player hc,
    fun service c gIdx total i hc => timelinesPlayer_advances service c now gIdx total i
    value player hc⟩
  cases value with
  | none => exact absurd rfl hnn
  | some l =>
    obtain ⟨l2, hadv, hlook, hframe⟩ := advanceWatermark_some l stream player (today now)
    exact ⟨some l2, hadv, by simp, stream_map_of_lookup _ _ _ _ hlook, hlook, hframe⟩

theorem watermark_advance_on_non_nil_state_witness :
    advanceWatermark (some [("elos", some [("Faker#KR1", "2024-03-04")])]) Matches "Faker#KR1"
        (today demoNow)
      = some (some [("elos", some [("Faker#KR1", "2024-03-04")]),
                    ("matches", some [("Faker#KR1", "2024-03-05")])]) ∧
    ((∃ v2, advanceWatermark (some [("elos", some [("Faker#KR1", "2024-03-04")])]) Matches
        "Faker#KR1" (today demoNow) = some v2 ∧ v2 ≠ none ∧
      (∃ m, GoMap.get v2 Matches = some (some m)) ∧
      lookupWatermark v2 Matches "Faker#KR1" = some (today demoNow) ∧
      ∀ st pl, (st ≠ Matches ∨ pl ≠ "Faker#KR1") →
        lookupWatermark v2 st pl
          = lookupWatermark (some [("elos", some [("Faker#KR1", "2024-03-04")])]) st pl) ∧
    (∀ service c gIdx total i,
      matchesCompletes service c ⟨some [("elos", some [("Faker#KR1", "2024-03-04")])]⟩ "Faker#KR1"
        = true →
      advanceWatermark (some [("elos", some [("Faker#KR1", "2024-03-04")])]) Matches "Faker#KR1"
          (today demoNow)
        = some (matchesPlayer service c demoNow gIdx total i
            ⟨some [("elos", some [("Faker#KR1", "2024-03-04")])]⟩ "Faker#KR1").state.Value) ∧
    (∀ service c,
      elosCompletes service c demoNow ⟨some [("elos", some [("Faker#KR1", "2024-03-04")])]⟩
        "Faker#KR1" = true →
      advanceWatermark (some [("elos", some [("Faker#KR1", "2024-03-04")])]) Elos "Faker#KR1"
          (today demoNow)
        = some (elosPlayer service c demoNow
            ⟨some [("elos", some [("Faker#KR1", "2024-03-04")])]⟩ "Faker#KR1").state.Value) ∧
    (∀ service c gIdx total i,
      timelinesCompletes service c ⟨some [("elos", some [("Faker#KR1", "2024-03-04")])]⟩
        "Faker#KR1" = true →
      advanceWatermark (some [("elos", some [("Faker#KR1", "2024-03-04")])]) MatchTimelines
          "Faker#KR1" (today demoNow)
        = some (timelinesPlayer service c demoNow gIdx total i
            ⟨some [("elos", some [("Faker#KR1", "2024-03-04")])]⟩ "Faker#KR1").state.Value)) :=
  ⟨by rfl,
    watermark_advance_on_non_nil_state (some [("elos", some [("Faker#KR1", "2024-03-04")])])
      Matches "Faker#KR1" demoNow (by simp) (Or.inr (Or.inl rfl))⟩

/-! ## `SCHEMA` messages -/

theorem schemaStreams_append (a b : List Event) :
    schemaStreams (a ++ b) = schemaStreams a ++ schemaStreams b := by
  simp [schemaStreams]

theorem schemaStreams_lane (tr : List Event) (h : ∀ e ∈ tr, e.isLane = true) :
    schemaStreams tr = [] := by
  unfold schemaStreams
  rw [List.filterMap_eq_nil_iff]
  intro e he
  have := h e he
  cases e <;> simp_all [Event.isLane, Event.isCall, Event.isSleep]

theorem matchDetailsLoop_schema (service : RiotService) (player : String) (total : Nat)
    (ids : List String) :
    ∀ i, schemaStreams (matchDetailsLoop service player total i ids) = [] := by
  induction ids with
  | nil => intro i; rfl
  | cons id ids ih =>
    intro i
    have hl := schemaStreams_lane _ (getMatchDetails_lane service id)
    simp only [matchDetailsLoop, schemaStreams_append, ih]
    rcases hg : getMatchDetails service id with ⟨res, ev⟩
    rw [hg] at hl
    replace hl : schemaStreams ev = [] := hl
    cases res with
    | error e => simp [schemaStreams_append, hl]; simp [schemaStreams]
    | ok m =>
      by_cases h50 : (i + 1) % 50 = 0 <;>
        simp [schemaStreams_append, hl, h50] <;> simp [schemaStreams]

theorem matchTimelinesLoop_schema (service : RiotService) (player : String) (total : Nat)
    (ids : List String) :
    ∀ i, schemaStreams (matchTimelinesLoop service player total i ids) = [] := by
  induction ids with
  | nil => intro i; rfl
  | cons id ids ih =>
    intro i
    have hl := schemaStreams_lane _ (getMatchTimeline_lane service id)
    simp only [matchTimelinesLoop, schemaStreams_append, ih]
    rcases hg : getMatchTimeline service id with ⟨res, ev⟩
    rw [hg] at hl
    replace hl : schemaStreams ev = [] := hl
    cases res with
    | error e => simp [schemaStreams_append, hl]; simp [schemaStreams]
    | ok tl =>
      by_cases h50 : (i + 1) % 50 = 0 <;>
        simp [schemaStreams_append, hl, h50] <;> simp [schemaStreams]

theorem matchesPlayer_schema (service : RiotService) (c : Config) (now : Time)
    (gIdx total i : Nat) (s : State) (p : String) :
    schemaStreams (matchesPlayer service c now gIdx total i s p).trace = [] := by
  cases hparse : startDateAsTime ((lookupWatermark s.Value Matches p).getD c.StartDate) with
  | none =>
    simp only [matchesPlayer, hparse]
    simp [schemaStreams, startingLog]
  | some t =>
    have hl := schemaStreams_lane _ (getMatchIdsByPlayer_lane service p t c.QueueId)
    rcases hg : getMatchIdsByPlayer service p t c.QueueId with ⟨res, ev⟩
    rw [hg] at hl
    replace hl : schemaStreams ev = [] := hl
    cases res with
    | error e =>
      simp only [matchesPlayer, hparse, hg, schemaStreams_append, hl]
      simp [schemaStreams, startingLog]
    | ok ids =>
      cases hadv : advanceWatermark s.Value Matches p (today now) with
      | none =>
        simp only [matchesPlayer, hparse, hg, hadv, schemaStreams_append, hl,
          matchDetailsLoop_schema]
        simp [schemaStreams, startingLog]
      | some v =>
        simp only [matchesPlayer, hparse, hg, hadv, schemaStreams_append, hl,
          matchDetailsLoop_schema]
        simp [schemaStreams, startingLog]

theorem timelinesPlayer_schema (service : RiotService) (c : Config) (now : Time)
    (gIdx total i : Nat) (s : State) (p : String) :
    schemaStreams (timelinesPlayer service c now gIdx total i s p).trace = [] := by
  cases hparse : startDateAsTime ((lookupWatermark s.Value MatchTimelines p).getD c.StartDate) with
  | none =>
    simp only [timelinesPlayer, hparse]
    simp [schemaStreams, startingLog]
  | some t =>
    have hl := schemaStreams_lane _ (getMatchIdsByPlayer_lane service p t c.QueueId)
    rcases hg : getMatchIdsByPlayer service p t c.QueueId with ⟨res, ev⟩
    rw [hg] at hl
    replace hl : schemaStreams ev = [] := hl
    cases res with
    | error e =>
      simp only [timelinesPlayer, hparse, hg, schemaStreams_append, hl]
      simp [schemaStreams, startingLog]
    | ok ids =>
      cases hadv : advanceWatermark s.Value MatchTimelines p (today now) with
      | none =>
        simp only [timelinesPlayer, hparse, hg, hadv, schemaStreams_append, hl,
          matchTimelinesLoop_schema]
        simp [schemaStreams, startingLog]
      | some v =>
        simp only [timelinesPlayer, hparse, hg, hadv, schemaStreams_append, hl,
          matchTimelinesLoop_schema]
        simp [schemaStreams, startingLog]

theorem elosPlayer_schema (service : RiotService) (c : Config) (now : Time) (s : State)
    (p : String) : schemaStreams (elosPlayer service c now s p).trace = [] := by
  cases hparse : startDateAsTime ((lookupWatermark s.Value Elos p).getD c.StartDate) with
  | none =>
    simp only [elosPlayer, hparse]
    simp [schemaStreams]
  | some t =>
    by_cases htoday : isToday now t = true
    · simp only [elosPlayer, hparse, htoday, if_true]
      simp [schemaStreams]
    · have hl := schemaStreams_lane _ (getElo_lane service now p)
      rcases hg : getElo service now p with ⟨res, ev⟩
      rw [hg] at hl
      replace hl : schemaStreams ev = [] := hl
      cases res with
      | error e =>
        simp only [elosPlayer, hparse, htoday, if_false, Bool.false_eq_true, hg,
          schemaStreams_append, hl]
        simp [schemaStreams]
      | ok elo =>
        cases hadv : advanceWatermark s.Value Elos p (today now) with
        | none =>
          simp only [elosPlayer, hparse, htoday, if_false, Bool.false_eq_true, hg, hadv,
            schemaStreams_append, hl]
          simp [schemaStreams]
        | some v =>
          simp only [elosPlayer, hparse, htoday, if_false, Bool.false_eq_true, hg, hadv,
            schemaStreams_append, hl]
          simp [schemaStreams]

theorem accountsWorker_schema (service : RiotService) (players : List String) :
    schemaStreams (accountsWorker service players) = [] := by
  induction players with
  | nil => rfl
  | cons p ps ih =>
    have hl := schemaStreams_lane _ (getAccount_lane service p)
    simp only [accountsWorker, schemaStreams_append, ih]
    rcases hg : getAccount service p with ⟨res, ev⟩
    rw [hg] at hl
    replace hl : schemaStreams ev = [] := hl
    cases res with
    | error e => simp [schemaStreams_append, hl]; simp [schemaStreams]
    | ok acc => simp [schemaStreams_append, hl]; simp [schemaStreams]

theorem Run.seq_schema (a : Run) (f : State → Run) (h : ∀ s, schemaStreams (f s).trace = []) :
    schemaStreams (a.seq f).trace = schemaStreams a.trace := by
  unfold Run.seq
  split
  · rfl
  · simp [schemaStreams_append, h]

theorem playerLoop_schema (body : Nat → State → String → Run)
    (h : ∀ i s p, schemaStreams (body i s p).trace = []) (l : List String) :
    ∀ i s, schemaStreams (playerLoop body i l s).trace = [] := by
  induction l with
  | nil => intro i s; rfl
  | cons p l ih =>
    intro i s
    simp only [playerLoop]
    rw [Run.seq_schema _ _ (fun st => ih (i + 1) st), h]

theorem runWorkers_schema (worker : Nat → PlayerGroup → State → Run)
    (h : ∀ i g s, schemaStreams (worker i g s).trace = []) (groups : List PlayerGroup) :
    ∀ i s, schemaStreams (runWorkers worker i groups s).trace = [] := by
  induction groups with
  | nil => intro i s; rfl
  | cons g gs ih =>
    intro i s
    simp only [runWorkers]
    split
    · exact ih (i + 1) s
    · rw [Run.seq_schema _ _ (fun st => ih (i + 1) st), h]

theorem Run.seq_schema_then (s : State) (msg : String) (f : State → Run) :
    schemaStreams ((Run.mk s [.log msg] false).seq f).trace = schemaStreams (f s).trace := by
  simp [Run.seq, schemaStreams_append, schemaStreams]

theorem syncMatchesConcurrent_schema (groups : List PlayerGroup) (s : State) (c : Config)
    (now : Time) : schemaStreams (syncMatchesConcurrent groups s c now).trace = [Matches] := by
  unfold syncMatchesConcurrent
  rw [Run.seq_schema]
  · rfl
  · intro st
    exact runWorkers_schema _ (fun i g s0 => playerLoop_schema _
      (fun j s1 p => matchesPlayer_schema g.Service c now i _ j s1 p) _ 0 s0) groups 0 st

theorem syncMatchTimelinesConcurrent_schema (groups : List PlayerGroup) (s : State) (c : Config)
    (now : Time) :
    schemaStreams (syncMatchTimelinesConcurrent groups s c now).trace = [MatchTimelines] := by
  unfold syncMatchTimelinesConcurrent
  rw [Run.seq_schema]
  · rfl
  · intro st
    exact runWorkers_schema _ (fun i g s0 => playerLoop_schema _
      (fun j s1 p => timelinesPlayer_schema g.Service c now i _ j s1 p) _ 0 s0) groups 0 st

theorem syncElosConcurrent_schema (groups : List PlayerGroup) (s : State) (c : Config)
    (now : Time) : schemaStreams (syncElosConcurrent groups s c now).trace = [Elos] := by
  unfold syncElosConcurrent
  rw [Run.seq_schema]
  · rfl
  · intro st
    exact runWorkers_schema _ (fun _ g s0 => playerLoop_schema _
      (fun _ s1 p => elosPlayer_schema g.Service c now s1 p) _ 0 s0) groups 0 st

theorem syncAccountsConcurrent_schema (groups : List PlayerGroup) (s : State) :
    schemaStreams (syncAccountsConcurrent groups s).trace = [Accounts] := by
  unfold syncAccountsConcurrent
  rw [Run.seq_schema]
  · rfl
  · intro st
    have h1 := Run.seq_schema
      (runWorkers (fun _ g s0 => ⟨s0, accountsWorker g.Service g.Players, false⟩) 0 groups st)
      (fun s1 => ⟨s1, [Event.state s1.Value], false⟩) (fun _ => rfl)
    rw [h1]
    exact runWorkers_schema _ (fun _ g _ => accountsWorker_schema g.Service g.Players) groups 0 st

/-- Each case of the `switch` of `RunSync` writes the `SCHEMA` message of its
stream and no other. -/
theorem syncStream_schema (groups : List PlayerGroup) (c : Config) (now : Time)
    (stream : String) (s : State) (r : Run) (h : syncStream groups c now stream s = some r) :
    schemaStreams r.trace = [stream] ∧
      (stream = Matches ∨ stream = MatchTimelines ∨ stream = Elos ∨ stream = Accounts) := by
  unfold syncStream at h
  split at h
  · next hs =>
    injection h with h
    subst h
    refine ⟨?_, Or.inl hs⟩
    rw [Run.seq_schema_then, syncMatchesConcurrent_schema, hs]
  · split at h
    · next hs =>
      injection h with h
      subst h
      refine ⟨?_, Or.inr (Or.inl hs)⟩
      rw [Run.seq_schema_then, syncMatchTimelinesConcurrent_schema, hs]
    · split at h
      · next hs =>
        injection h with h
        subst h
        refine ⟨?_, Or.inr (Or.inr (Or.inl hs))⟩
        rw [Run.seq_schema_then, syncElosConcurrent_schema, hs]
      · split at h
        · next hs =>
          injection h with h
          subst h
          refine ⟨?_, Or.inr (Or.inr (Or.inr hs))⟩
          rw [Run.seq_schema_then, syncAccountsConcurrent_schema, hs]
        · exact Option.noConfusion h

/-! ## The selected streams -/

theorem map_const_filter {α β : Type} (p : α → Bool) (l : List α) (x : β) :
    (l.filter p).map (fun _ => x) = List.replicate (l.countP p) x := by
  induction l with
  | nil => rfl
  | cons a l ih =>
    by_cases h : p a = true
    · simp [List.filter_cons, List.countP_cons, h, ih, List.replicate_succ]
    · simp [List.filter_cons, List.countP_cons, h, ih]

theorem GetSelectedStreams_eq (catalog : Catalog) :
    GetSelectedStreams catalog =
      if (catalog.Streams.flatMap fun st => List.replicate (rootSelections st) st.Stream) = []
      then catalog.Streams.map fun st => st.Stream
      else catalog.Streams.flatMap fun st => List.replicate (rootSelections st) st.Stream := by
  simp only [GetSelectedStreams, map_const_filter, rootSelections, List.length_eq_zero]

theorem selections_nil_iff (streams : List Stream) :
    (streams.flatMap fun st => List.replicate (rootSelections st) st.Stream) = []
      ↔ ∀ st ∈ streams, rootSelections st = 0 := by
  simp [List.flatMap_eq_nil_iff, List.replicate_eq_nil_iff]

theorem selections_at_most_once (streams : List Stream)
    (h : ∀ st ∈ streams, rootSelections st ≤ 1) :
    (streams.flatMap fun st => List.replicate (rootSelections st) st.Stream)
      = (streams.filter fun st => decide (rootSelections st ≠ 0)).map fun st => st.Stream := by
  induction streams with
  | nil => rfl
  | cons st l ih =>
    have h1 := h st (by simp)
    have ih1 := ih (fun x hx => h x (by simp [hx]))
    rw [List.flatMap_cons, ih1]
    by_cases h0 : rootSelections st = 0
    · simp [List.filter_cons, h0]
    · have : rootSelections st = 1 := by omega
      simp [List.filter_cons, this]

/-- A run of `RunSync` over selected streams that returns no error and does
not panic has written the `SCHEMA` message of each selected stream, in the
order of the selection. -/
theorem runSelected_schema (groups : List PlayerGroup) (c : Config) (now : Time)
    (streams : List String) :
    ∀ s, (runSelected groups c now streams s).2 = none →
      (runSelected groups c now streams s).1.panicked = false →
      schemaStreams (runSelected groups c now streams s).1.trace = streams := by
  induction streams with
  | nil => intro s _ _; rfl
  | cons stream rest ih =>
    intro s herr hpan
    cases hs : syncStream groups c now stream s with
    | none =>
      simp only [runSelected, hs] at herr
      exact Option.noConfusion herr
    | some r =>
      obtain ⟨hsch, _⟩ := syncStream_schema groups c now stream s r hs
      cases hr : r.panicked with
      | true => simp [runSelected, hs, hr] at hpan
      | false =>
        simp only [runSelected, hs, hr, Bool.false_eq_true, if_false] at herr hpan ⊢
        rw [schemaStreams_append, hsch, ih r.state herr hpan]
        rfl

/-- The only error `RunSync` returns is the one of the `default` case: a
selected stream that is none of the four. -/
theorem runSelected_error (groups : List PlayerGroup) (c : Config) (now : Time)
    (streams : List String) :
    ∀ s e, (runSelected groups c now streams s).2 = some e →
      ∃ stream ∈ streams, e = "Unknown stream: " ++ stream ∧ stream ≠ Matches ∧
        stream ≠ MatchTimelines ∧ stream ≠ Elos ∧ stream ≠ Accounts := by
  induction streams with
  | nil => intro s e h; exact Option.noConfusion h
  | cons stream rest ih =>
    intro s e h
    cases hs : syncStream groups c now stream s with
    | none =>
      simp only [runSelected, hs] at h
      injection h with h
      refine ⟨stream, by simp, h.symm, ?_⟩
      unfold syncStream at hs
      refine ⟨?_, ?_, ?_, ?_⟩ <;> intro hcon <;> simp [hcon, Matches, MatchTimelines, Elos,
        Accounts] at hs
    | some r =>
      cases hr : r.panicked with
      | true => simp [runSelected, hs, hr] at h
      | false =>
        simp only [runSelected, hs, hr, Bool.false_eq_true, if_false] at h
        obtain ⟨st, hmem, hrest⟩ := ih r.state e h
        exact ⟨st, by simp [hmem], hrest⟩

theorem runSelected_four_ok (groups : List PlayerGroup) (c : Config) (now : Time) (s : State) :
    (runSelected groups c now [Matches, MatchTimelines, Elos, Accounts] s).2 = none := by
  cases h : (runSelected groups c now [Matches, MatchTimelines, Elos, Accounts] s).2 with
  | none => rfl
  | some e =>
    obtain ⟨st, hmem, _, h1, h2, h3, h4⟩ := runSelected_error groups c now _ s e h
    simp only [List.mem_cons, List.mem_singleton, List.not_mem_nil, or_false] at hmem
    rcases hmem with h | h | h | h
    · exact absurd h h1
    · exact absurd h h2
    · exact absurd h h3
    · exact absurd h h4

/-- **C11, as the code has it.** `GetSelectedStreams` returns names of
streams of the catalog only. When no stream has a root metadata entry (empty
breadcrumb) with `selected = true`, it returns all stream names in catalog
order. Otherwise it returns, in catalog order, the name of each stream once
for every such entry of the stream, so that the names returned are exactly
those of the streams so marked; when no stream has more than one such entry,
each marked stream is returned exactly once. `RunSync` with no catalog
returns no error and, unless the run panics, syncs the four streams matches,
match_timelines, elos, accounts in that order (their `SCHEMA` messages are
the ones written), just as with the catalog of `CreateCatalog`. -/
theorem GetSelectedStreams_spec (catalog : Catalog) :
    (∀ name ∈ GetSelectedStreams catalog, ∃ st ∈ catalog.Streams, st.Stream = name) ∧
    ((∀ st ∈ catalog.Streams, rootSelections st = 0) →
      GetSelectedStreams catalog = catalog.Streams.map fun st => st.Stream) ∧
    ((∃ st ∈ catalog.Streams, rootSelections st ≠ 0) →
      GetSelectedStreams catalog
          = (catalog.Streams.flatMap fun st => List.replicate (rootSelections st) st.Stream) ∧
        (∀ name, name ∈ GetSelectedStreams catalog ↔
          ∃ st ∈ catalog.Streams, rootSelections st ≠ 0 ∧ st.Stream = name) ∧
        ((∀ st ∈ catalog.Streams, rootSelections st ≤ 1) →
          GetSelectedStreams catalog
            = (catalog.Streams.filter fun st => decide (rootSelections st ≠ 0)).map
                fun st => st.Stream)) ∧
    (∀ newClient now c s,
      (RunSync newClient now c none s).2 = none ∧
      ((RunSync newClient now c none s).1.panicked = false →
        schemaStreams (RunSync newClient now c none s).1.trace
          = [Matches, MatchTimelines, Elos, Accounts]) ∧
      RunSync newClient now c none s = RunSync newClient now c (some CreateCatalog) s) := by
  have hmem : ∀ name, name ∈ (catalog.Streams.flatMap fun st =>
      List.replicate (rootSelections st) st.Stream) ↔
      ∃ st ∈ catalog.Streams, rootSelections st ≠ 0 ∧ st.Stream = name := by
    intro name
    simp only [List.mem_flatMap, List.mem_replicate]
    constructor
    · rintro ⟨st, hst, h0, hn⟩
      exact ⟨st, hst, h0, hn.symm⟩
    · rintro ⟨st, hst, h0, hn⟩
      exact ⟨st, hst, h0, hn.symm⟩
  refine ⟨?_, ?_, ?_, ?_⟩
  · intro name hname
    rw [GetSelectedStreams_eq] at hname
    split at hname
    · simp only [List.mem_map] at hname
      exact hname
    · obtain ⟨st, hst, _, hn⟩ := (hmem name).1 hname
      exact ⟨st, hst, hn⟩
  · intro hnone
    rw [GetSelectedStreams_eq, if_pos ((selections_nil_iff _).2 hnone)]
  · rintro ⟨st, hst, h0⟩
    have hne : ¬ (catalog.Streams.flatMap fun st =>
        List.replicate (rootSelections st) st.Stream) = [] := by
      intro hnil
      exact h0 ((selections_nil_iff _).1 hnil st hst)
    have heq : GetSelectedStreams catalog
        = (catalog.Streams.flatMap fun st => List.replicate (rootSelections st) st.Stream) := by
      rw [GetSelectedStreams_eq, if_neg hne]
    refine ⟨heq, ?_, ?_⟩
    · intro name
      rw [heq]
      exact hmem name
    · intro hle
      rw [heq]
      exact selections_at_most_once _ hle
  · intro newClient now c s
    have hcat : GetSelectedStreams CreateCatalog = [Matches, MatchTimelines, Elos, Accounts] := by
      decide
    refine ⟨?_, ?_, ?_⟩
    · unfold RunSync
      split
      · rfl
      · exact runSelected_four_ok _ c now s
    · unfold RunSync
      split
      · intro h; exact absurd h (by simp)
      · intro hpan
        exact runSelected_schema _ c now _ s (runSelected_four_ok _ c now s) hpan
    · simp only [RunSync, hcat]

/-- **C11, as stated, fails.** A stream with two root metadata entries that
both carry `selected = true` is returned twice. -/
theorem GetSelectedStreams_returns_stream_twice :
    GetSelectedStreams twiceSelectedCatalog = ["matches", "matches"] ∧
    ¬ (GetSelectedStreams twiceSelectedCatalog).Nodup ∧
    (twiceSelectedCatalog.Streams.map fun st => st.Stream) = ["matches"] := by
  decide

/-! ## The round trip of a watermark snapshot -/

theorem entriesGet_filter_ne {V : Type} (l : List (String × V)) (k k2 : String) (h : k2 ≠ k) :
    entriesGet (l.filter fun e => !decide (e.1 = k)) k2 = entriesGet l k2 := by
  induction l with
  | nil => rfl
  | cons e l ih =>
    obtain ⟨k', v'⟩ := e
    by_cases hk : k' = k
    · subst hk
      have : ¬ k' = k2 := fun hc => h hc.symm
      simp [List.filter_cons, entriesGet, this, ih]
    · by_cases hk2 : k' = k2
      · subst hk2
        simp [List.filter_cons, entriesGet, hk]
      · simp [List.filter_cons, entriesGet, hk, hk2, ih]

theorem entriesGet_dedupKeys {V : Type} (l : List (String × V)) (k : String) :
    entriesGet (dedupKeys l) k = entriesGet l k := by
  induction l with
  | nil => rfl
  | cons e l ih =>
    obtain ⟨k', v'⟩ := e
    by_cases hk : k' = k
    · simp [dedupKeys, entriesGet, hk]
    · have hne : k ≠ k' := fun hc => hk hc.symm
      simp only [dedupKeys, entriesGet, hk, if_false, ne_eq, decide_not]
      rw [entriesGet_filter_ne _ k' k hne, ih]

theorem dedupKeys_keys_subset {V : Type} (l : List (String × V)) (k : String)
    (h : k ∈ (dedupKeys l).map Prod.fst) : k ∈ l.map Prod.fst := by
  induction l with
  | nil => simp [dedupKeys] at h
  | cons e l ih =>
    obtain ⟨k', v'⟩ := e
    simp only [dedupKeys, List.map_cons, List.mem_cons] at h ⊢
    rcases h with h | h
    · exact Or.inl h
    · right
      apply ih
      simp only [List.mem_map, List.mem_filter] at h ⊢
      obtain ⟨a, ⟨ha, _⟩, hak⟩ := h
      exact ⟨a, ha, hak⟩

theorem dedupKeys_nodup {V : Type} (l : List (String × V)) :
    ((dedupKeys l).map Prod.fst).Nodup := by
  induction l with
  | nil => simp [dedupKeys]
  | cons e l ih =>
    obtain ⟨k', v'⟩ := e
    simp only [dedupKeys, List.map_cons, List.nodup_cons]
    constructor
    · simp only [List.mem_map, List.mem_filter, decide_eq_true_eq, not_exists, not_and]
      intro a ha hak
      exact ha.2 hak
    · exact (ih.sublist ((List.filter_sublist _).map Prod.fst))

theorem entriesGet_perm {V : Type} {l1 l2 : List (String × V)} (h : l1.Perm l2)
    (hn : (l1.map Prod.fst).Nodup) (k : String) : entriesGet l1 k = entriesGet l2 k := by
  induction h with
  | nil => rfl
  | cons x _ ih =>
    obtain ⟨k', v'⟩ := x
    simp only [List.map_cons, List.nodup_cons] at hn
    simp [entriesGet, ih hn.2]
  | swap x y l =>
    obtain ⟨kx, vx⟩ := x
    obtain ⟨ky, vy⟩ := y
    simp only [List.map_cons, List.nodup_cons, List.mem_cons, not_or] at hn
    have hxy : ky ≠ kx := hn.1.1
    by_cases h1 : kx = k
    · subst h1
      simp [entriesGet, hxy]
    · simp [entriesGet, h1]
  | trans h12 _ ih1 ih2 =>
    rw [ih1 hn]
    exact ih2 (((h12.map Prod.fst).nodup_iff).1 hn)

theorem sortedEntries_get {V : Type} (l : List (String × V)) (k : String) :
    entriesGet (sortedEntries l) k = entriesGet l k := by
  have hperm := List.perm_insertionSort (fun a b : String × V => keyLe a.1 b.1 = true)
    (dedupKeys l)
  have hn : ((sortedEntries l).map Prod.fst).Nodup :=
    ((hperm.map Prod.fst).nodup_iff).2 (dedupKeys_nodup l)
  unfold sortedEntries at hn ⊢
  rw [entriesGet_perm hperm hn, entriesGet_dedupKeys]

theorem sortedEntries_nodup {V : Type} (l : List (String × V)) :
    ((sortedEntries l).map Prod.fst).Nodup :=
  (((List.perm_insertionSort (fun a b : String × V => keyLe a.1 b.1 = true)
    (dedupKeys l)).map Prod.fst).nodup_iff).2 (dedupKeys_nodup l)

theorem entriesGet_none_of_not_mem {V : Type} (l : List (String × V)) (k : String)
    (h : k ∉ l.map Prod.fst) : entriesGet l k = none := by
  induction l with
  | nil => rfl
  | cons e l ih =>
    obtain ⟨k', v'⟩ := e
    simp only [List.map_cons, List.mem_cons, not_or] at h
    have : ¬ k' = k := fun hc => h.1 hc.symm
    simp [entriesGet, this, ih h.2]

/-- Writing entries with distinct keys into a map: a read finds the entry
written under the key, or what the map had. -/
theorem setAll_get {V : Type} (es : List (String × V)) :
    ∀ acc : List (String × V), (es.map Prod.fst).Nodup → ∀ k,
      entriesGet (setAll es acc) k
        = match entriesGet es k with
          | some v => some v
          | none => entriesGet acc k := by
  induction es with
  | nil => intro acc _ k; rfl
  | cons e es ih =>
    intro acc hn k
    obtain ⟨k', v'⟩ := e
    simp only [List.map_cons, List.nodup_cons] at hn
    have hstep : setAll ((k', v') :: es) acc = setAll es (entriesSet acc k' v') := rfl
    rw [hstep, ih _ hn.2 k]
    by_cases hk : k' = k
    · subst hk
      rw [entriesGet_none_of_not_mem es k' hn.1]
      simp [entriesGet, entriesGet_set_self]
    · have hne : k ≠ k' := fun hc => hk hc.symm
      simp only [entriesGet, hk, if_false]
      cases entriesGet es k with
      | none => simp [entriesGet_set_ne acc k' k v' hne]
      | some v => rfl

theorem entriesGet_map {V W : Type} (g : V → W) (l : List (String × V)) (k : String) :
    entriesGet (l.map fun e => (e.1, g e.2)) k = (entriesGet l k).map g := by
  induction l with
  | nil => rfl
  | cons e l ih =>
    obtain ⟨k', v'⟩ := e
    by_cases hk : k' = k
    · simp [entriesGet, hk]
    · simp [entriesGet, hk, ih]

theorem decodeEntries_map {V W : Type} (enc : V → Json) (dec : Json → Except String W)
    (g : V → W) (h : ∀ v, dec (enc v) = .ok (g v)) (l : List (String × V)) :
    decodeEntries dec (l.map fun e => (e.1, enc e.2)) = .ok (l.map fun e => (e.1, g e.2)) := by
  induction l with
  | nil => rfl
  | cons e l ih =>
    obtain ⟨k', v'⟩ := e
    simp only [List.map_cons, decodeEntries, h, ih]

theorem decodeStringMap_marshal (m : GoMap String) :
    decodeStringMap (marshalInner m) none = .ok (roundInner m) := by
  cases m with
  | none => rfl
  | some es =>
    have h := decodeEntries_map (fun v : String => Json.str v) (fun jv => decodeString jv "")
      (fun v => v) (fun _ => rfl) (sortedEntries es)
    have hid : ((sortedEntries es).map fun e => (e.1, e.2)) = sortedEntries es := by simp
    rw [hid] at h
    simp only [marshalInner, decodeStringMap, h, roundInner, Option.getD]

theorem roundInner_same (m : GoMap String) : sameInner (roundInner m) m := by
  cases m with
  | none => exact ⟨Iff.rfl, fun _ => rfl⟩
  | some es =>
    refine ⟨by simp [roundInner], fun k => ?_⟩
    simp only [roundInner, GoMap.get]
    rw [setAll_get _ _ (sortedEntries_nodup es), sortedEntries_get]
    cases entriesGet es k <;> rfl

theorem decodeValue_marshal (v : StateValue) :
    decodeValue (marshalValue v) none = .ok (roundValue v) := by
  cases v with
  | none => rfl
  | some l =>
    have h := decodeEntries_map marshalInner (fun jv => decodeStringMap jv none) roundInner
      decodeStringMap_marshal (sortedEntries l)
    simp only [marshalValue, decodeValue, h, roundValue, Option.getD]

theorem roundValue_get (l : List (String × GoMap String)) (k : String) :
    GoMap.get (roundValue (some l)) k = (entriesGet l k).map roundInner := by
  have hn : (((sortedEntries l).map fun e => (e.1, roundInner e.2)).map Prod.fst).Nodup := by
    have := sortedEntries_nodup l
    simpa [List.map_map, Function.comp] using this
  simp only [roundValue, GoMap.get]
  rw [setAll_get _ _ hn, entriesGet_map, sortedEntries_get]
  cases entriesGet l k <;> rfl

theorem roundValue_same (v : StateValue) : sameValue (roundValue v) v := by
  cases v with
  | none => exact ⟨Iff.rfl, fun _ => trivial⟩
  | some l =>
    refine ⟨by simp [roundValue], fun k => ?_⟩
    rw [roundValue_get]
    simp only [GoMap.get]
    cases entriesGet l k with
    | none => trivial
    | some m => exact roundInner_same m

theorem roundValue_lookup (v : StateValue) (stream identity : String) :
    lookupWatermark (roundValue v) stream identity = lookupWatermark v stream identity := by
  cases v with
  | none => rfl
  | some l =>
    unfold lookupWatermark
    rw [roundValue_get]
    simp only [GoMap.get]
    cases entriesGet l stream with
    | none => rfl
    | some m => exact (roundInner_same m).2 identity

theorem decodeState_Write (s : State) :
    decodeState (State.Write s) = .ok ⟨roundValue s.Value⟩ := by
  have h1 : keyMatches "type" "value" = false := by decide
  have h2 : keyMatches "value" "value" = true := by decide
  simp [State.Write, decodeState, stateFields, h1, h2, decodeValue_marshal]

/-- **C12.** Writing a state as a `STATE` message with `State.Write` and
decoding the message with the decoder of `LoadState` succeeds and yields a
state with the same value map: nil exactly when the snapshot's is, the same
stream keys, under each the same map of identities to dates; so every
(stream, identity) pair resumes from the date it had in the snapshot. -/
theorem state_message_round_trip (s : State) :
    ∃ s2, LoadState (.document (State.Write s)) = .ok s2 ∧ sameValue s2.Value s.Value ∧
      ∀ stream identity,
        lookupWatermark s2.Value stream identity = lookupWatermark s.Value stream identity :=
  ⟨⟨roundValue s.Value⟩, decodeState_Write s, roundValue_same s.Value,
    roundValue_lookup s.Value⟩

/-! ## Configurations that lack a field -/

set_option maxRecDepth 100000 in
/-- **C13, as stated, fails.** A configuration document without a start date
loads without error, and `RunSync` on it returns no error: it writes the four
`SCHEMA` messages, the account record and a `STATE` message. The empty
document loads as the zero configuration (no credentials, no start date), on
which `RunSync` returns no error either and writes the four `SCHEMA`
messages. -/
theorem missing_field_is_not_rejected :
    LoadConfig (.document noStartDateDocument) = .ok noStartDateConfig ∧
    (RunSync (fun _ _ => demoClient) demoNow noStartDateConfig none ⟨some []⟩).2 = none ∧
    (RunSync (fun _ _ => demoClient) demoNow noStartDateConfig none ⟨some []⟩).1.panicked
      = false ∧
    schemaStreams (RunSync (fun _ _ => demoClient) demoNow noStartDateConfig none
        ⟨some []⟩).1.trace
      = ["matches", "match_timelines", "elos", "accounts"] ∧
    outputs (RunSync (fun _ _ => demoClient) demoNow noStartDateConfig none ⟨some []⟩).1.trace
      = [.record "accounts" (.account ⟨"puuid-Faker", "Faker", "KR1"⟩), .state (some [])] ∧
    LoadConfig (.document (.obj [])) = .ok zeroConfig ∧
    (RunSync (fun _ _ => demoClient) demoNow zeroConfig none ⟨some []⟩).2 = none ∧
    schemaStreams (RunSync (fun _ _ => demoClient) demoNow zeroConfig none ⟨some []⟩).1.trace
      = ["matches", "match_timelines", "elos", "accounts"] :=
  ⟨by rfl, by decide, by decide, by decide, by decide, by rfl, by decide, by decide⟩

/-- A document with no key for the start date loads with the empty start
date. -/
theorem configFields_keeps_startDate (fields : List (String × Json)) :
    ∀ cur c, configFields fields cur = .ok c →
      (∀ e ∈ fields, keyMatches e.1 "start_date" = false) → c.StartDate = cur.StartDate := by
  induction fields with
  | nil =>
    intro cur c h _
    simp only [configFields] at h
    injection h with h
    rw [h]
  | cons e rest ih =>
    obtain ⟨k, jv⟩ := e
    intro cur c h hk
    have hk0 : keyMatches k "start_date" = false := hk (k, jv) (by simp)
    have ih2 : ∀ cur2, configFields rest cur2 = .ok c → c.StartDate = cur2.StartDate :=
      fun cur2 hc => ih cur2 c hc (fun e he => hk e (by simp [he]))
    unfold configFields at h
    split at h
    · split at h
      · exact Except.noConfusion h
      · exact (ih2 _ h :)
    · split at h
      · split at h
        · exact Except.noConfusion h
        · exact (ih2 _ h :)
      · split at h
        · split at h
          · exact Except.noConfusion h
          · exact (ih2 _ h :)
        · split at h
          · next hm => rw [hk0] at hm; exact absurd hm (by simp)
          · split at h
            · split at h
              · exact Except.noConfusion h
              · exact (ih2 _ h :)
            · exact (ih2 _ h :)

/-- A document with no key for the credentials loads with no credential. -/
theorem configFields_keeps_apiKeys (fields : List (String × Json)) :
    ∀ cur c, configFields fields cur = .ok c →
      (∀ e ∈ fields, keyMatches e.1 "api_keys" = false) → c.APIKeys = cur.APIKeys := by
  induction fields with
  | nil =>
    intro cur c h _
    simp only [configFields] at h
    injection h with h
    rw [h]
  | cons e rest ih =>
    obtain ⟨k, jv⟩ := e
    intro cur c h hk
    have hk0 : keyMatches k "api_keys" = false := hk (k, jv) (by simp)
    have ih2 : ∀ cur2, configFields rest cur2 = .ok c → c.APIKeys = cur2.APIKeys :=
      fun cur2 hc => ih cur2 c hc (fun e he => hk e (by simp [he]))
    unfold configFields at h
    split at h
    · next hm => rw [hk0] at hm; exact absurd hm (by simp)
    · split at h
      · split at h
        · exact Except.noConfusion h
        · exact (ih2 _ h :)
      · split at h
        · split at h
          · exact Except.noConfusion h
          · exact (ih2 _ h :)
        · split at h
          · split at h
            · exact Except.noConfusion h
            · exact (ih2 _ h :)
          · split at h
            · split at h
              · exact Except.noConfusion h
              · exact (ih2 _ h :)
            · exact (ih2 _ h :)

/-- With no start date, an identity without a watermark is skipped by each
of the three watermarked workers. -/
theorem no_start_date_skips (service : RiotService) (c : Config) (now : Time) (s : State)
    (player : String) (hc : c.StartDate = "") :
    (lookupWatermark s.Value Matches player = none → matchesFailsEarly service c s player = true) ∧
    (lookupWatermark s.Value Elos player = none →
      elosFailsEarly service c now s player = true) ∧
    (lookupWatermark s.Value MatchTimelines player = none →
      timelinesFailsEarly service c s player = true) := by
  have hp : startDateAsTime "" = none := by decide
  refine ⟨fun h => ?_, fun h => ?_, fun h => ?_⟩
  · simp [matchesFailsEarly, h, hc, hp]
  · simp [elosFailsEarly, h, hc, hp]
  · simp [timelinesFailsEarly, h, hc, hp]

/-- With no credential and no player, `RunSync` without a catalog writes the
four `SCHEMA` messages and the `STATE` message of the accounts stream, and
returns no error. -/
theorem RunSync_without_credentials (newClient : String → String → Client) (now : Time)
    (c : Config) (s : State) (hkeys : c.APIKeys = []) (hplayers : c.Players = []) :
    RunSync newClient now c none s
      = (⟨s, [.log "Starting sync of matches", .schema Matches ["matchId"],
              .log "Starting sync of match timelines", .schema MatchTimelines ["matchId"],
              .log "Starting sync of elos", .schema Elos ["puuid", "date"],
              .log "Starting sync of accounts", .schema Accounts ["puuid"],
              .state s.Value], false⟩, none) := by
  have h1 : ¬ MatchTimelines = Matches := by decide
  have h2 : ¬ Elos = Matches := by decide
  have h3 : ¬ Elos = MatchTimelines := by decide
  have h4 : ¬ Accounts = Matches := by decide
  have h5 : ¬ Accounts = MatchTimelines := by decide
  have h6 : ¬ Accounts = Elos := by decide
  simp [RunSync, createRiotServicePool, hkeys, hplayers, distributePlayersToServices,
    distributeLoop, runSelected, syncStream, syncMatchesConcurrent,
    syncMatchTimelinesConcurrent, syncElosConcurrent, syncAccountsConcurrent, runWorkers,
    Run.seq, h1, h2, h3, h4, h5, h6]

/-- **C13, as the code has it.** No field of the configuration is validated.
`LoadConfig` fails when the file cannot be opened or is not JSON; a document
that decodes loads with the zero value of each field it lacks (no credential,
empty start date). The only error `RunSync` returns is the one for a selected
stream that is none of the four, and with no catalog it returns none. With no
start date, each identity that has no watermark is skipped by the matches,
ranking and timelines workers; with no credential and no player the run
writes the four `SCHEMA` messages and the accounts `STATE` message. -/
theorem config_fields_are_not_validated (newClient : String → String → Client) (now : Time)
    (c : Config) (cat : Catalog) (s : State) :
    ((∃ e, LoadConfig .missing = .error e) ∧ (∃ e, LoadConfig .malformed = .error e)) ∧
    (∀ fields cfg, LoadConfig (.document (.obj fields)) = .ok cfg →
      ((∀ e ∈ fields, keyMatches e.1 "api_keys" = false) → cfg.APIKeys = []) ∧
      ((∀ e ∈ fields, keyMatches e.1 "start_date" = false) → cfg.StartDate = "")) ∧
    (∀ e, (RunSync newClient now c (some cat) s).2 = some e →
      ∃ stream ∈ GetSelectedStreams cat, e = "Unknown stream: " ++ stream ∧ stream ≠ Matches ∧
        stream ≠ MatchTimelines ∧ stream ≠ Elos ∧ stream ≠ Accounts) ∧
    (RunSync newClient now c none s).2 = none ∧
    (c.StartDate = "" → ∀ service player,
      (lookupWatermark s.Value Matches player = none →
        matchesFailsEarly service c s player = true) ∧
      (lookupWatermark s.Value Elos player = none →
        elosFailsEarly service c now s player = true) ∧
      (lookupWatermark s.Value MatchTimelines player = none →
        timelinesFailsEarly service c s player = true)) ∧
    (c.APIKeys = [] → c.Players = [] →
      RunSync newClient now c none s
        = (⟨s, [.log "Starting sync of matches", .schema Matches ["matchId"],
                .log "Starting sync of match timelines", .schema MatchTimelines ["matchId"],
                .log "Starting sync of elos", .schema Elos ["puuid", "date"],
                .log "Starting sync of accounts", .schema Accounts ["puuid"],
                .state s.Value], false⟩, none)) := by
  refine ⟨⟨⟨_, rfl⟩, ⟨_, rfl⟩⟩, ?_, ?_, ?_, ?_, ?_⟩
  · intro fields cfg h
    have hcf : configFields fields zeroConfig = .ok cfg := by
      simp only [LoadConfig] at h
      split at h
      · exact Except.noConfusion h
      · next c0 hc0 =>
        injection h with h
        rw [hc0, h]
    exact ⟨fun hk => configFields_keeps_apiKeys fields zeroConfig cfg hcf hk,
      fun hk => configFields_keeps_startDate fields zeroConfig cfg hcf hk⟩
  · intro e he
    unfold RunSync at he
    split at he
    · exact Option.noConfusion he
    · exact runSelected_error _ c now _ s e he
  · unfold RunSync
    split
    · rfl
    · exact runSelected_four_ok _ c now s
  · intro hc service player
    exact no_start_date_skips service c now s player hc
  · intro hkeys hplayers
    exact RunSync_without_credentials newClient now c s hkeys hplayers

set_option maxRecDepth 100000 in
theorem config_fields_are_not_validated_witness :
    noStartDateConfig.StartDate = "" ∧
    lookupWatermark (some []) Matches "Faker#KR1" = none ∧
    matchesFailsEarly demoService noStartDateConfig ⟨some []⟩ "Faker#KR1" = true ∧
    (RunSync (fun _ _ => demoClient) demoNow noStartDateConfig none ⟨some []⟩).2 = none :=
  ⟨by decide, by decide,
    ((config_fields_are_not_validated (fun _ _ => demoClient) demoNow noStartDateConfig
      CreateCatalog ⟨some []⟩).2.2.2.2.1 (by decide) demoService "Faker#KR1").1 (by decide),
    (config_fields_are_not_validated (fun _ _ => demoClient) demoNow noStartDateConfig
      CreateCatalog ⟨some []⟩).2.2.2.1⟩

/-- With no credential the sharding of any player panics (integer division
by zero in the hash). -/
theorem sharding_panics_without_credentials (player : String) (rest : List String) :
    hashPlayerToServiceIndex player 0 = none ∧
      distributePlayersToServices [] (player :: rest) = none := by
  have h : hashPlayerToServiceIndex player 0 = none := by
    unfold hashPlayerToServiceIndex
    simp
  refine ⟨h, ?_⟩
  have h0 : hashPlayerToServiceIndex player ((([] : List RiotService).length : Nat) : Int)
      = none := h
  simp only [distributePlayersToServices, distributeLoop, h0]

theorem GetSelectedStreams_spec_witness :
    GetSelectedStreams elosAccountsCatalog = ["elos", "accounts"] ∧
    GetSelectedStreams elosAccountsCatalog
      = (elosAccountsCatalog.Streams.filter fun st => decide (rootSelections st ≠ 0)).map
          fun st => st.Stream :=
  ⟨by decide,
    ((GetSelectedStreams_spec elosAccountsCatalog).2.2.1
      ⟨elosAccountsCatalog.Streams.getLast (by decide), by decide, by decide⟩).2.2
      (by decide)⟩

/-! ## A failed id listing -/

/-- **C8.** Evaluation on an identity whose id listing fails: the account of
`Faker#KR1` resolves, and the channel of `ListStream` delivers one value that
carries the error. `getMatchIdsByPlayer` returns no error but the id list
holding the empty id of that value, so the worker does not skip the identity:
it tries to fetch the match with the empty id, then advances the watermark of
`Faker#KR1` from 2024-02-01 to today and writes a `STATE` message. The
`STATE` message of the identity after it in the shard, and the state the
worker leaves, differ from those of the shard without `Faker#KR1`. -/
theorem failed_listing_advances_watermark :
    getMatchIdsByPlayer listFailService "Faker#KR1"
        { year := 2024, month := 2, day := 1, nsec := 0 } 420
      = (.ok [""],
         [.call (.GetByRiotID "Faker" "KR1"), .sleep 1400000000,
          .call (.ListStream "puuid-Faker" 420 { year := 2024, month := 2, day := 1, nsec := 0 }),
          .sleep 1400000000]) ∧
    matchesFailsEarly listFailService demoConfig
      ⟨some [("matches", some [("Faker#KR1", "2024-02-01")])]⟩ "Faker#KR1" = false ∧
    outputs (matchesPlayer listFailService demoConfig demoNow 0 2 0
        ⟨some [("matches", some [("Faker#KR1", "2024-02-01")])]⟩ "Faker#KR1").trace
      = [.state (some [("matches", some [("Faker#KR1", "2024-03-05")])])] ∧
    lookupWatermark (matchesPlayer listFailService demoConfig demoNow 0 2 0
        ⟨some [("matches", some [("Faker#KR1", "2024-02-01")])]⟩ "Faker#KR1").state.Value
      Matches "Faker#KR1" = some "2024-03-05" ∧
    outputs (matchesWorker listFailService demoConfig demoNow 0 ["Faker#KR1", "Chovy#KR1"]
        ⟨some [("matches", some [("Faker#KR1", "2024-02-01")])]⟩).trace
      = [.state (some [("matches", some [("Faker#KR1", "2024-03-05")])]),
         .record "matches" (.matchWithID ⟨⟨⟨"KR_1"⟩, "info"⟩, "KR_1"⟩),
         .state (some [("matches",
           some [("Faker#KR1", "2024-03-05"), ("Chovy#KR1", "2024-03-05")])])] ∧
    outputs (matchesWorker listFailService demoConfig demoNow 0 ["Chovy#KR1"]
        ⟨some [("matches", some [("Faker#KR1", "2024-02-01")])]⟩).trace
      = [.record "matches" (.matchWithID ⟨⟨⟨"KR_1"⟩, "info"⟩, "KR_1"⟩),
         .state (some [("matches",
           some [("Faker#KR1", "2024-02-01"), ("Chovy#KR1", "2024-03-05")])])] ∧
    outputs (timelinesPlayer listFailService demoConfig demoNow 0 1 0
        ⟨some [("match_timelines", some [("Faker#KR1", "2024-02-01")])]⟩ "Faker#KR1").trace
      = [.record "match_timelines" (.timeline ⟨["frame"], ["event"], ""⟩),
         .state (some [("match_timelines", some [("Faker#KR1", "2024-03-05")])])] :=
  ⟨by rfl, by decide, by decide, by decide, by decide, by decide, by decide⟩

end TapRiot
